import Mathlib

/-!
# skill-porter TUI: discovery + orchestration engine

A shallow embedding of the Go sources under `internal/skillportertui` and of
`cmd/skill-porter-tui/main.go`, followed by theorems about it.

Conventions of the embedding.

* Go's `string`-based types `ConversionStatus` and `ConversionTarget` are open
  string types; they are embedded as `String`, so values outside the declared
  constants (for instance the zero value `""`) are representable, as in Go.
* Go's `int` is embedded as `Int`. The counters are reset to zero by every
  discovery and grow by one per processed event, so in a run of the program
  they stay far away from the machine word boundary and `Update` counts in the
  integers. `Update64` is the same controller with the two counter increments
  wrapping around as a 64-bit `int` does; the theorems about a completion
  event that increments the counter of an arbitrary model are stated for it,
  and `Update64_eq_Update` says that the two controllers agree while both
  counters are below the largest `int`.
* `strings.ToLower` follows the Unicode case tables. The functions that call it
  (`BuildConvertCommandWith`, `LoadWith`, `convertSkillCmd_runWith`) take it as
  the parameter `lower`; `BuildConvertCommand`, `Load` and `convertSkillCmd_run`
  are their instances at the ASCII map `toLower`, with which `strings.ToLower`
  agrees on strings of ASCII characters.
* A slice index out of range panics in Go; the embedded functions return
  `none` there.
* `tea.Cmd` values are closures handed to the runtime. They are embedded as
  data (`Closure`, `Cmd`) recording which closure was built and what it captured;
  `convertSkillCmd_run` is the body of the conversion closure.
* The model holds `Config` as a pointer (`*config.AppConfig`) which every
  conversion closure shares; the embedding stores the pointee in the model and
  passes the configuration to the closure body when the closure runs.
* Library code (bubbles `textinput`, `filepath.Join`, `filepath.Base`, the
  operating system process) is taken as a parameter (`Lib`, `ProcResult`, the
  `join` and `base` arguments of the scan).
* The file system the scan walks is a tree of files and directories (`Entry`);
  `walkDir` and `walkList` follow `filepath.WalkDir` on it.
* `config.Load` gets the parsed command line, the environment variables, the
  working directory and the answers of the file system as a parameter
  (`LoadEnv`).
-/

namespace SkillPorter

/-! ## domain/types.go -/

/-- Go: `type ConversionStatus string`. -/
abbrev ConversionStatus := String

def StatusPending : ConversionStatus := "Pending"
def StatusRunning : ConversionStatus := "Running"
def StatusSuccess : ConversionStatus := "Success"
def StatusFailed : ConversionStatus := "Failed"

/-- Go: `type ConversionTarget string`. -/
abbrev ConversionTarget := String

def TargetGemini : ConversionTarget := "Gemini"
def TargetClaude : ConversionTarget := "Claude"
def TargetAuto : ConversionTarget := "Auto"

/-- Go: `domain.SkillDir`, a discovered skill directory and its conversion state. -/
structure SkillDir where
  Name : String
  Path : String
  CurrentPlatform : String
  Status : ConversionStatus
  Target : ConversionTarget
  OutputPath : String
  ErrorLog : String
deriving DecidableEq, Repr

/-- Go: `domain.Summary`, the counts shown in the footer. -/
structure Summary where
  Total : Int
  Success : Int
  Failed : Int
  Pending : Int
deriving DecidableEq, Repr

/-! ## config/config.go (the record only) -/

/-- Go: `config.AppConfig`. -/
structure AppConfig where
  ScanRoot : String
  RecursiveMode : Bool
  DefaultTarget : ConversionTarget
  OutBaseDir : String
  AutoConvertMode : Bool
  Debug : Bool
deriving DecidableEq, Repr

/-! ## conversion/command_builder.go -/

/-- The ASCII part of Go's `strings.ToLower`: `A`..`Z` are mapped to `a`..`z`,
every other character is kept. On a string of ASCII characters this is
`strings.ToLower`; outside ASCII the Go function follows the Unicode case
tables (it maps U+0130 to `i`, for instance), which `toLower` does not. -/
def toLower (s : String) : String := String.mk (s.data.map Char.toLower)

/-- Go: `conversion.BuildConvertCommand`, with the library function
`strings.ToLower` as the parameter `lower`. The error is represented by its
message. -/
def BuildConvertCommandWith (lower : String → String) (inputPath : String)
    (target : ConversionTarget) (outputDir : String) : Except String (List String) :=
  if inputPath = "" then
    .error "input path is required"
  else
    let t := lower target
    if t = "gemini" ∨ t = "claude" then
      let args := ["convert", inputPath, "--to", t]
      if outputDir ≠ "" then
        .ok (args ++ ["--output", outputDir])
      else
        .ok args
    else if t = "auto" then
      .error "cannot build command for 'Auto' target; must be resolved"
    else
      .error ("unsupported target: " ++ target)

/-- Go: `conversion.BuildConvertCommand` where `strings.ToLower` is the ASCII map
`toLower`, which is what it is on every target made of ASCII characters. -/
def BuildConvertCommand (inputPath : String) (target : ConversionTarget) (outputDir : String) :
    Except String (List String) :=
  BuildConvertCommandWith toLower inputPath target outputDir

/-! ## conversion/executor.go -/

/-- What the operating system reports for one run of an external command:
the captured standard output and standard error, and the error of `cmd.Run()`
(its message) when the process could not be started, exited non-zero or was
killed by the context. -/
structure ProcResult where
  stdout : String
  stderr : String
  err : Option String
deriving DecidableEq, Repr

/-- Go: `conversion.ExecuteCommand`, given the outcome of `cmd.Run()`. Returns the
pair `(output, err)`. -/
def ExecuteCommand (r : ProcResult) : String × Option String :=
  match r.err with
  | some e => (r.stdout, some ("command failed: " ++ e ++ "\nStderr: " ++ r.stderr))
  | none => (r.stdout, none)

/-! ## domain/messages.go and the runtime's messages -/

/-- The messages `Update` receives (`tea.Msg`). A key message is represented by
`msg.String()`, an error by its message. -/
inductive Msg where
  | KeyMsg (key : String)
  | WindowSizeMsg (Width Height : Int)
  | SkillsDiscoveredMsg (Skills : List SkillDir)
  | SkillConvertedMsg (SkillPath Output : String)
  | ConversionErrorMsg (SkillPath Err : String)
  | other (tag : Nat)
deriving DecidableEq, Repr

/-! ## ui/model.go -/

/-- Go: `ui.SessionState`. -/
inductive SessionState where
  | StateConfig
  | StateBrowsing
deriving DecidableEq, Repr

/-- The part of a bubbles `textinput.Model` that the controller reads or
writes: its value, whether it has the focus, and whether `TextStyle` is the
selected-item style. -/
structure TextInput where
  Value : String
  focus : Bool
  selectedStyle : Bool
deriving DecidableEq, Repr

/-- One closure handed to the runtime. `convertSkillCmd s override` records the
snapshot `s := *skill` taken when the closure was built and the override; the
configuration is shared through a pointer and therefore not part of the
record. -/
inductive Closure where
  | Quit
  | Blink
  | inputCmd (tag : Nat)
  | discoverSkillsCmd (root : String) (recursive : Bool)
  | convertSkillCmd (s : SkillDir) (override : ConversionTarget)
deriving DecidableEq, Repr

/-- Go: `tea.Cmd` as returned by `Update`: `nil`, one closure, or
`tea.Batch(cmds...)` over a slice whose slots may be `nil`. -/
inductive Cmd where
  | nil
  | single (t : Closure)
  | Batch (cmds : List (Option Closure))
deriving DecidableEq, Repr

/-- The closures the runtime runs for a command. -/
def Cmd.closures : Cmd → List Closure
  | .nil => []
  | .single t => [t]
  | .Batch cmds => cmds.filterMap id

/-- Whether a closure is a conversion job. -/
def Closure.isJob : Closure → Bool
  | .convertSkillCmd _ _ => true
  | _ => false

/-- The conversion jobs dispatched by a command. -/
def Cmd.jobs (c : Cmd) : List Closure := c.closures.filter Closure.isJob

/-- Library functions the controller calls: `textinput.Model.Update` and
`filepath.Join`. -/
structure Lib where
  inputUpdate : TextInput → Msg → TextInput × Option Closure
  filepathJoin : String → String → String

/-- Go: `ui.Model` (without the logger, which `Update` never touches). -/
structure Model where
  Config : AppConfig
  State : SessionState
  Inputs : List TextInput
  FocusIndex : Int
  Skills : List SkillDir
  Cursor : Int
  SuccessCount : Int
  FailCount : Int
  Err : Option String
  width : Int
  height : Int
deriving DecidableEq, Repr

/-- Go: `ui.NewModel`. -/
def NewModel (cfg : AppConfig) : Model :=
  { Config := cfg
    State := .StateConfig
    Inputs := [ { Value := cfg.ScanRoot, focus := true, selectedStyle := false },
                { Value := cfg.OutBaseDir, focus := false, selectedStyle := false } ]
    FocusIndex := 0
    Skills := []
    Cursor := 0
    SuccessCount := 0
    FailCount := 0
    Err := none
    width := 0
    height := 0 }

/-! ## ui/update.go: the conversion closure -/

/-- The target resolution at the start of the closure returned by
`convertSkillCmd` (update.go, `target := override` down to the platform
fallback), for the snapshot `s`, the configuration `cfg` and `override`. -/
def convertSkillCmd_target (s : SkillDir) (cfg : AppConfig) (override : ConversionTarget) :
    ConversionTarget :=
  let target := override
  let target := if target = TargetAuto then s.Target else target
  let target := if target = TargetAuto then cfg.DefaultTarget else target
  if target = TargetAuto then
    if s.CurrentPlatform = "Claude" then TargetGemini
    else if s.CurrentPlatform = "Gemini" then TargetClaude
    else TargetGemini
  else target

/-- The output directory computed by the closure: `filepath.Join(outDir, s.Name)`
when an output base is configured, the empty string otherwise. -/
def convertSkillCmd_outDir (join : String → String → String) (s : SkillDir) (cfg : AppConfig) :
    String :=
  if cfg.OutBaseDir ≠ "" then join cfg.OutBaseDir s.Name else cfg.OutBaseDir

/-- The body of the closure returned by `convertSkillCmd(skill, cfg, override)`:
`s` is the snapshot `*skill` taken when the closure was built, `cfg` the shared
configuration as the closure finds it, `proc` what the external process does
with the built arguments, `lower` the library function `strings.ToLower` that
`BuildConvertCommand` calls. -/
def convertSkillCmd_runWith (lower : String → String) (join : String → String → String)
    (s : SkillDir) (cfg : AppConfig) (override : ConversionTarget)
    (proc : List String → ProcResult) : Msg :=
  let target := convertSkillCmd_target s cfg override
  let outDir := convertSkillCmd_outDir join s cfg
  match BuildConvertCommandWith lower s.Path target outDir with
  | .error err => .ConversionErrorMsg s.Path err
  | .ok args =>
    match ExecuteCommand (proc args) with
    | (_, some err) => .ConversionErrorMsg s.Path err
    | (output, none) => .SkillConvertedMsg s.Path output

/-- The closure body where `strings.ToLower` is the ASCII map `toLower`. -/
def convertSkillCmd_run (join : String → String → String) (s : SkillDir) (cfg : AppConfig)
    (override : ConversionTarget) (proc : List String → ProcResult) : Msg :=
  convertSkillCmd_runWith toLower join s cfg override proc

/-! ## ui/update.go: the controller -/

/-- Slice indexing `xs[i]` with a Go `int` index; `none` is the index-out-of-range
panic. -/
def getAt {α : Type} (xs : List α) (i : Int) : Option α :=
  if 0 ≤ i then xs[i.toNat]? else none

/-- Go: the `SkillConvertedMsg` loop of `updateBrowsing`: the first entity whose
path equals `path` gets status `Success` and the output; the flag tells whether
an entity matched (and so whether `SuccessCount++` ran). -/
def markConverted (path output : String) : List SkillDir → List SkillDir × Bool
  | [] => ([], false)
  | s :: rest =>
    if s.Path = path then
      ({ s with Status := StatusSuccess, OutputPath := output } :: rest, true)
    else
      ((s :: (markConverted path output rest).1), (markConverted path output rest).2)

/-- Go: the `ConversionErrorMsg` loop of `updateBrowsing`: the first entity whose
path equals `path` gets status `Failed` and the error text; the flag tells
whether an entity matched (and so whether `FailCount++` ran). -/
def markFailed (path err : String) : List SkillDir → List SkillDir × Bool
  | [] => ([], false)
  | s :: rest =>
    if s.Path = path then
      ({ s with Status := StatusFailed, ErrorLog := err } :: rest, true)
    else
      ((s :: (markFailed path err rest).1), (markFailed path err rest).2)

/-- Go: the loop of case `"A"` of `updateBrowsing`: every entity whose status is
`Pending` is set to `Running` and one closure is appended for it, built from the
entity as it is after the assignment. -/
def convertAllPending : List SkillDir → List SkillDir × List Closure
  | [] => ([], [])
  | s :: rest =>
    if s.Status = StatusPending then
      ({ s with Status := StatusRunning } :: (convertAllPending rest).1,
        Closure.convertSkillCmd { s with Status := StatusRunning } TargetAuto
          :: (convertAllPending rest).2)
    else
      (s :: (convertAllPending rest).1, (convertAllPending rest).2)

/-- Go: cases `"g"` and `"a"` of `updateBrowsing`: the selected entity is set to
`Running` whatever its status and one closure with the given override is built. -/
def forceConvert (m : Model) (override : ConversionTarget) : Option (Model × Cmd) :=
  if m.Skills.length > 0 then
    match getAt m.Skills m.Cursor with
    | none => none
    | some skill =>
      some ({ m with Skills := m.Skills.set m.Cursor.toNat { skill with Status := StatusRunning } },
        .single (.convertSkillCmd { skill with Status := StatusRunning } override))
  else some (m, .nil)

/-- Go: `Model.updateBrowsing`. -/
def updateBrowsing (m : Model) (msg : Msg) : Option (Model × Cmd) :=
  match msg with
  | .KeyMsg key =>
    if key = "q" then some (m, .single .Quit)
    else if key = "up" ∨ key = "k" then
      some (if m.Cursor > 0 then { m with Cursor := m.Cursor - 1 } else m, .nil)
    else if key = "down" ∨ key = "j" then
      some (if m.Cursor < (m.Skills.length : Int) - 1 then { m with Cursor := m.Cursor + 1 } else m,
        .nil)
    else if key = "c" then
      if m.Skills.length > 0 then
        match getAt m.Skills m.Cursor with
        | none => none
        | some skill =>
          if skill.Status = StatusPending ∨ skill.Status = StatusFailed then
            some ({ m with
                    Skills := m.Skills.set m.Cursor.toNat { skill with Status := StatusRunning } },
              .single (.convertSkillCmd { skill with Status := StatusRunning } TargetAuto))
          else some (m, .nil)
      else some (m, .nil)
    else if key = "g" then forceConvert m TargetGemini
    else if key = "a" then forceConvert m TargetClaude
    else if key = "r" then
      some ({ m with Skills := [], Cursor := 0, SuccessCount := 0, FailCount := 0 },
        .single (.discoverSkillsCmd m.Config.ScanRoot m.Config.RecursiveMode))
    else if key = "A" then
      let r := convertAllPending m.Skills
      some ({ m with Skills := r.1 },
        if r.2.length > 0 then .Batch (r.2.map some) else .nil)
    else if key = "backspace" ∨ key = "delete" then some (m, .nil)
    else if key = "esc" then some ({ m with State := .StateConfig }, .nil)
    else some (m, .nil)
  | .SkillsDiscoveredMsg skills =>
    some ({ m with Skills := skills, Cursor := 0, SuccessCount := 0, FailCount := 0 }, .nil)
  | .SkillConvertedMsg path output =>
    let r := markConverted path output m.Skills
    some ({ m with Skills := r.1,
                   SuccessCount := if r.2 then m.SuccessCount + 1 else m.SuccessCount }, .nil)
  | .ConversionErrorMsg path err =>
    let r := markFailed path err m.Skills
    some ({ m with Skills := r.1,
                   FailCount := if r.2 then m.FailCount + 1 else m.FailCount }, .nil)
  | _ => some (m, .nil)

/-- Focus indices of the configuration screen. -/
def inputRoot : Int := 0
def inputOutput : Int := 1
def toggleRecursive : Int := 2
def toggleTarget : Int := 3
def btnSubmit : Int := 4
def fieldCount : Int := 5

/-- Go: the focus loop `for i := 0; i <= 1; i++` of `updateConfig`, on the two
text inputs. -/
def focusInput (focusIndex : Int) (i : Int) (t : TextInput) : TextInput × Option Closure :=
  if i = focusIndex then ({ t with focus := true, selectedStyle := true }, some .Blink)
  else ({ t with focus := false, selectedStyle := false }, none)

/-- Go: `Model.updateConfig`. -/
def updateConfig (lib : Lib) (m : Model) (msg : Msg) : Option (Model × Cmd) :=
  let fallthrough : Option (Model × Cmd) :=
    let rs := m.Inputs.map (fun t => lib.inputUpdate t msg)
    some ({ m with Inputs := rs.map Prod.fst }, .Batch (rs.map Prod.snd))
  match msg with
  | .KeyMsg s =>
    if s = "tab" ∨ s = "shift+tab" ∨ s = "enter" ∨ s = "up" ∨ s = "down" then
      if s = "enter" ∧ m.FocusIndex = btnSubmit then
        match getAt m.Inputs inputRoot, getAt m.Inputs inputOutput with
        | some root, some out =>
          let scanRoot := if root.Value = "" then "." else root.Value
          some ({ m with Config := { m.Config with ScanRoot := scanRoot, OutBaseDir := out.Value },
                         State := .StateBrowsing },
            .single (.discoverSkillsCmd scanRoot m.Config.RecursiveMode))
        | _, _ => none
      else if (s = "enter" ∨ s = " ") ∧ m.FocusIndex = toggleRecursive then
        some ({ m with Config := { m.Config with RecursiveMode := !m.Config.RecursiveMode } }, .nil)
      else if (s = "enter" ∨ s = " ") ∧ m.FocusIndex = toggleTarget then
        let t := m.Config.DefaultTarget
        let t := if t = TargetAuto then TargetGemini
                 else if t = TargetGemini then TargetClaude
                 else if t = TargetClaude then TargetAuto
                 else t
        some ({ m with Config := { m.Config with DefaultTarget := t } }, .nil)
      else
        let f := if s = "up" ∨ s = "shift+tab" then m.FocusIndex - 1 else m.FocusIndex + 1
        let f := if f > fieldCount - 1 then 0 else if f < 0 then fieldCount - 1 else f
        match m.Inputs with
        | t0 :: t1 :: rest =>
          let r0 := focusInput f 0 t0
          let r1 := focusInput f 1 t1
          some ({ m with FocusIndex := f, Inputs := r0.1 :: r1.1 :: rest },
            .Batch (r0.2 :: r1.2 :: rest.map (fun _ => none)))
        | _ => none
    else fallthrough
  | _ => fallthrough

/-- Go: `Model.Update`. -/
def Update (lib : Lib) (m : Model) (msg : Msg) : Option (Model × Cmd) :=
  if msg = .KeyMsg "ctrl+c" then some (m, .single .Quit)
  else
    let m := match msg with
      | .WindowSizeMsg w h => { m with width := w, height := h }
      | _ => m
    match m.State with
    | .StateConfig => updateConfig lib m msg
    | .StateBrowsing => updateBrowsing m msg

/-! ## ui/update.go: the two counters as machine integers -/

/-- The largest value of a Go `int` of 64 bits. -/
def MaxInt64 : Int := 9223372036854775807

/-- The smallest value of a Go `int` of 64 bits. -/
def MinInt64 : Int := -9223372036854775808

/-- The value a Go `int` of 64 bits holds for the integer `x`: two's complement
wrap-around, `x` taken modulo `2^64` into the range `MinInt64 .. MaxInt64`. -/
def wrapInt64 (x : Int) : Int :=
  (x + 9223372036854775808) % 2 ^ 64 - 9223372036854775808

/-- Go: `x++` on an `int` of 64 bits. -/
def incInt64 (x : Int) : Int := wrapInt64 (x + 1)

/-- Go: `Model.updateBrowsing` with `m.SuccessCount++` and `m.FailCount++` as the
increments of the 64-bit `int` the two counters are. The other cases do no
arithmetic that can leave the range (the cursor moves are guarded by
comparisons with 0 and with the length), so they are those of
`updateBrowsing`. -/
def updateBrowsing64 (m : Model) (msg : Msg) : Option (Model × Cmd) :=
  match msg with
  | .SkillConvertedMsg path output =>
    let r := markConverted path output m.Skills
    some ({ m with Skills := r.1,
                   SuccessCount := if r.2 then incInt64 m.SuccessCount else m.SuccessCount }, .nil)
  | .ConversionErrorMsg path err =>
    let r := markFailed path err m.Skills
    some ({ m with Skills := r.1,
                   FailCount := if r.2 then incInt64 m.FailCount else m.FailCount }, .nil)
  | _ => updateBrowsing m msg

/-- Go: `Model.Update` with the two counters as 64-bit machine integers. -/
def Update64 (lib : Lib) (m : Model) (msg : Msg) : Option (Model × Cmd) :=
  if msg = .KeyMsg "ctrl+c" then some (m, .single .Quit)
  else
    let m := match msg with
      | .WindowSizeMsg w h => { m with width := w, height := h }
      | _ => m
    match m.State with
    | .StateConfig => updateConfig lib m msg
    | .StateBrowsing => updateBrowsing64 m msg

/-! ## ui/view.go (the footer summary) and cmd/skill-porter-tui/main.go -/

/-- Go: the footer of `viewBrowsing`: `total := len(m.Skills)`,
`pending := total - m.SuccessCount - m.FailCount`. -/
def summary (m : Model) : Summary :=
  { Total := m.Skills.length
    Success := m.SuccessCount
    Failed := m.FailCount
    Pending := (m.Skills.length : Int) - m.SuccessCount - m.FailCount }

/-- Go: the exit status `main` derives from the final model. -/
def exitCode (m : Model) : Int := if m.FailCount > 0 then 1 else 0

/-! ## The runtime: commands in flight and their completion events -/

/-- The controller together with the closures handed to the runtime that have
not delivered their message yet. -/
structure Sys where
  model : Model
  inflight : List Closure

/-- What can happen next: a key press, or the completion of the closure at
position `i` of the in-flight list. A discovery completes with the result of
`DiscoverSkills` (`none` for an error), a conversion with the behaviour of
the external process. -/
inductive Event where
  | key (k : String)
  | discovered (i : Nat) (result : Option (List SkillDir))
  | converted (i : Nat) (proc : List String → ProcResult)

/-- Go: the closure body of `discoverSkillsCmd`, given the result of
`discovery.DiscoverSkills`: an error degrades to a nil list. -/
def discoverSkillsCmd_run (result : Option (List SkillDir)) : Msg :=
  match result with
  | none => .SkillsDiscoveredMsg []
  | some skills => .SkillsDiscoveredMsg skills

/-- Feed one message to the controller and hand the returned closures to the
runtime. -/
def Sys.deliver (lib : Lib) (s : Sys) (inflight : List Closure) (msg : Msg) : Option Sys :=
  match Update lib s.model msg with
  | none => none
  | some (m, cmd) => some { model := m, inflight := inflight ++ cmd.closures }

/-- One step of the runtime; `none` when the event is not enabled (no such
closure in flight) or the controller panics. -/
def Sys.step (lib : Lib) (s : Sys) : Event → Option Sys
  | .key k => s.deliver lib s.inflight (.KeyMsg k)
  | .discovered i result =>
    match s.inflight[i]? with
    | some (.discoverSkillsCmd _ _) =>
      s.deliver lib (s.inflight.eraseIdx i) (discoverSkillsCmd_run result)
    | _ => none
  | .converted i proc =>
    match s.inflight[i]? with
    | some (.convertSkillCmd snap override) =>
      s.deliver lib (s.inflight.eraseIdx i)
        (convertSkillCmd_run lib.filepathJoin snap s.model.Config override proc)
    | _ => none

/-- Run a sequence of events. -/
def Sys.run (lib : Lib) (s : Sys) : List Event → Option Sys
  | [] => some s
  | e :: es =>
    match s.step lib e with
    | none => none
    | some s1 => Sys.run lib s1 es

/-- The system at program start: `NewModel(cfg)`, nothing in flight. -/
def Sys.init (cfg : AppConfig) : Sys := { model := NewModel cfg, inflight := [] }

/-- Feed a sequence of messages to the controller, dropping the commands. -/
def runMsgs (lib : Lib) (m : Model) : List Msg → Option Model
  | [] => some m
  | msg :: rest =>
    match Update lib m msg with
    | none => none
    | some r => runMsgs lib r.1 rest

/-! ## discovery/discovery.go -/

/-- A directory tree as the scan meets it: regular files and directories.
For a directory, `children` are its entries in the order `os.ReadDir` lists
them (sorted by file name) and as `os.Stat` sees them, and `readable` tells
whether `os.ReadDir` on it succeeds. Symbolic links, which `filepath.WalkDir`
does not follow, are not part of the model. -/
inductive Entry where
  | file (name : String)
  | dir (name : String) (readable : Bool) (children : List Entry)
deriving Repr

/-- Go: `d.Name()`. -/
def Entry.name : Entry → String
  | .file n => n
  | .dir n _ _ => n

/-- Go: `d.IsDir()`. -/
def Entry.IsDir : Entry → Bool
  | .file _ => false
  | .dir _ _ _ => true

/-- Whether an entry is a non-directory called `name`. -/
def Entry.isFileNamed (name : String) : Entry → Bool
  | .file n => decide (n = name)
  | .dir _ _ _ => false

/-- Go: `fileExists(filepath.Join(path, name))`, where `children` are the
entries of the directory at `path`: `os.Stat` succeeds and reports a
non-directory. -/
def fileExists (children : List Entry) (name : String) : Bool :=
  children.any (Entry.isFileNamed name)

/-- Go: the marker check of the `WalkDir` callback in `DiscoverSkills`,
`isClaude`, `isGemini` and the resulting `platform` (empty when neither marker
exists). -/
def detectPlatform (children : List Entry) : String :=
  let isClaude := fileExists children "SKILL.md"
  let isGemini := fileExists children "gemini-extension.json"
  if isClaude && isGemini then "Universal"
  else if isClaude then "Claude"
  else if isGemini then "Gemini"
  else ""

/-- The two variables the callback closes over: `skills` and the key set of `seen`. -/
structure WalkState where
  skills : List SkillDir
  seen : List String
deriving Repr

/-- What the callback returns: `nil` or `filepath.SkipDir` (it returns no other error). -/
inductive FnResult where
  | ok
  | SkipDir
deriving DecidableEq, Repr

/-- Go: `filepath.Rel(root, path)` for the path the walk reached from `root`
through the directory names `rel` (outermost first): `.` for the root itself,
otherwise the names joined by the separator. -/
def relPath : List String → String
  | [] => "."
  | [a] => a
  | a :: b :: rest => a ++ "/" ++ relPath (b :: rest)

/-- Go: `strings.Contains(rel, string(os.PathSeparator))`. -/
def containsSep (s : String) : Bool := s.data.contains '/'

/-- The entity the callback appends for a classified directory. -/
def newSkill (base : String → String) (path platform : String) : SkillDir :=
  { Name := base path, Path := path, CurrentPlatform := platform, Status := StatusPending,
    Target := TargetAuto, OutputPath := "", ErrorLog := "" }

/-- Go: the callback passed to `filepath.WalkDir` in `DiscoverSkills`, called for
the entry `d` at `path` (reached through the names `rel`), with `err` telling
whether the walk reports an error for it. `WalkDir` passes no entry only
together with an error. `base` is `filepath.Base`. -/
def walkFn (base : String → String) (recursive : Bool) (rel : List String) (path : String)
    (d : Option Entry) (err : Bool) (st : WalkState) : WalkState × FnResult :=
  if err then
    match d with
    | some (.dir _ _ _) => (st, .SkipDir)
    | _ => (st, .ok)
  else
    match d with
    | some (.dir _ _ children) =>
      if recursive = false ∧ relPath rel ≠ "." ∧ containsSep (relPath rel) = true then
        (st, .SkipDir)
      else if detectPlatform children ≠ "" then
        if path ∈ st.seen then (st, .SkipDir)
        else
          ({ skills := st.skills ++ [newSkill base path (detectPlatform children)],
             seen := path :: st.seen }, .SkipDir)
      else (st, .ok)
    | _ => (st, .ok)

mutual
/-- Go: `filepath.walkDir` with the callback of `DiscoverSkills`: the callback is
called for the entry; a skipped directory is not read; a directory that cannot
be read is reported to the callback a second time; otherwise the children are
walked in order. `join` is `filepath.Join`. -/
def walkDir (join : String → String → String) (base : String → String) (recursive : Bool)
    (rel : List String) (path : String) : Entry → WalkState → WalkState × FnResult
  | .file name, st => walkFn base recursive rel path (some (.file name)) false st
  | .dir name readable children, st =>
    if (walkFn base recursive rel path (some (.dir name readable children)) false st).2
        = .SkipDir then
      ((walkFn base recursive rel path (some (.dir name readable children)) false st).1, .ok)
    else if readable then
      walkList join base recursive rel path children
        (walkFn base recursive rel path (some (.dir name readable children)) false st).1
    else
      ((walkFn base recursive rel path (some (.dir name readable children)) true
        (walkFn base recursive rel path (some (.dir name readable children)) false st).1).1, .ok)
/-- Go: the loop over the directory entries in `filepath.walkDir`; a `SkipDir`
coming back from an entry ends the loop. -/
def walkList (join : String → String → String) (base : String → String) (recursive : Bool)
    (rel : List String) (path : String) : List Entry → WalkState → WalkState × FnResult
  | [], st => (st, .ok)
  | e :: es, st =>
    if (walkDir join base recursive (rel ++ [e.name]) (join path e.name) e st).2 = .SkipDir then
      ((walkDir join base recursive (rel ++ [e.name]) (join path e.name) e st).1, .ok)
    else
      walkList join base recursive rel path es
        (walkDir join base recursive (rel ++ [e.name]) (join path e.name) e st).1
end

/-- Go: `discovery.DiscoverSkills(root, recursive)` on a file system in which
`rootEntry` is what `os.Lstat(root)` finds (`none` when it fails). The second
component is the returned error; the callback never returns one, so it is
always nil. -/
def DiscoverSkills (join : String → String → String) (base : String → String) (root : String)
    (recursive : Bool) (rootEntry : Option Entry) : List SkillDir × Option String :=
  match rootEntry with
  | none => ((walkFn base recursive [] root none true { skills := [], seen := [] }).1.skills, none)
  | some e => ((walkDir join base recursive [] root e { skills := [], seen := [] }).1.skills, none)

/-- Go: `filepath.Base` for slash-separated paths: trailing separators are
dropped and the last element is returned; the empty path gives `.` and a path
of separators only gives the separator. -/
def filepathBase (path : String) : String :=
  if path = "" then "."
  else
    let stripped := (path.data.reverse.dropWhile (fun c => c = '/')).reverse
    let last := (stripped.reverse.takeWhile (fun c => c ≠ '/')).reverse
    if last = [] then "/" else String.mk last

/-- The hierarchy built by `TestDiscoverSkills` (discovery_test.go) below its
temporary directory, entries in the order `os.ReadDir` lists them. -/
def testTree : Entry :=
  .dir "tmp" true
    [ .dir "category" true [ .dir "nested-skill" true [ .file "SKILL.md" ] ],
      .dir "claude-skill" true [ .file "SKILL.md" ],
      .dir "empty" true [],
      .dir "gemini-skill" true [ .file "gemini-extension.json" ],
      .dir "univ-skill" true [ .file "SKILL.md", .file "gemini-extension.json" ] ]

/-- An entity as the scan emits it: one of the three platforms, name the base
name of its path, status `Pending`, target `Auto`, nothing else set. -/
def EmittedSkill (base : String → String) (e : SkillDir) : Prop :=
  (e.CurrentPlatform = "Claude" ∨ e.CurrentPlatform = "Gemini" ∨ e.CurrentPlatform = "Universal") ∧
  e = newSkill base e.Path e.CurrentPlatform

/-! ## ui/update.go: the conversion closure and the operating system -/

/-- Go: the closure returned by `convertSkillCmd`, with the operating system
given as `run command args` (what running that command with those arguments
under the five-minute context yields): the one command the closure runs is
`skill-porter`. -/
def convertSkillCmd_closureWith (lower : String → String) (join : String → String → String)
    (s : SkillDir) (cfg : AppConfig) (override : ConversionTarget)
    (run : String → List String → ProcResult) : Msg :=
  convertSkillCmd_runWith lower join s cfg override (run "skill-porter")

/-- The closure where `strings.ToLower` is the ASCII map `toLower`. -/
def convertSkillCmd_closure (join : String → String → String) (s : SkillDir) (cfg : AppConfig)
    (override : ConversionTarget) (run : String → List String → ProcResult) : Msg :=
  convertSkillCmd_closureWith toLower join s cfg override run

/-! ## config/config.go: Load -/

/-- What `fs.Parse(args)` found on the command line: for every flag the value
given, `none` when the flag is absent (its declared default then applies). -/
structure CmdLine where
  root : Option String
  recursive : Option Bool
  target : Option String
  out : Option String
  auto : Option Bool
  debug : Option Bool
deriving DecidableEq, Repr

/-- What `Load` gets from the flag package and the operating system.
`parse` is `fs.Parse` (with the error's text on failure); `cwd` is the result of
`os.Getwd()` (empty on error, as the error is dropped); `envRoot` and `envOut`
are the two environment variables (empty when unset); `stat` is `os.Stat`
before anything is created (`none` for an error, otherwise `info.IsDir()`);
`mkdirAll` is `os.MkdirAll` (`some` error text on failure); `statAfter` is
`os.Stat` after `MkdirAll`; `abs` is `filepath.Abs` (`none` for an error). -/
structure LoadEnv where
  parse : List String → Except String CmdLine
  cwd : String
  envRoot : String
  envOut : String
  stat : String → Option Bool
  mkdirAll : String → Option String
  statAfter : String → Option Bool
  abs : String → Option String

/-- Go: the scan root chosen by `Load`: the `-root` flag, else the environment
variable `SKILL_PORTER_ROOT`, else the working directory. -/
def Load_chosenRoot (env : LoadEnv) (cl : CmdLine) : String :=
  if cl.root.getD "" ≠ "" then cl.root.getD ""
  else if env.envRoot ≠ "" then env.envRoot
  else env.cwd

/-- Go: the output base chosen by `Load`: the `-out` flag, else the environment
variable `SKILL_PORTER_OUT`, else empty. -/
def Load_chosenOut (env : LoadEnv) (cl : CmdLine) : String :=
  if cl.out.getD "" ≠ "" then cl.out.getD ""
  else if env.envOut ≠ "" then env.envOut
  else ""

/-- Go: the validation of the output base in `Load` ("Validate/Create Out
Path"): the directory is created, must then be a directory, and is made
absolute when `filepath.Abs` succeeds. -/
def Load_outDir (env : LoadEnv) (outBase : String) : Except String String :=
  if outBase ≠ "" then
    match env.mkdirAll outBase with
    | some e => .error ("could not create output directory: " ++ e)
    | none =>
      match env.statAfter outBase with
      | none => .error ("output directory error: " ++ outBase)
      | some false => .error ("output path is not a directory: " ++ outBase)
      | some true =>
        match env.abs outBase with
        | some a => .ok a
        | none => .ok outBase
  else .ok outBase

/-- Go: `config.Load(args)`, with the library function `strings.ToLower` as the
parameter `lower`. Errors are represented by their text. -/
def LoadWith (lower : String → String) (env : LoadEnv) (args : List String) :
    Except String AppConfig :=
  match env.parse args with
  | .error e => .error e
  | .ok cl =>
    let targetStr := cl.target.getD TargetAuto
    let scanRoot := Load_chosenRoot env cl
    let outBase := Load_chosenOut env cl
    if lower targetStr = "gemini" ∨ lower targetStr = "claude" ∨ lower targetStr = "auto" then
      let target :=
        if lower targetStr = "gemini" then TargetGemini
        else if lower targetStr = "claude" then TargetClaude
        else TargetAuto
      if env.stat scanRoot = some true then
        match Load_outDir env outBase with
        | .error e => .error e
        | .ok out =>
          .ok { ScanRoot := (env.abs scanRoot).getD scanRoot
                RecursiveMode := cl.recursive.getD true
                DefaultTarget := target
                OutBaseDir := out
                AutoConvertMode := cl.auto.getD false
                Debug := cl.debug.getD false }
      else .error ("invalid scan root: " ++ scanRoot)
    else .error ("invalid target: " ++ targetStr)

/-- Go: `config.Load(args)` where `strings.ToLower` is the ASCII map `toLower`,
which is what it is on every `-target` value made of ASCII characters. -/
def Load (env : LoadEnv) (args : List String) : Except String AppConfig :=
  LoadWith toLower env args

/-! ## The recursive scan as the specification words it -/

/-- One directory of the tree: its path, its classification, and whether some
proper ancestor of it within the walk is classified as a skill. -/
structure DirInfo where
  path : String
  platform : String
  nested : Bool
deriving DecidableEq, Repr

mutual
/-- All directories of the tree below (and including) the entry at `path`, in
walk order, each with its classification and the `nested` flag; `nested` says
whether a proper ancestor of the entry is classified. -/
def dirInfos (join : String → String → String) (nested : Bool) (path : String) :
    Entry → List DirInfo
  | .file _ => []
  | .dir _ _ children =>
    { path := path, platform := detectPlatform children, nested := nested } ::
      dirInfosList join (nested || decide (detectPlatform children ≠ "")) path children
/-- The directories below the entries `es` of the directory at `path`. -/
def dirInfosList (join : String → String → String) (nested : Bool) (path : String) :
    List Entry → List DirInfo
  | [] => []
  | e :: es => dirInfos join nested (join path e.name) e ++ dirInfosList join nested path es
end

/-- Specification: the classified directories that have no classified proper
ancestor, in walk order, each as a `Pending` entity with target `Auto`. -/
def topLevelSkills (join : String → String → String) (base : String → String) (root : String)
    (tree : Entry) : List SkillDir :=
  ((dirInfos join false root tree).filter
      (fun i => decide (i.platform ≠ "") && !i.nested)).map
    (fun i => newSkill base i.path i.platform)

mutual
/-- Whether every directory of the tree can be read. -/
def allReadable : Entry → Bool
  | .file _ => true
  | .dir _ readable children => readable && allReadableList children
/-- Whether every directory below the entries can be read. -/
def allReadableList : List Entry → Bool
  | [] => true
  | e :: es => allReadable e && allReadableList es
end

/-- Keep the first entity of every path that is not in `seen`; also returns the
paths seen afterwards. -/
def dedupAux (seen : List String) : List SkillDir → List SkillDir × List String
  | [] => ([], seen)
  | s :: rest =>
    if s.Path ∈ seen then dedupAux seen rest
    else (s :: (dedupAux (s.Path :: seen) rest).1, (dedupAux (s.Path :: seen) rest).2)

/-- Keep the first entity of every path. -/
def dedupByPath (l : List SkillDir) : List SkillDir := (dedupAux [] l).1

mutual
/-- The entities of the top-most classified directories at or below the entry
at `path`: a classified directory yields itself and nothing from inside it, an
unclassified one yields what its children yield. -/
def tops (join : String → String → String) (base : String → String) (path : String) :
    Entry → List SkillDir
  | .file _ => []
  | .dir _ _ children =>
    if detectPlatform children ≠ "" then [newSkill base path (detectPlatform children)]
    else topsList join base path children
/-- The top-most classified directories below the entries `es` of the directory at `path`. -/
def topsList (join : String → String → String) (base : String → String) (path : String) :
    List Entry → List SkillDir
  | [] => []
  | e :: es => tops join base (join path e.name) e ++ topsList join base path es
end

/-! ## The resolution order as the specification words it -/

/-- Specification, section 4.3, "first concrete value wins": the first entry of
the candidate list that is not `Auto`, if there is one. -/
def firstConcrete : List ConversionTarget → Option ConversionTarget
  | [] => none
  | t :: ts => if t = TargetAuto then firstConcrete ts else some t

/-- Specification, section 4.3, step 4: `Claude → Gemini`, `Gemini → Claude`,
anything else → `Gemini`. -/
def platformFallback (platform : String) : ConversionTarget :=
  if platform = "Claude" then TargetGemini
  else if platform = "Gemini" then TargetClaude
  else TargetGemini

/-- Specification, section 4.3: `resolve(entity, override, globalDefault)` takes
the first concrete value among override, entity target and global default, and
falls back on the platform when there is none. -/
def resolve_spec (entity : SkillDir) (override globalDefault : ConversionTarget) :
    ConversionTarget :=
  match firstConcrete [override, entity.Target, globalDefault] with
  | some t => t
  | none => platformFallback entity.CurrentPlatform

/-- The declared constants of `ConversionTarget`. -/
def IsDeclaredTarget (t : ConversionTarget) : Prop :=
  t = TargetGemini ∨ t = TargetClaude ∨ t = TargetAuto

instance (t : ConversionTarget) : Decidable (IsDeclaredTarget t) := by
  unfold IsDeclaredTarget; infer_instance

/-- The entity of `TestUpdate_Conversion` (model_test.go): only name, path and
status are set, every other field has Go's zero value. -/
def testSkill : SkillDir :=
  { Name := "Skill1", Path := "/tmp/s1", CurrentPlatform := "", Status := StatusPending,
    Target := "", OutputPath := "", ErrorLog := "" }

/-- The configuration of `TestUpdate_Conversion`: `&config.AppConfig{}`. -/
def testConfig : AppConfig :=
  { ScanRoot := "", RecursiveMode := false, DefaultTarget := "", OutBaseDir := "",
    AutoConvertMode := false, Debug := false }

/-- A stand-in for the library: text inputs ignore every message and paths
are joined with a slash. Used to evaluate the controller on concrete inputs. -/
def plainLib : Lib :=
  { inputUpdate := fun t _ => (t, none)
    filepathJoin := fun a b => a ++ "/" ++ b }

/-- The controller in the browsing state showing the single entity `s`. -/
def browsingOne (s : SkillDir) : Model :=
  { NewModel testConfig with State := .StateBrowsing, Skills := [s] }

/-- The controller in the browsing state showing the list `l`, counters at zero. -/
def browsingList (l : List SkillDir) : Model :=
  { NewModel testConfig with State := .StateBrowsing, Skills := l }

/-- A configuration as `config.Load` produces it: absolute scan root, default
target `Auto`, no output base. -/
def loadedConfig : AppConfig :=
  { ScanRoot := "/skills", RecursiveMode := true, DefaultTarget := TargetAuto, OutBaseDir := "",
    AutoConvertMode := false, Debug := false }

/-- An entity as `DiscoverSkills` emits it: status `Pending`, target `Auto`. -/
def pendingSkill (name path platform : String) : SkillDir :=
  { Name := name, Path := path, CurrentPlatform := platform, Status := StatusPending,
    Target := TargetAuto, OutputPath := "", ErrorLog := "" }

/-- The specification's scenario: `A(Claude)`, `B(Gemini)`, `C(Universal)`, all `Pending`. -/
def scenarioABC : List SkillDir :=
  [pendingSkill "A" "/skills/A" "Claude", pendingSkill "B" "/skills/B" "Gemini",
   pendingSkill "C" "/skills/C" "Universal"]

/-- An external process that exits non-zero. -/
def procFails : List String → ProcResult := fun _ =>
  { stdout := "", stderr := "boom", err := some "exit status 1" }

/-- An external process that exits with status zero. -/
def procSucceeds : List String → ProcResult := fun _ =>
  { stdout := "converted", stderr := "", err := none }

/-- A session from program start: move the focus to the submit button, submit,
the scan finds one skill, convert it (the job fails), convert it again (the
retry succeeds). Every completion event is the single result of the job
dispatched just before it. -/
def retryTrace : List Event :=
  [ .key "shift+tab", .key "enter", .discovered 0 (some [pendingSkill "s1" "/skills/s1" "Claude"]),
    .key "c", .converted 0 procFails, .key "c", .converted 0 procSucceeds ]

/-- A session from program start: submit, the scan finds one skill, convert it,
rescan while the job is in flight, the fresh scan finds the same directory
again, and only then does the job of the first generation complete. -/
def rescanTrace : List Event :=
  [ .key "shift+tab", .key "enter", .discovered 0 (some [pendingSkill "s1" "/skills/s1" "Claude"]),
    .key "c", .key "r", .discovered 1 (some [pendingSkill "s1" "/skills/s1" "Claude"]) ]

/-- The observable part of the system for completion events: the entity list
and the two counters. -/
def Sys.observe (s : Sys) : List SkillDir × Int × Int :=
  (s.model.Skills, s.model.SuccessCount, s.model.FailCount)

/-- The invariant behind the exit status: the failure counter is not negative,
and it is positive as soon as some entity of the list has status `Failed`. -/
def FailInv (m : Model) : Prop :=
  0 ≤ m.FailCount ∧ ((∃ e ∈ m.Skills, e.Status = StatusFailed) → 0 < m.FailCount)

/-- A message whose discovery result, if it is one, holds only `Pending` entities. -/
def PendingDiscovery (msg : Msg) : Prop :=
  ∀ L, msg = .SkillsDiscoveredMsg L → ∀ e ∈ L, e.Status = StatusPending

/-- A session from program start in which the only conversion fails: submit,
the scan finds one skill, convert it, the job reports an error. -/
def failingSession : List Msg :=
  [ .KeyMsg "shift+tab", .KeyMsg "enter",
    .SkillsDiscoveredMsg [pendingSkill "s1" "/skills/s1" "Claude"],
    .KeyMsg "c", .ConversionErrorMsg "/skills/s1" "boom" ]

/-- The model at the end of `failingSession`. -/
def failingSessionEnd : Model :=
  { NewModel loadedConfig with
    State := .StateBrowsing
    Inputs := [ { Value := "/skills", focus := false, selectedStyle := false },
                { Value := "", focus := false, selectedStyle := false } ]
    FocusIndex := 4
    Skills := [{ pendingSkill "s1" "/skills/s1" "Claude" with
                  Status := StatusFailed, ErrorLog := "boom" }]
    FailCount := 1 }

/-- An operating system on which `skill-porter` succeeds and prints the
platform it was asked to convert to (the argument after `--to`), and every other
command fails. -/
def echoTarget (command : String) (args : List String) : ProcResult :=
  if command = "skill-porter" then
    { stdout := "converted to " ++ (args.drop 3).headD "", stderr := "", err := none }
  else { stdout := "", stderr := "", err := some "executable file not found" }

/-- A session from program start: submit, the scan finds one `Gemini` skill, and
its conversion is dispatched with the default target still `Auto`. -/
def dispatchTrace : List Event :=
  [ .key "shift+tab", .key "enter", .discovered 0 (some [pendingSkill "s1" "/skills/s1" "Gemini"]),
    .key "c" ]

/-- While the job is in flight the user goes back to the configuration screen,
moves to the Target field and advances the default target from `Auto` to
`Gemini`. -/
def retargetKeys : List Event :=
  [ .key "esc", .key "shift+tab", .key "enter" ]

/-- A command line without any flag. -/
def noFlags : CmdLine :=
  { root := none, recursive := none, target := none, out := none, auto := none, debug := none }

/-- A machine on which `/work` (the working directory) and `/tmp` are the only
directories, nothing can be created, relative paths are resolved against
`/work`, and the command line is read as `cl` whatever the arguments are. -/
def demoEnv (cl : CmdLine) (envRoot : String) : LoadEnv :=
  { parse := fun _ => .ok cl
    cwd := "/work"
    envRoot := envRoot
    envOut := ""
    stat := fun p => if p = "/work" ∨ p = "/tmp" ∨ p = "." then some true else none
    mkdirAll := fun _ => some "permission denied"
    statAfter := fun p => if p = "/work" ∨ p = "/tmp" ∨ p = "." then some true else none
    abs := fun p => if p = "." then some "/work" else some p }

/-- A machine as `demoEnv` without flags, on which the flag package rejects the
command line `-target bogus -nosuchflag`: the flag `-nosuchflag` is not
defined, and `fs.Parse` returns the error with this text. -/
def undefinedFlagEnv : LoadEnv :=
  { demoEnv noFlags "" with
    parse := fun args =>
      if args = ["-target", "bogus", "-nosuchflag"] then
        .error "flag provided but not defined: -nosuchflag"
      else .ok noFlags }

/-- Go's `strings.ToLower` on strings made of ASCII characters and of U+0130
(capital I with dot above), whose lower case is `i`. -/
def toLowerDotted (s : String) : String :=
  String.mk (s.data.map (fun c => if c = Char.ofNat 0x130 then 'i' else c.toLower))

/-- The letters of `GEMINI` with U+0130 in place of both letters `I`. -/
def dottedGemini : String := String.mk ['G', 'E', 'M', Char.ofNat 0x130, 'N', Char.ofNat 0x130]

/-- The one-entity browsing model with the success counter at the largest `int`. -/
def fullSuccessCounter : Model := { browsingOne testSkill with SuccessCount := MaxInt64 }

/-- The one-entity browsing model with the failure counter at the largest `int`. -/
def fullFailCounter : Model := { browsingOne testSkill with FailCount := MaxInt64 }

/-- The browsing model showing `A`, `B`, `C` with the cursor on `B`. -/
def cursorOnB : Model := { browsingList scenarioABC with Cursor := 1 }

/-- The cursor is a position of the list, or 0 when the list is empty. -/
def CursorInv (m : Model) : Prop :=
  0 ≤ m.Cursor ∧ (m.Cursor = 0 ∨ m.Cursor < (m.Skills.length : Int))

/-- What holds of every model the controller reaches from `NewModel`: the cursor
invariant, and the two text inputs are there. -/
def Reachable (m : Model) : Prop := CursorInv m ∧ 2 ≤ m.Inputs.length

/-! ## Theorems: target resolution and command building -/

/-- C10: for a non-empty input path and a target that is `Gemini` or `Claude`,
`BuildConvertCommand` succeeds with exactly `convert <path> --to <gemini|claude>`
when the output directory is empty, and with exactly that sequence followed by
`--output <dir>` when it is not. -/
theorem C10_build_canonical (path outputDir : String) (target : ConversionTarget)
    (hpath : path ≠ "") (htarget : target = TargetGemini ∨ target = TargetClaude) :
    BuildConvertCommand path target outputDir =
      .ok (["convert", path, "--to", if target = TargetGemini then "gemini" else "claude"] ++
            if outputDir = "" then [] else ["--output", outputDir]) := by
  have hg : toLower TargetGemini = "gemini" := by decide
  have hc : toLower TargetClaude = "claude" := by decide
  have hne : TargetClaude ≠ TargetGemini := by decide
  rcases htarget with h | h <;> subst h
  · by_cases ho : outputDir = "" <;> simp [BuildConvertCommand, BuildConvertCommandWith, hpath, hg, ho]
  · by_cases ho : outputDir = "" <;> simp [BuildConvertCommand, BuildConvertCommandWith, hpath, hc, hne, ho]

/-- C10 at the two inputs named by the specification. -/
theorem C10_build_canonical_witness :
    ("/abs/skill" ≠ "" ∧ (TargetGemini = TargetGemini ∨ TargetGemini = TargetClaude)) ∧
    BuildConvertCommand "/abs/skill" TargetGemini "" =
      .ok ["convert", "/abs/skill", "--to", "gemini"] ∧
    BuildConvertCommand "/abs/skill" TargetClaude "/out" =
      .ok ["convert", "/abs/skill", "--to", "claude", "--output", "/out"] :=
  ⟨⟨by decide, Or.inl rfl⟩,
   C10_build_canonical "/abs/skill" "" TargetGemini (by decide) (Or.inl rfl),
   C10_build_canonical "/abs/skill" "/out" TargetClaude (by decide) (Or.inr rfl)⟩

/-- C9: the resolution performed by the conversion closure is the
specification's order "first concrete value wins" (`resolve_spec`): it returns
the override when the override is not `Auto`, whatever the entity's target and
the global default are; otherwise the entity's target when that is not `Auto`;
otherwise the global default when that is not `Auto`; otherwise the platform
fallback, `Gemini` for a `Claude` entity, `Claude` for a `Gemini` entity and
`Gemini` for any other platform. -/
theorem C9_resolution_order (s : SkillDir) (cfg : AppConfig) (override : ConversionTarget) :
    convertSkillCmd_target s cfg override = resolve_spec s override cfg.DefaultTarget ∧
    (override ≠ TargetAuto → convertSkillCmd_target s cfg override = override) ∧
    (override = TargetAuto → s.Target ≠ TargetAuto →
      convertSkillCmd_target s cfg override = s.Target) ∧
    (override = TargetAuto → s.Target = TargetAuto → cfg.DefaultTarget ≠ TargetAuto →
      convertSkillCmd_target s cfg override = cfg.DefaultTarget) ∧
    (override = TargetAuto → s.Target = TargetAuto → cfg.DefaultTarget = TargetAuto →
      (s.CurrentPlatform = "Claude" → convertSkillCmd_target s cfg override = TargetGemini) ∧
      (s.CurrentPlatform = "Gemini" → convertSkillCmd_target s cfg override = TargetClaude) ∧
      (s.CurrentPlatform ≠ "Claude" → s.CurrentPlatform ≠ "Gemini" →
        convertSkillCmd_target s cfg override = TargetGemini)) := by
  have hcg : ("Gemini" : String) ≠ "Claude" := by decide
  unfold convertSkillCmd_target resolve_spec firstConcrete firstConcrete firstConcrete
    firstConcrete platformFallback
  by_cases h1 : override = TargetAuto <;> by_cases h2 : s.Target = TargetAuto <;>
    by_cases h3 : cfg.DefaultTarget = TargetAuto <;>
    by_cases h4 : s.CurrentPlatform = "Claude" <;>
    by_cases h5 : s.CurrentPlatform = "Gemini" <;>
    simp [h1, h2, h3, h4, h5, hcg]

/-- C9 at a `Gemini` entity whose override, own target and global default are
all `Auto` (the platform fallback gives `Claude`), and at the same entity with
override `Gemini` and global default `Claude` (the override wins). -/
theorem C9_resolution_order_witness :
    (TargetAuto = TargetAuto ∧ (pendingSkill "B" "/skills/B" "Gemini").Target = TargetAuto ∧
      loadedConfig.DefaultTarget = TargetAuto ∧
      (pendingSkill "B" "/skills/B" "Gemini").CurrentPlatform = "Gemini" ∧
      TargetGemini ≠ TargetAuto) ∧
    convertSkillCmd_target (pendingSkill "B" "/skills/B" "Gemini") loadedConfig TargetAuto =
      TargetClaude ∧
    convertSkillCmd_target (pendingSkill "B" "/skills/B" "Gemini")
      { loadedConfig with DefaultTarget := TargetClaude } TargetGemini = TargetGemini :=
  ⟨⟨rfl, rfl, rfl, rfl, by decide⟩,
   ((C9_resolution_order (pendingSkill "B" "/skills/B" "Gemini") loadedConfig
      TargetAuto).2.2.2.2 rfl rfl rfl).2.1 rfl,
   (C9_resolution_order (pendingSkill "B" "/skills/B" "Gemini")
      { loadedConfig with DefaultTarget := TargetClaude } TargetGemini).2.1 (by decide)⟩

/-- C8 as stated fails: for the entity and configuration of the repository's
own test (target fields left at the zero value `""`) and override `Auto`, the
resolution yields `""`, which is neither `Gemini` nor `Claude`. -/
theorem C8_counterexample :
    convertSkillCmd_target testSkill testConfig TargetAuto = "" ∧
    ¬ (convertSkillCmd_target testSkill testConfig TargetAuto = TargetGemini ∨
       convertSkillCmd_target testSkill testConfig TargetAuto = TargetClaude) := by
  decide

/-- C8, amended: the resolution never yields `Auto`, whatever the entity, the
override and the global default; and it yields `Gemini` or `Claude` whenever
the override, the entity's target and the global default are each one of the
declared constants `Gemini`, `Claude`, `Auto`. -/
theorem C8_resolution_concrete (s : SkillDir) (cfg : AppConfig) (override : ConversionTarget) :
    convertSkillCmd_target s cfg override ≠ TargetAuto ∧
    (IsDeclaredTarget override → IsDeclaredTarget s.Target → IsDeclaredTarget cfg.DefaultTarget →
      convertSkillCmd_target s cfg override = TargetGemini ∨
      convertSkillCmd_target s cfg override = TargetClaude) := by
  have hg : TargetGemini ≠ TargetAuto := by decide
  have hc : TargetClaude ≠ TargetAuto := by decide
  unfold convertSkillCmd_target IsDeclaredTarget
  by_cases h1 : override = TargetAuto <;> by_cases h2 : s.Target = TargetAuto <;>
    by_cases h3 : cfg.DefaultTarget = TargetAuto <;>
    by_cases h4 : s.CurrentPlatform = "Claude" <;>
    by_cases h5 : s.CurrentPlatform = "Gemini" <;>
    simp [h1, h2, h3, h4, h5, hg, hc] <;> tauto

/-- C8, amended, at a discovered `Universal` entity with everything left on `Auto`. -/
theorem C8_resolution_concrete_witness :
    (IsDeclaredTarget TargetAuto ∧
      IsDeclaredTarget ({ testSkill with CurrentPlatform := "Universal", Target := TargetAuto }).Target ∧
      IsDeclaredTarget ({ testConfig with DefaultTarget := TargetAuto }).DefaultTarget) ∧
    (convertSkillCmd_target { testSkill with CurrentPlatform := "Universal", Target := TargetAuto }
        { testConfig with DefaultTarget := TargetAuto } TargetAuto = TargetGemini ∨
     convertSkillCmd_target { testSkill with CurrentPlatform := "Universal", Target := TargetAuto }
        { testConfig with DefaultTarget := TargetAuto } TargetAuto = TargetClaude) :=
  ⟨by decide,
   (C8_resolution_concrete { testSkill with CurrentPlatform := "Universal", Target := TargetAuto }
      { testConfig with DefaultTarget := TargetAuto } TargetAuto).2
      (by decide) (by decide) (by decide)⟩

/-! ## Lemmas on the controller -/

theorem getAt_natCast {α : Type} (xs : List α) (i : Nat) (hi : i < xs.length) :
    getAt xs (i : Int) = some xs[i] := by
  simp [getAt, hi]

theorem markConverted_of_absent (p o : String) (l : List SkillDir)
    (h : ∀ s ∈ l, s.Path ≠ p) : markConverted p o l = (l, false) := by
  induction l with
  | nil => rfl
  | cons a t ih =>
    have ha : a.Path ≠ p := h a (by simp)
    have ht : ∀ s ∈ t, s.Path ≠ p := fun s hs => h s (by simp [hs])
    simp [markConverted, ha, ih ht]

theorem markFailed_of_absent (p e : String) (l : List SkillDir)
    (h : ∀ s ∈ l, s.Path ≠ p) : markFailed p e l = (l, false) := by
  induction l with
  | nil => rfl
  | cons a t ih =>
    have ha : a.Path ≠ p := h a (by simp)
    have ht : ∀ s ∈ t, s.Path ≠ p := fun s hs => h s (by simp [hs])
    simp [markFailed, ha, ih ht]

theorem markConverted_of_first (p o : String) (l : List SkillDir) (i : Nat) (hi : i < l.length)
    (hp : l[i].Path = p) (hfirst : ∀ j (hj : j < l.length), j < i → l[j].Path ≠ p) :
    markConverted p o l =
      (l.set i { l[i] with Status := StatusSuccess, OutputPath := o }, true) := by
  induction l generalizing i with
  | nil => simp at hi
  | cons a t ih =>
    cases i with
    | zero =>
      simp only [List.getElem_cons_zero] at hp
      simp [markConverted, hp]
    | succ k =>
      have hk : k < t.length := by simpa using hi
      have ha : a.Path ≠ p := by
        have := hfirst 0 (by simp) (by omega)
        simpa using this
      have hpk : t[k].Path = p := by simpa using hp
      have hf : ∀ j (hj : j < t.length), j < k → t[j].Path ≠ p := by
        intro j hj hjk
        have := hfirst (j + 1) (by simpa using hj) (by omega)
        simpa using this
      simp [markConverted, ha, ih k hk hpk hf]

theorem markFailed_of_first (p e : String) (l : List SkillDir) (i : Nat) (hi : i < l.length)
    (hp : l[i].Path = p) (hfirst : ∀ j (hj : j < l.length), j < i → l[j].Path ≠ p) :
    markFailed p e l =
      (l.set i { l[i] with Status := StatusFailed, ErrorLog := e }, true) := by
  induction l generalizing i with
  | nil => simp at hi
  | cons a t ih =>
    cases i with
    | zero =>
      simp only [List.getElem_cons_zero] at hp
      simp [markFailed, hp]
    | succ k =>
      have hk : k < t.length := by simpa using hi
      have ha : a.Path ≠ p := by
        have := hfirst 0 (by simp) (by omega)
        simpa using this
      have hpk : t[k].Path = p := by simpa using hp
      have hf : ∀ j (hj : j < t.length), j < k → t[j].Path ≠ p := by
        intro j hj hjk
        have := hfirst (j + 1) (by simpa using hj) (by omega)
        simpa using this
      simp [markFailed, ha, ih k hk hpk hf]

theorem Update_browsing_converted (lib : Lib) (m : Model) (p o : String)
    (hB : m.State = .StateBrowsing) :
    Update lib m (.SkillConvertedMsg p o) = updateBrowsing m (.SkillConvertedMsg p o) := by
  simp [Update, hB]

theorem Update_browsing_failed (lib : Lib) (m : Model) (p e : String)
    (hB : m.State = .StateBrowsing) :
    Update lib m (.ConversionErrorMsg p e) = updateBrowsing m (.ConversionErrorMsg p e) := by
  simp [Update, hB]

theorem Update_browsing_discovered (lib : Lib) (m : Model) (l : List SkillDir)
    (hB : m.State = .StateBrowsing) :
    Update lib m (.SkillsDiscoveredMsg l) = updateBrowsing m (.SkillsDiscoveredMsg l) := by
  simp [Update, hB]

theorem Update_browsing_key (lib : Lib) (m : Model) (k : String)
    (hB : m.State = .StateBrowsing) (hk : k ≠ "ctrl+c") :
    Update lib m (.KeyMsg k) = updateBrowsing m (.KeyMsg k) := by
  simp [Update, hB, hk]

theorem incInt64_of_lt (x : Int) (hlo : MinInt64 ≤ x) (hhi : x < MaxInt64) :
    incInt64 x = x + 1 := by
  unfold incInt64 wrapInt64
  unfold MinInt64 at hlo
  unfold MaxInt64 at hhi
  norm_num
  omega

theorem incInt64_max : incInt64 MaxInt64 = MinInt64 := by decide

theorem Update64_browsing_converted (lib : Lib) (m : Model) (p o : String)
    (hB : m.State = .StateBrowsing) :
    Update64 lib m (.SkillConvertedMsg p o) = updateBrowsing64 m (.SkillConvertedMsg p o) := by
  simp [Update64, hB]

theorem Update64_browsing_failed (lib : Lib) (m : Model) (p e : String)
    (hB : m.State = .StateBrowsing) :
    Update64 lib m (.ConversionErrorMsg p e) = updateBrowsing64 m (.ConversionErrorMsg p e) := by
  simp [Update64, hB]

/-- The controller counting in the integers and the controller counting in
64-bit machine integers agree on every message as long as both counters are
below the largest `int`. -/
theorem Update64_eq_Update (lib : Lib) (m : Model) (msg : Msg)
    (hs : MinInt64 ≤ m.SuccessCount ∧ m.SuccessCount < MaxInt64)
    (hf : MinInt64 ≤ m.FailCount ∧ m.FailCount < MaxInt64) :
    Update64 lib m msg = Update lib m msg := by
  cases msg <;>
    simp [Update64, Update, updateBrowsing64, updateBrowsing, incInt64_of_lt _ hs.1 hs.2,
      incInt64_of_lt _ hf.1 hf.2]

/-! ## Theorems: completion events -/

/-- C1 as stated fails at the word boundary: in the one-entity browsing model
whose success counter holds the largest `int`, `ConversionSucceeded` for the
path of the entity makes the counter the smallest `int`, not the counter plus
one. -/
theorem C1_counterexample :
    fullSuccessCounter.State = .StateBrowsing ∧
    fullSuccessCounter.Skills = [testSkill] ∧ testSkill.Path = "/tmp/s1" ∧
    fullSuccessCounter.SuccessCount = 9223372036854775807 ∧
    (Update64 plainLib fullSuccessCounter (.SkillConvertedMsg "/tmp/s1" "out")).map
        (fun r => r.1.SuccessCount) = some (-9223372036854775808) ∧
    (Update64 plainLib fullSuccessCounter (.SkillConvertedMsg "/tmp/s1" "out")).map
        (fun r => r.1.SuccessCount) ≠ some (fullSuccessCounter.SuccessCount + 1) := by
  decide

/-- C1, amended: in a browsing state in which the entity at position `i` is the
only one with path `p` and whose success counter is an `int` below the largest
one, `ConversionSucceeded(p, o)` sets that entity's status to `Success` and its
output path to `o`, adds exactly one to the success counter, and changes
nothing else: the other entities, the other fields of the matched entity, the
cursor, the failure counter and the rest of the model are as before, and no
command is issued. When the counter holds the largest `int` the same holds
except that the counter becomes the smallest `int`. -/
theorem C1_conversion_succeeded (lib : Lib) (m : Model) (p o : String) (i : Nat)
    (hB : m.State = .StateBrowsing) (hi : i < m.Skills.length)
    (hp : m.Skills[i].Path = p)
    (huniq : ∀ j (hj : j < m.Skills.length), m.Skills[j].Path = p → j = i)
    (hlo : MinInt64 ≤ m.SuccessCount) :
    (m.SuccessCount < MaxInt64 →
      Update64 lib m (.SkillConvertedMsg p o) =
        some ({ m with
                Skills := m.Skills.set i
                  { m.Skills[i] with Status := StatusSuccess, OutputPath := o }
                SuccessCount := m.SuccessCount + 1 }, .nil)) ∧
    (m.SuccessCount = MaxInt64 →
      Update64 lib m (.SkillConvertedMsg p o) =
        some ({ m with
                Skills := m.Skills.set i
                  { m.Skills[i] with Status := StatusSuccess, OutputPath := o }
                SuccessCount := MinInt64 }, .nil)) := by
  have hfirst : ∀ j (hj : j < m.Skills.length), j < i → m.Skills[j].Path ≠ p := by
    intro j hj hji hpj
    have := huniq j hj hpj
    omega
  rw [Update64_browsing_converted lib m p o hB]
  constructor
  · intro hlt
    simp [updateBrowsing64, markConverted_of_first p o m.Skills i hi hp hfirst,
      incInt64_of_lt _ hlo hlt]
  · intro hmax
    simp [updateBrowsing64, markConverted_of_first p o m.Skills i hi hp hfirst, hmax,
      incInt64_max]

/-- C1, amended, on the model of the repository's test: one entity with path
`/tmp/s1`, success counter 0. -/
theorem C1_conversion_succeeded_witness :
    ((browsingOne testSkill).State = .StateBrowsing ∧
      MinInt64 ≤ (browsingOne testSkill).SuccessCount ∧
      (browsingOne testSkill).SuccessCount < MaxInt64) ∧
    Update64 plainLib (browsingOne testSkill) (.SkillConvertedMsg "/tmp/s1" "Success Output") =
      some ({ browsingOne testSkill with
              Skills := [{ testSkill with Status := StatusSuccess, OutputPath := "Success Output" }]
              SuccessCount := 1 }, .nil) :=
  ⟨⟨rfl, by decide, by decide⟩,
   (C1_conversion_succeeded plainLib (browsingOne testSkill) "/tmp/s1" "Success Output" 0
    rfl (by decide) rfl (by
      intro j hj _
      have : j < 1 := hj
      omega) (by decide)).1 (by decide)⟩

/-- C2: in a browsing state, a completion event (success or failure) whose path
is the path of no entity in the list leaves the whole model unchanged, in
particular the entity list and both counters, and issues no command. -/
theorem C2_unmatched_completion_dropped (lib : Lib) (m : Model) (p x : String)
    (hB : m.State = .StateBrowsing) (habsent : ∀ s ∈ m.Skills, s.Path ≠ p) :
    Update lib m (.SkillConvertedMsg p x) = some (m, .nil) ∧
    Update lib m (.ConversionErrorMsg p x) = some (m, .nil) := by
  rw [Update_browsing_converted lib m p x hB, Update_browsing_failed lib m p x hB]
  simp [updateBrowsing, markConverted_of_absent p x m.Skills habsent,
    markFailed_of_absent p x m.Skills habsent]

/-- C2 on the one-entity model with a completion event for another path. -/
theorem C2_unmatched_completion_dropped_witness :
    ((browsingOne testSkill).State = .StateBrowsing ∧
      ∀ s ∈ (browsingOne testSkill).Skills, s.Path ≠ "/tmp/gone") ∧
    Update plainLib (browsingOne testSkill) (.SkillConvertedMsg "/tmp/gone" "late") =
      some (browsingOne testSkill, .nil) ∧
    Update plainLib (browsingOne testSkill) (.ConversionErrorMsg "/tmp/gone" "late") =
      some (browsingOne testSkill, .nil) :=
  ⟨⟨rfl, by decide⟩,
   C2_unmatched_completion_dropped plainLib (browsingOne testSkill) "/tmp/gone" "late" rfl
    (by decide)⟩

/-! ## Theorems: dispatching intents -/

theorem convertAllPending_eq (l : List SkillDir) :
    convertAllPending l =
      (l.map (fun s => if s.Status = StatusPending then { s with Status := StatusRunning } else s),
       (l.filter (fun s => s.Status = StatusPending)).map
         (fun s => Closure.convertSkillCmd { s with Status := StatusRunning } TargetAuto)) := by
  induction l with
  | nil => rfl
  | cons a t ih =>
    by_cases h : a.Status = StatusPending <;> simp [convertAllPending, h, ih]

theorem filterMap_id_map_some {α : Type} (l : List α) : (l.map some).filterMap id = l := by
  induction l with
  | nil => rfl
  | cons a t ih => simp

theorem filter_isJob_map_convert (l : List SkillDir) (f : SkillDir → SkillDir)
    (ov : ConversionTarget) :
    (l.map (fun s => Closure.convertSkillCmd (f s) ov)).filter Closure.isJob =
      l.map (fun s => Closure.convertSkillCmd (f s) ov) := by
  induction l with
  | nil => rfl
  | cons a t ih => simp [Closure.isJob]

/-- C5: in a browsing state with the cursor on the entity `e` at position `i`,
the convert-selected intent (key `c`) changes the model and dispatches a job
exactly when the status of `e` is `Pending` or `Failed`. In that case the model
differs from the old one only in that `e` now has status `Running`, and the
command is a single conversion closure for `e` with override `Auto`. Otherwise,
in particular when `e` is `Running` or `Success`, the model is unchanged and the
command is nil. -/
theorem C5_convert_selected (lib : Lib) (m : Model) (i : Nat)
    (hB : m.State = .StateBrowsing) (hi : i < m.Skills.length) (hcur : m.Cursor = (i : Int)) :
    ∃ m1 cmd, Update lib m (.KeyMsg "c") = some (m1, cmd) ∧
      (m1 ≠ m ↔ (m.Skills[i].Status = StatusPending ∨ m.Skills[i].Status = StatusFailed)) ∧
      (cmd.closures ≠ [] ↔ (m.Skills[i].Status = StatusPending ∨ m.Skills[i].Status = StatusFailed)) ∧
      ((m.Skills[i].Status = StatusPending ∨ m.Skills[i].Status = StatusFailed) →
        m1 = { m with Skills := m.Skills.set i { m.Skills[i] with Status := StatusRunning } } ∧
        cmd = .single (.convertSkillCmd { m.Skills[i] with Status := StatusRunning } TargetAuto) ∧
        cmd.jobs = [.convertSkillCmd { m.Skills[i] with Status := StatusRunning } TargetAuto]) ∧
      ((m.Skills[i].Status = StatusRunning ∨ m.Skills[i].Status = StatusSuccess) →
        m1 = m ∧ cmd = .nil) := by
  have hlen : m.Skills.length > 0 := by omega
  have hget : getAt m.Skills m.Cursor = some m.Skills[i] := by
    rw [hcur]; exact getAt_natCast m.Skills i hi
  have hnat : m.Cursor.toNat = i := by rw [hcur]; simp
  have hrp : StatusRunning ≠ StatusPending := by decide
  have hrf : StatusRunning ≠ StatusFailed := by decide
  have hsp : StatusSuccess ≠ StatusPending := by decide
  have hsf : StatusSuccess ≠ StatusFailed := by decide
  rw [Update_browsing_key lib m "c" hB (by decide)]
  by_cases hP : m.Skills[i].Status = StatusPending ∨ m.Skills[i].Status = StatusFailed
  · refine ⟨{ m with Skills := m.Skills.set i { m.Skills[i] with Status := StatusRunning } },
      .single (.convertSkillCmd { m.Skills[i] with Status := StatusRunning } TargetAuto),
      ?_, ?_, ?_, ?_, ?_⟩
    · simp [updateBrowsing, hlen, hget, hnat, hP]
    · refine ⟨fun _ => hP, fun _ hEq => ?_⟩
      have hS : m.Skills.set i { m.Skills[i] with Status := StatusRunning } = m.Skills :=
        congrArg Model.Skills hEq
      have hE := congrArg (fun l => l[i]?) hS
      simp only [List.getElem?_set_self hi, List.getElem?_eq_getElem hi, Option.some.injEq] at hE
      have hSt : StatusRunning = m.Skills[i].Status := congrArg SkillDir.Status hE
      rcases hP with h | h
      · exact hrp (hSt.trans h)
      · exact hrf (hSt.trans h)
    · simp [Cmd.closures, hP]
    · intro _
      exact ⟨rfl, rfl, by simp [Cmd.jobs, Cmd.closures, Closure.isJob]⟩
    · intro h
      exfalso
      rcases h with h | h <;> rcases hP with h2 | h2 <;> rw [h] at h2
      · exact hrp h2
      · exact hrf h2
      · exact hsp h2
      · exact hsf h2
  · refine ⟨m, .nil, ?_, ?_, ?_, ?_, ?_⟩
    · simp [updateBrowsing, hlen, hget, hP]
    · simp [hP]
    · simp [Cmd.closures, hP]
    · intro h; exact absurd h hP
    · intro _; exact ⟨rfl, rfl⟩

/-- C5 on the one-entity model of the repository's test, the entity being `Pending`. -/
theorem C5_convert_selected_witness :
    ((browsingOne testSkill).State = .StateBrowsing ∧ 0 < (browsingOne testSkill).Skills.length ∧
      (browsingOne testSkill).Cursor = ((0 : Nat) : Int)) ∧
    ∃ m1 cmd, Update plainLib (browsingOne testSkill) (.KeyMsg "c") = some (m1, cmd) ∧
      (m1 ≠ browsingOne testSkill ↔
        ((browsingOne testSkill).Skills[0].Status = StatusPending ∨
         (browsingOne testSkill).Skills[0].Status = StatusFailed)) ∧
      (cmd.closures ≠ [] ↔
        ((browsingOne testSkill).Skills[0].Status = StatusPending ∨
         (browsingOne testSkill).Skills[0].Status = StatusFailed)) ∧
      (((browsingOne testSkill).Skills[0].Status = StatusPending ∨
        (browsingOne testSkill).Skills[0].Status = StatusFailed) →
        m1 = { browsingOne testSkill with
               Skills := (browsingOne testSkill).Skills.set 0
                 { (browsingOne testSkill).Skills[0] with Status := StatusRunning } } ∧
        cmd = .single (.convertSkillCmd
                { (browsingOne testSkill).Skills[0] with Status := StatusRunning } TargetAuto) ∧
        cmd.jobs = [.convertSkillCmd
                { (browsingOne testSkill).Skills[0] with Status := StatusRunning } TargetAuto]) ∧
      (((browsingOne testSkill).Skills[0].Status = StatusRunning ∨
        (browsingOne testSkill).Skills[0].Status = StatusSuccess) →
        m1 = browsingOne testSkill ∧ cmd = .nil) :=
  ⟨⟨rfl, by decide, rfl⟩,
   C5_convert_selected plainLib (browsingOne testSkill) 0 rfl (by decide) rfl⟩

/-- C6: in a browsing state the convert-all-pending intent (key `A`) sets to
`Running` exactly the entities that were `Pending` and leaves every other entity
and every other part of the model (cursor, both counters) as it was; the
command consists of exactly one conversion closure with override `Auto` per
previously `Pending` entity, in list order, and nothing else, so the number of
jobs is the number of previously `Pending` entities; it is nil when no entity
was `Pending`. -/
theorem C6_convert_all_pending (lib : Lib) (m : Model) (hB : m.State = .StateBrowsing) :
    ∃ cmd,
      Update lib m (.KeyMsg "A") =
        some ({ m with
                Skills := m.Skills.map (fun s =>
                  if s.Status = StatusPending then { s with Status := StatusRunning } else s) },
              cmd) ∧
      cmd.jobs = (m.Skills.filter (fun s => s.Status = StatusPending)).map
        (fun s => Closure.convertSkillCmd { s with Status := StatusRunning } TargetAuto) ∧
      cmd.closures = cmd.jobs ∧
      cmd.jobs.length = m.Skills.countP (fun s => s.Status = StatusPending) ∧
      ((∀ s ∈ m.Skills, s.Status ≠ StatusPending) → cmd = .nil) := by
  rw [Update_browsing_key lib m "A" hB (by decide)]
  have hjobs : ∀ l : List SkillDir,
      ((l.map (fun s => Closure.convertSkillCmd { s with Status := StatusRunning } TargetAuto)).map
          some).filterMap id =
        l.map (fun s => Closure.convertSkillCmd { s with Status := StatusRunning } TargetAuto) :=
    fun l => filterMap_id_map_some _
  by_cases hnil : m.Skills.filter (fun s => s.Status = StatusPending) = []
  · refine ⟨.nil, ?_, ?_, ?_, ?_, ?_⟩
    · simp [updateBrowsing, convertAllPending_eq, hnil]
    · simp [Cmd.jobs, Cmd.closures, hnil]
    · simp [Cmd.jobs, Cmd.closures]
    · rw [List.countP_eq_length_filter, hnil]; simp [Cmd.jobs, Cmd.closures]
    · intro _; rfl
  · refine ⟨.Batch (((m.Skills.filter (fun s => s.Status = StatusPending)).map
        (fun s => Closure.convertSkillCmd { s with Status := StatusRunning } TargetAuto)).map some),
      ?_, ?_, ?_, ?_, ?_⟩
    · have hpos : 0 < (m.Skills.filter (fun s => s.Status = StatusPending)).length :=
        List.length_pos.mpr hnil
      simp only [updateBrowsing, convertAllPending_eq]
      simp [hpos]
    · simp only [Cmd.jobs, Cmd.closures, hjobs]
      exact filter_isJob_map_convert _ _ _
    · simp only [Cmd.jobs, Cmd.closures, hjobs]
      exact (filter_isJob_map_convert _ _ _).symm
    · simp only [Cmd.jobs, Cmd.closures, hjobs]
      rw [filter_isJob_map_convert, List.countP_eq_length_filter]
      simp
    · intro hall
      exfalso
      apply hnil
      rw [List.filter_eq_nil_iff]
      intro s hs
      simpa using hall s hs

/-- C6 on a list with one `Pending`, one `Success` and one more `Pending` entity. -/
theorem C6_convert_all_pending_witness :
    (browsingList [pendingSkill "A" "/skills/A" "Claude",
        { pendingSkill "B" "/skills/B" "Gemini" with Status := StatusSuccess },
        pendingSkill "C" "/skills/C" "Universal"]).State = .StateBrowsing ∧
    ∃ cmd,
      Update plainLib (browsingList [pendingSkill "A" "/skills/A" "Claude",
          { pendingSkill "B" "/skills/B" "Gemini" with Status := StatusSuccess },
          pendingSkill "C" "/skills/C" "Universal"]) (.KeyMsg "A") =
        some (browsingList [{ pendingSkill "A" "/skills/A" "Claude" with Status := StatusRunning },
            { pendingSkill "B" "/skills/B" "Gemini" with Status := StatusSuccess },
            { pendingSkill "C" "/skills/C" "Universal" with Status := StatusRunning }], cmd) ∧
      cmd.jobs =
        [.convertSkillCmd { pendingSkill "A" "/skills/A" "Claude" with Status := StatusRunning }
            TargetAuto,
         .convertSkillCmd { pendingSkill "C" "/skills/C" "Universal" with Status := StatusRunning }
            TargetAuto] ∧
      cmd.closures = cmd.jobs ∧ cmd.jobs.length = 2 :=
  ⟨rfl, by
    obtain ⟨cmd, h1, h2, h3, h4, _⟩ := C6_convert_all_pending plainLib
      (browsingList [pendingSkill "A" "/skills/A" "Claude",
        { pendingSkill "B" "/skills/B" "Gemini" with Status := StatusSuccess },
        pendingSkill "C" "/skills/C" "Universal"]) rfl
    exact ⟨cmd, h1, h2, h3, h4⟩⟩

/-! ## Theorems: rescan and stale completion events -/

theorem markConverted_flag_of_present (p o : String) (l : List SkillDir)
    (h : ∃ s ∈ l, s.Path = p) : (markConverted p o l).2 = true := by
  induction l with
  | nil => simp at h
  | cons a t ih =>
    by_cases ha : a.Path = p
    · simp [markConverted, ha]
    · have ht : ∃ s ∈ t, s.Path = p := by
        obtain ⟨s, hs, hsp⟩ := h
        rcases List.mem_cons.mp hs with rfl | hs
        · exact absurd hsp ha
        · exact ⟨s, hs, hsp⟩
      simp [markConverted, ha, ih ht]

theorem markFailed_flag_of_present (p e : String) (l : List SkillDir)
    (h : ∃ s ∈ l, s.Path = p) : (markFailed p e l).2 = true := by
  induction l with
  | nil => simp at h
  | cons a t ih =>
    by_cases ha : a.Path = p
    · simp [markFailed, ha]
    · have ht : ∃ s ∈ t, s.Path = p := by
        obtain ⟨s, hs, hsp⟩ := h
        rcases List.mem_cons.mp hs with rfl | hs
        · exact absurd hsp ha
        · exact ⟨s, hs, hsp⟩
      simp [markFailed, ha, ih ht]

/-- C3 as stated fails. From program start: one skill `/skills/s1` is
discovered and its conversion is dispatched; the user rescans while the job is
in flight and the fresh scan finds `/skills/s1` again (list of one `Pending`
entity, counters zero, the old job still in flight). When the old job then
completes, its event matches the fresh entity: the list and the success counter
change. -/
theorem C3_counterexample :
    (Sys.run plainLib (Sys.init loadedConfig) rescanTrace).map Sys.observe =
      some ([pendingSkill "s1" "/skills/s1" "Claude"], 0, 0) ∧
    (Sys.run plainLib (Sys.init loadedConfig) rescanTrace).map (fun s => s.inflight) =
      some [.convertSkillCmd { pendingSkill "s1" "/skills/s1" "Claude" with Status := StatusRunning }
        TargetAuto] ∧
    (Sys.run plainLib (Sys.init loadedConfig)
        (rescanTrace ++ [.converted 0 procSucceeds])).map Sys.observe =
      some ([{ pendingSkill "s1" "/skills/s1" "Claude" with
                Status := StatusSuccess, OutputPath := "converted" }], 1, 0) ∧
    (Sys.run plainLib (Sys.init loadedConfig)
        (rescanTrace ++ [.converted 0 procSucceeds])).map Sys.observe ≠
      (Sys.run plainLib (Sys.init loadedConfig) rescanTrace).map Sys.observe := by
  decide

/-- C3, amended: in a browsing state the rescan intent (key `r`) empties the
list, zeroes cursor and counters and issues a discovery; a completion event
for a path `p` that arrives before the fresh list is dropped; once
`DiscoveryCompleted(L)` has installed the fresh list `L` (counters zero), the
completion event of an earlier job for `p` is dropped, leaving the model
unchanged, when `L` has no entity with path `p`; when `L` does have an entity
with path `p`, the event is applied and the success (respectively failure)
counter becomes 1. -/
theorem C3_stale_completion_after_rescan (lib : Lib) (m : Model) (L : List SkillDir)
    (p x : String) (hB : m.State = .StateBrowsing) :
    Update lib m (.KeyMsg "r") =
      some ({ m with Skills := [], Cursor := 0, SuccessCount := 0, FailCount := 0 },
        .single (.discoverSkillsCmd m.Config.ScanRoot m.Config.RecursiveMode)) ∧
    Update lib { m with Skills := [], Cursor := 0, SuccessCount := 0, FailCount := 0 }
        (.SkillConvertedMsg p x) =
      some ({ m with Skills := [], Cursor := 0, SuccessCount := 0, FailCount := 0 }, .nil) ∧
    Update lib { m with Skills := [], Cursor := 0, SuccessCount := 0, FailCount := 0 }
        (.ConversionErrorMsg p x) =
      some ({ m with Skills := [], Cursor := 0, SuccessCount := 0, FailCount := 0 }, .nil) ∧
    Update lib { m with Skills := [], Cursor := 0, SuccessCount := 0, FailCount := 0 }
        (.SkillsDiscoveredMsg L) =
      some ({ m with Skills := L, Cursor := 0, SuccessCount := 0, FailCount := 0 }, .nil) ∧
    ((∀ s ∈ L, s.Path ≠ p) →
      Update lib { m with Skills := L, Cursor := 0, SuccessCount := 0, FailCount := 0 }
          (.SkillConvertedMsg p x) =
        some ({ m with Skills := L, Cursor := 0, SuccessCount := 0, FailCount := 0 }, .nil) ∧
      Update lib { m with Skills := L, Cursor := 0, SuccessCount := 0, FailCount := 0 }
          (.ConversionErrorMsg p x) =
        some ({ m with Skills := L, Cursor := 0, SuccessCount := 0, FailCount := 0 }, .nil)) ∧
    ((∃ s ∈ L, s.Path = p) →
      (∃ m3, Update lib { m with Skills := L, Cursor := 0, SuccessCount := 0, FailCount := 0 }
          (.SkillConvertedMsg p x) = some (m3, .nil) ∧ m3.SuccessCount = 1 ∧ m3.FailCount = 0) ∧
      (∃ m4, Update lib { m with Skills := L, Cursor := 0, SuccessCount := 0, FailCount := 0 }
          (.ConversionErrorMsg p x) = some (m4, .nil) ∧ m4.SuccessCount = 0 ∧ m4.FailCount = 1)) := by
  have hB1 : ({ m with Skills := [], Cursor := 0, SuccessCount := 0, FailCount := 0 } :
      Model).State = .StateBrowsing := hB
  have hB2 : ({ m with Skills := L, Cursor := 0, SuccessCount := 0, FailCount := 0 } :
      Model).State = .StateBrowsing := hB
  refine ⟨?_, ?_, ?_, ?_, ?_, ?_⟩
  · rw [Update_browsing_key lib m "r" hB (by decide)]
    simp [updateBrowsing]
  · rw [Update_browsing_converted lib _ p x hB1]
    simp [updateBrowsing, markConverted]
  · rw [Update_browsing_failed lib _ p x hB1]
    simp [updateBrowsing, markFailed]
  · rw [Update_browsing_discovered lib _ L hB1]
    simp [updateBrowsing]
  · intro habsent
    rw [Update_browsing_converted lib _ p x hB2, Update_browsing_failed lib _ p x hB2]
    simp [updateBrowsing, markConverted_of_absent p x L habsent,
      markFailed_of_absent p x L habsent]
  · intro hpresent
    rw [Update_browsing_converted lib _ p x hB2, Update_browsing_failed lib _ p x hB2]
    refine ⟨⟨_, rfl, ?_, rfl⟩, ⟨_, rfl, rfl, ?_⟩⟩
    · simp [markConverted_flag_of_present p x L hpresent]
    · simp [markFailed_flag_of_present p x L hpresent]

/-- C3, amended, where the fresh scan no longer finds the directory of the job
in flight: the late completion event changes nothing. -/
theorem C3_stale_completion_after_rescan_witness :
    ((browsingOne { testSkill with Status := StatusRunning }).State = .StateBrowsing ∧
      ∀ s ∈ [pendingSkill "s2" "/tmp/s2" "Gemini"], s.Path ≠ "/tmp/s1") ∧
    Update plainLib
        { browsingOne { testSkill with Status := StatusRunning } with
          Skills := [pendingSkill "s2" "/tmp/s2" "Gemini"], Cursor := 0, SuccessCount := 0,
          FailCount := 0 }
        (.SkillConvertedMsg "/tmp/s1" "late") =
      some ({ browsingOne { testSkill with Status := StatusRunning } with
              Skills := [pendingSkill "s2" "/tmp/s2" "Gemini"], Cursor := 0, SuccessCount := 0,
              FailCount := 0 }, .nil) :=
  ⟨⟨rfl, by decide⟩,
   ((C3_stale_completion_after_rescan plainLib
      (browsingOne { testSkill with Status := StatusRunning })
      [pendingSkill "s2" "/tmp/s2" "Gemini"] "/tmp/s1" "late" rfl).2.2.2.2.1 (by decide)).1⟩

/-! ## Theorems: the counters -/

/-- C4 fails on the code. In the session `retryTrace` (one discovered skill,
converted once with a failing job and once more, after the failure, with a
succeeding job) every completion event is the single result of a dispatched
job, yet the final model has one entity, with status `Success`, and both
counters at 1: `success + failed = 2 > total = 1` and the footer's pending
value is `-1`. -/
theorem C4_retry_breaks_counter_bound :
    (Sys.run plainLib (Sys.init loadedConfig) retryTrace).map (fun s => summary s.model) =
      some { Total := 1, Success := 1, Failed := 1, Pending := -1 } ∧
    (Sys.run plainLib (Sys.init loadedConfig) retryTrace).map
        (fun s => s.model.Skills.map SkillDir.Status) = some [StatusSuccess] ∧
    (Sys.run plainLib (Sys.init loadedConfig) retryTrace).map (fun s => s.inflight) = some [] := by
  decide

/-! ## Theorems: the convert-all scenario -/

theorem markConverted_eq_map (p o : String) (l : List SkillDir)
    (hnd : (l.map SkillDir.Path).Nodup) :
    (markConverted p o l).1 =
      l.map (fun s => if s.Path = p then { s with Status := StatusSuccess, OutputPath := o }
        else s) := by
  induction l with
  | nil => rfl
  | cons a t ih =>
    have hnd2 : a.Path ∉ t.map SkillDir.Path ∧ (t.map SkillDir.Path).Nodup := by
      simpa using hnd
    by_cases ha : a.Path = p
    · have hfix : t.map (fun s => if s.Path = p then
          { s with Status := StatusSuccess, OutputPath := o } else s) = t := by
        conv_rhs => rw [← List.map_id t]
        apply List.map_congr_left
        intro s hs
        have hne : s.Path ≠ p := by
          intro hsp
          apply hnd2.1
          rw [ha, ← hsp]
          exact List.mem_map_of_mem SkillDir.Path hs
        simp [hne]
      simp [markConverted, ha, hfix]
    · simp [markConverted, ha, ih hnd2.2]

theorem runMsgs_all_succeed (lib : Lib) (evs : List (String × String)) :
    ∀ m : Model, m.State = .StateBrowsing → (m.Skills.map SkillDir.Path).Nodup →
      (∀ e ∈ evs, e.1 ∈ m.Skills.map SkillDir.Path) →
      ∃ m2, runMsgs lib m (evs.map (fun e => Msg.SkillConvertedMsg e.1 e.2)) = some m2 ∧
        m2.SuccessCount = m.SuccessCount + evs.length ∧
        m2.FailCount = m.FailCount ∧
        m2.Cursor = m.Cursor ∧
        m2.Skills.map SkillDir.Path = m.Skills.map SkillDir.Path ∧
        ∀ s2 ∈ m2.Skills,
          (s2.Path ∈ evs.map Prod.fst ∨
            ∃ s0 ∈ m.Skills, s0.Path = s2.Path ∧ s0.Status = StatusSuccess) →
          s2.Status = StatusSuccess := by
  induction evs with
  | nil =>
    intro m _ _ _
    refine ⟨m, rfl, by simp, rfl, rfl, rfl, ?_⟩
    intro s2 hs2 h
    rcases h with h | ⟨s0, hs0, hpath, hst⟩
    · simp at h
    · -- distinct paths: the entity with the path of `s2` is `s2` itself
      have hinj : s0 = s2 := by
        have hnd : (m.Skills.map SkillDir.Path).Nodup := by assumption
        exact List.inj_on_of_nodup_map hnd hs0 hs2 hpath
      rw [← hinj]; exact hst
  | cons e rest ih =>
    intro m hB hnd hmem
    have he : e.1 ∈ m.Skills.map SkillDir.Path := hmem e (by simp)
    have hflag : (markConverted e.1 e.2 m.Skills).2 = true := by
      apply markConverted_flag_of_present
      obtain ⟨s, hs, hsp⟩ := List.mem_map.mp he
      exact ⟨s, hs, hsp⟩
    have hstep : Update lib m (.SkillConvertedMsg e.1 e.2) =
        some ({ m with
                Skills := m.Skills.map (fun s => if s.Path = e.1 then
                  { s with Status := StatusSuccess, OutputPath := e.2 } else s)
                SuccessCount := m.SuccessCount + 1 }, .nil) := by
      rw [Update_browsing_converted lib m e.1 e.2 hB]
      simp [updateBrowsing, hflag, markConverted_eq_map e.1 e.2 m.Skills hnd]
    have hpaths : (m.Skills.map (fun s => if s.Path = e.1 then
        { s with Status := StatusSuccess, OutputPath := e.2 } else s)).map SkillDir.Path =
        m.Skills.map SkillDir.Path := by
      rw [List.map_map]
      apply List.map_congr_left
      intro s _
      by_cases h : s.Path = e.1 <;> simp [h]
    obtain ⟨m2, hrun, hsc, hfc, hcur, hp2, hall⟩ :=
      ih { m with
           Skills := m.Skills.map (fun s => if s.Path = e.1 then
             { s with Status := StatusSuccess, OutputPath := e.2 } else s)
           SuccessCount := m.SuccessCount + 1 } hB (by simpa [hpaths] using hnd)
        (by
          intro e2 he2
          simpa [hpaths] using hmem e2 (by simp [he2]))
    refine ⟨m2, ?_, ?_, ?_, ?_, ?_, ?_⟩
    · simp only [List.map_cons, runMsgs, hstep]
      exact hrun
    · rw [hsc]; simp only [List.length_cons]; push_cast; ring
    · rw [hfc]
    · rw [hcur]
    · rw [hp2]; exact hpaths
    · intro s2 hs2 h
      apply hall s2 hs2
      -- the entity of the stepped list that has the path of `s2`
      have hs2path : s2.Path ∈ m.Skills.map SkillDir.Path := by
        rw [← hpaths, ← hp2]
        exact List.mem_map_of_mem SkillDir.Path hs2
      obtain ⟨s, hs, hsp⟩ := List.mem_map.mp hs2path
      rcases h with h | ⟨s0, hs0, hpath, hst⟩
      · rw [List.map_cons] at h
        rcases List.mem_cons.mp h with h1 | h1
        · right
          refine ⟨{ s with Status := StatusSuccess, OutputPath := e.2 }, ?_, hsp, rfl⟩
          apply List.mem_map.mpr
          refine ⟨s, hs, ?_⟩
          have : s.Path = e.1 := by rw [hsp]; exact h1
          simp [this]
        · left
          exact h1
      · right
        by_cases hc : s0.Path = e.1
        · refine ⟨{ s0 with Status := StatusSuccess, OutputPath := e.2 }, ?_, hpath, rfl⟩
          apply List.mem_map.mpr
          exact ⟨s0, hs0, by simp [hc]⟩
        · refine ⟨s0, ?_, hpath, hst⟩
          apply List.mem_map.mpr
          exact ⟨s0, hs0, by simp [hc]⟩

/-- C7: take a browsing state whose entities are all `Pending`, have pairwise
distinct paths, and whose counters are zero. Convert-all-pending dispatches one
job per entity (n jobs for n entities). After one `ConversionSucceeded` event
per entity path, applied in any order (`evs` is any arrangement of the paths,
each with some output), the success counter is n, the failure counter is 0, the
footer's pending value is 0 and every entity has status `Success`. -/
theorem C7_convert_all_then_all_succeed (lib : Lib) (m : Model) (evs : List (String × String))
    (hB : m.State = .StateBrowsing)
    (hpend : ∀ s ∈ m.Skills, s.Status = StatusPending)
    (hnd : (m.Skills.map SkillDir.Path).Nodup)
    (hs : m.SuccessCount = 0) (hf : m.FailCount = 0)
    (hperm : (evs.map Prod.fst).Perm (m.Skills.map SkillDir.Path)) :
    ∃ m1 cmd m2,
      Update lib m (.KeyMsg "A") = some (m1, cmd) ∧
      cmd.jobs = m.Skills.map
        (fun s => Closure.convertSkillCmd { s with Status := StatusRunning } TargetAuto) ∧
      cmd.jobs.length = m.Skills.length ∧
      runMsgs lib m1 (evs.map (fun e => Msg.SkillConvertedMsg e.1 e.2)) = some m2 ∧
      m2.SuccessCount = m.Skills.length ∧
      m2.FailCount = 0 ∧
      summary m2 =
        { Total := m.Skills.length, Success := m.Skills.length, Failed := 0, Pending := 0 } ∧
      m2.Skills.length = m.Skills.length ∧
      ∀ s ∈ m2.Skills, s.Status = StatusSuccess := by
  have hfilter : m.Skills.filter (fun s => s.Status = StatusPending) = m.Skills := by
    rw [List.filter_eq_self]
    intro s hs
    simpa using hpend s hs
  have hpaths1 : (m.Skills.map (fun s =>
      if s.Status = StatusPending then { s with Status := StatusRunning } else s)).map
        SkillDir.Path = m.Skills.map SkillDir.Path := by
    rw [List.map_map]
    apply List.map_congr_left
    intro s _
    by_cases h : s.Status = StatusPending <;> simp [h]
  have hlen : evs.length = m.Skills.length := by
    have := hperm.length_eq
    simpa using this
  have hB1 : ({ m with Skills := m.Skills.map (fun s =>
      if s.Status = StatusPending then { s with Status := StatusRunning } else s) } :
        Model).State = .StateBrowsing := hB
  obtain ⟨m2, hrun, hsc, hfc, _, hp2, hall⟩ := runMsgs_all_succeed lib evs
    { m with Skills := m.Skills.map (fun s =>
        if s.Status = StatusPending then { s with Status := StatusRunning } else s) }
    hB1 (by simpa [hpaths1] using hnd)
    (by
      intro e he
      have : e.1 ∈ evs.map Prod.fst := List.mem_map_of_mem Prod.fst he
      simpa [hpaths1] using hperm.subset this)
  have hlen2 : m2.Skills.length = m.Skills.length := by
    have := congrArg List.length hp2
    simpa using this
  have hjobs : ∀ l : List SkillDir,
      (if 0 < l.length then
          Cmd.Batch ((l.map (fun s =>
            Closure.convertSkillCmd { s with Status := StatusRunning } TargetAuto)).map some)
        else Cmd.nil).jobs =
        l.map (fun s => Closure.convertSkillCmd { s with Status := StatusRunning } TargetAuto) := by
    intro l
    cases l with
    | nil => rfl
    | cons a t =>
      simp only [List.length_cons, Nat.succ_pos, if_true, Cmd.jobs, Cmd.closures,
        filterMap_id_map_some]
      exact filter_isJob_map_convert _ _ _
  refine ⟨_, (if 0 < m.Skills.length then
      Cmd.Batch ((m.Skills.map (fun s =>
        Closure.convertSkillCmd { s with Status := StatusRunning } TargetAuto)).map some)
    else Cmd.nil), m2, ?_, ?_, ?_, hrun, ?_, ?_, ?_, hlen2, ?_⟩
  · rw [Update_browsing_key lib m "A" hB (by decide)]
    simp only [updateBrowsing, convertAllPending_eq, hfilter]
    simp
  · simpa using hjobs m.Skills
  · have := congrArg List.length (hjobs m.Skills)
    simpa using this
  · rw [hsc]; simp [hs, hlen]
  · rw [hfc]; exact hf
  · have h1 : m2.SuccessCount = (m.Skills.length : Int) := by rw [hsc]; simp [hs, hlen]
    have h2 : m2.FailCount = 0 := by rw [hfc]; exact hf
    simp [summary, h1, h2, hlen2]
  · intro s2 hs2
    apply hall s2 hs2
    left
    have h1 : s2.Path ∈ m2.Skills.map SkillDir.Path := List.mem_map_of_mem SkillDir.Path hs2
    rw [hp2] at h1
    have h2 : s2.Path ∈ m.Skills.map SkillDir.Path := by simpa [hpaths1] using h1
    exact hperm.symm.subset h2

/-- C7 on the specification's scenario `A(Claude)`, `B(Gemini)`, `C(Universal)`,
the three jobs reporting success in the order C, A, B. -/
theorem C7_convert_all_then_all_succeed_witness :
    ((browsingList scenarioABC).State = .StateBrowsing ∧
      (∀ s ∈ (browsingList scenarioABC).Skills, s.Status = StatusPending) ∧
      ((browsingList scenarioABC).Skills.map SkillDir.Path).Nodup ∧
      (browsingList scenarioABC).SuccessCount = 0 ∧ (browsingList scenarioABC).FailCount = 0 ∧
      ([("/skills/C", "c"), ("/skills/A", "a"), ("/skills/B", "b")].map Prod.fst).Perm
        ((browsingList scenarioABC).Skills.map SkillDir.Path)) ∧
    ∃ m1 cmd m2,
      Update plainLib (browsingList scenarioABC) (.KeyMsg "A") = some (m1, cmd) ∧
      cmd.jobs.length = 3 ∧
      runMsgs plainLib m1
        [.SkillConvertedMsg "/skills/C" "c", .SkillConvertedMsg "/skills/A" "a",
         .SkillConvertedMsg "/skills/B" "b"] = some m2 ∧
      summary m2 = { Total := 3, Success := 3, Failed := 0, Pending := 0 } ∧
      ∀ s ∈ m2.Skills, s.Status = StatusSuccess :=
  ⟨⟨rfl, by decide, by decide, rfl, rfl, by decide⟩, by
    obtain ⟨m1, cmd, m2, h1, _, h3, h4, _, _, h7, _, h9⟩ :=
      C7_convert_all_then_all_succeed plainLib (browsingList scenarioABC)
        [("/skills/C", "c"), ("/skills/A", "a"), ("/skills/B", "b")]
        rfl (by decide) (by decide) rfl rfl (by decide)
    exact ⟨m1, cmd, m2, h1, h3, h4, h7, h9⟩⟩

/-! ## Theorems: the errors of the command builder -/

theorem unresolved_ne_unsupported (t : String) :
    "cannot build command for 'Auto' target; must be resolved" ≠ "unsupported target: " ++ t := by
  intro h
  have h2 := congrArg String.data h
  simp [String.data_append] at h2

theorem required_ne_unsupported (t : String) :
    "input path is required" ≠ "unsupported target: " ++ t := by
  intro h
  have h2 := congrArg String.data h
  simp [String.data_append] at h2

theorem convertSkillCmd_target_declared (s : SkillDir) (cfg : AppConfig)
    (override : ConversionTarget) (h1 : IsDeclaredTarget override)
    (h2 : IsDeclaredTarget s.Target) (h3 : IsDeclaredTarget cfg.DefaultTarget) :
    convertSkillCmd_target s cfg override = TargetGemini ∨
    convertSkillCmd_target s cfg override = TargetClaude := by
  have hg : TargetGemini ≠ TargetAuto := by decide
  have hc : TargetClaude ≠ TargetAuto := by decide
  unfold IsDeclaredTarget at h1 h2 h3
  unfold convertSkillCmd_target
  by_cases k1 : override = TargetAuto <;> by_cases k2 : s.Target = TargetAuto <;>
    by_cases k3 : cfg.DefaultTarget = TargetAuto <;>
    by_cases k4 : s.CurrentPlatform = "Claude" <;>
    by_cases k5 : s.CurrentPlatform = "Gemini" <;>
    simp [k1, k2, k3, k4, k5, hg, hc] <;> tauto

theorem BuildConvertCommand_declared (path outputDir : String) (target : ConversionTarget)
    (hpath : path ≠ "") (htarget : target = TargetGemini ∨ target = TargetClaude) :
    BuildConvertCommand path target outputDir =
      .ok (["convert", path, "--to", if target = TargetGemini then "gemini" else "claude"] ++
            if outputDir = "" then [] else ["--output", outputDir]) := by
  have hg : toLower TargetGemini = "gemini" := by decide
  have hc : toLower TargetClaude = "claude" := by decide
  have hne : TargetClaude ≠ TargetGemini := by decide
  rcases htarget with h | h <;> subst h
  · by_cases ho : outputDir = "" <;> simp [BuildConvertCommand, BuildConvertCommandWith, hpath, hg, ho]
  · by_cases ho : outputDir = "" <;> simp [BuildConvertCommand, BuildConvertCommandWith, hpath, hc, hne, ho]

/-- C11 as stated fails: the target `"gemini"` (lower case) is none of the
declared values `Gemini`, `Claude`, `Auto`, yet `BuildConvertCommand` returns an
argument list for it instead of the unsupported-target error. -/
theorem C11_counterexample :
    ("gemini" ≠ TargetGemini ∧ "gemini" ≠ TargetClaude ∧ "gemini" ≠ TargetAuto) ∧
    BuildConvertCommand "/abs/skill" "gemini" "" =
      .ok ["convert", "/abs/skill", "--to", "gemini"] ∧
    BuildConvertCommand "/abs/skill" "gemini" "" ≠ .error ("unsupported target: " ++ "gemini") := by
  refine ⟨by decide, rfl, ?_⟩
  intro h
  have h2 : (Except.ok ["convert", "/abs/skill", "--to", "gemini"] :
      Except String (List String)) = .error ("unsupported target: " ++ "gemini") := h
  cases h2

/-- C11, amended: for a non-empty input path, `BuildConvertCommand` decides on
the target as `strings.ToLower` (`lower`) returns it. It fails with the
unsupported-target error exactly when the lower-cased target is none of
`gemini`, `claude`, `auto`; it returns an argument list exactly when the
lower-cased target is `gemini` or `claude`, and the list it returns carries the
lower-cased target after `--to`. -/
theorem C11_unsupported_target (lower : String → String) (path outputDir : String)
    (target : ConversionTarget) (hpath : path ≠ "") :
    (BuildConvertCommandWith lower path target outputDir =
        .error ("unsupported target: " ++ target) ↔
      (lower target ≠ "gemini" ∧ lower target ≠ "claude" ∧ lower target ≠ "auto")) ∧
    ((∃ args, BuildConvertCommandWith lower path target outputDir = .ok args) ↔
      (lower target = "gemini" ∨ lower target = "claude")) ∧
    (∀ args, BuildConvertCommandWith lower path target outputDir = .ok args →
      args = ["convert", path, "--to", lower target] ++
        if outputDir = "" then [] else ["--output", outputDir]) := by
  have hu := unresolved_ne_unsupported target
  have hgc : ("gemini" : String) ≠ "claude" := by decide
  by_cases hG : lower target = "gemini"
  · by_cases ho : outputDir = "" <;> simp [BuildConvertCommandWith, hpath, hG, ho]
  · by_cases hC : lower target = "claude"
    · by_cases ho : outputDir = "" <;> simp [BuildConvertCommandWith, hpath, hC, ho]
    · by_cases hA : lower target = "auto"
      · simp [BuildConvertCommandWith, hpath, hG, hC, hA, hu]
      · simp [BuildConvertCommandWith, hpath, hG, hC, hA]

/-- C11, amended, at the zero value `""` (unsupported), at `"GEMINI"` (accepted)
and, with a lower-casing that maps U+0130 to `i` as `strings.ToLower` does, at
`GEMINI` spelled with U+0130 for both letters `I` (accepted, `--to gemini`). -/
theorem C11_unsupported_target_witness :
    ("/abs/skill" ≠ "" ∧ toLower "" ≠ "gemini" ∧ toLower "" ≠ "claude" ∧ toLower "" ≠ "auto" ∧
      toLower "GEMINI" = "gemini" ∧ toLowerDotted dottedGemini = "gemini" ∧
      toLowerDotted "GEMINI" = "gemini" ∧ toLower dottedGemini ≠ "gemini") ∧
    BuildConvertCommandWith toLower "/abs/skill" "" "/out" =
      .error ("unsupported target: " ++ "") ∧
    (∃ args, BuildConvertCommandWith toLower "/abs/skill" "GEMINI" "/out" = .ok args) ∧
    (∃ args, BuildConvertCommandWith toLowerDotted "/abs/skill" dottedGemini "" = .ok args) ∧
    BuildConvertCommandWith toLowerDotted "/abs/skill" dottedGemini "" =
      .ok ["convert", "/abs/skill", "--to", "gemini"] :=
  ⟨⟨by decide, by decide, by decide, by decide, by decide, by decide, by decide, by decide⟩,
   (C11_unsupported_target toLower "/abs/skill" "/out" "" (by decide)).1.mpr
     ⟨by decide, by decide, by decide⟩,
   (C11_unsupported_target toLower "/abs/skill" "/out" "GEMINI" (by decide)).2.1.mpr
     (Or.inl (by decide)),
   (C11_unsupported_target toLowerDotted "/abs/skill" "" dottedGemini (by decide)).2.1.mpr
     (Or.inl (by decide)),
   rfl⟩

/-- C12: an empty input path fails with `input path is required` whatever the
target and the output directory are, and no arguments are returned; a non-empty
input path with target `Auto` fails with the unresolved-target error whatever
the output directory is, and that error differs from every unsupported-target
error. -/
theorem C12_caller_errors (target : ConversionTarget) (outputDir : String) :
    BuildConvertCommand "" target outputDir = .error "input path is required" ∧
    (∀ path : String, path ≠ "" →
      BuildConvertCommand path TargetAuto outputDir =
        .error "cannot build command for 'Auto' target; must be resolved") ∧
    (∀ t : String,
      "cannot build command for 'Auto' target; must be resolved" ≠ "unsupported target: " ++ t) ∧
    "cannot build command for 'Auto' target; must be resolved" ≠ "input path is required" := by
  have ha : toLower TargetAuto = "auto" := by decide
  refine ⟨by simp [BuildConvertCommand, BuildConvertCommandWith], ?_, unresolved_ne_unsupported, by decide⟩
  intro path hpath
  simp [BuildConvertCommand, BuildConvertCommandWith, hpath, ha]

/-- C12 at the two failing rows of the repository's test table. -/
theorem C12_caller_errors_witness :
    "./skill" ≠ "" ∧
    BuildConvertCommand "" TargetGemini "" = .error "input path is required" ∧
    BuildConvertCommand "./skill" TargetAuto "" =
      .error "cannot build command for 'Auto' target; must be resolved" :=
  ⟨by decide, (C12_caller_errors TargetGemini "").1,
   (C12_caller_errors TargetGemini "").2.1 "./skill" (by decide)⟩

/-- C13: for a job whose snapshot has a non-empty path and whose override,
entity target and global default are each one of `Gemini`, `Claude`, `Auto`,
the target handed to `BuildConvertCommand` is not `Auto`, the build succeeds
with `convert <path> --to <gemini|claude>` (plus `--output <dir>` when an output
directory was computed), and the message of the job is decided by the process
execution alone: a `ConversionFailed` can only carry the executor's
`command failed` error, never a builder error. -/
theorem C13_build_cannot_fail (join : String → String → String) (s : SkillDir)
    (cfg : AppConfig) (override : ConversionTarget) (proc : List String → ProcResult)
    (hpath : s.Path ≠ "") (h1 : IsDeclaredTarget override) (h2 : IsDeclaredTarget s.Target)
    (h3 : IsDeclaredTarget cfg.DefaultTarget) :
    convertSkillCmd_target s cfg override ≠ TargetAuto ∧
    ∃ t args, (t = "gemini" ∨ t = "claude") ∧
      args = ["convert", s.Path, "--to", t] ++
        (if convertSkillCmd_outDir join s cfg = "" then []
         else ["--output", convertSkillCmd_outDir join s cfg]) ∧
      BuildConvertCommand s.Path (convertSkillCmd_target s cfg override)
        (convertSkillCmd_outDir join s cfg) = .ok args ∧
      convertSkillCmd_run join s cfg override proc =
        (match (proc args).err with
         | some e => Msg.ConversionErrorMsg s.Path
             ("command failed: " ++ e ++ "\nStderr: " ++ (proc args).stderr)
         | none => Msg.SkillConvertedMsg s.Path (proc args).stdout) := by
  have hd := convertSkillCmd_target_declared s cfg override h1 h2 h3
  have hb := BuildConvertCommand_declared s.Path (convertSkillCmd_outDir join s cfg)
    (convertSkillCmd_target s cfg override) hpath hd
  refine ⟨?_, (if convertSkillCmd_target s cfg override = TargetGemini then "gemini" else "claude"),
    _, ?_, rfl, hb, ?_⟩
  · rcases hd with h | h <;> rw [h] <;> decide
  · by_cases h : convertSkillCmd_target s cfg override = TargetGemini <;> simp [h]
  · unfold BuildConvertCommand at hb
    simp only [convertSkillCmd_run, convertSkillCmd_runWith, hb, ExecuteCommand]
    cases (proc _).err <;> rfl

/-- C13 at a discovered `Claude` skill with everything left on `Auto` and a
succeeding process. -/
theorem C13_build_cannot_fail_witness :
    ((pendingSkill "s1" "/skills/s1" "Claude").Path ≠ "" ∧ IsDeclaredTarget TargetAuto ∧
      IsDeclaredTarget (pendingSkill "s1" "/skills/s1" "Claude").Target ∧
      IsDeclaredTarget loadedConfig.DefaultTarget) ∧
    convertSkillCmd_target (pendingSkill "s1" "/skills/s1" "Claude") loadedConfig TargetAuto ≠
      TargetAuto :=
  ⟨⟨by decide, by decide, by decide, by decide⟩,
   (C13_build_cannot_fail plainLib.filepathJoin (pendingSkill "s1" "/skills/s1" "Claude")
      loadedConfig TargetAuto procSucceeds (by decide) (by decide) (by decide) (by decide)).1⟩

/-! ## Theorems: failure events, discovery events and forced conversion -/

/-- C18 as stated fails at the word boundary: in the one-entity browsing model
whose failure counter holds the largest `int`, `ConversionFailed` for the path
of the entity makes the counter the smallest `int`, not the counter plus one. -/
theorem C18_counterexample :
    fullFailCounter.State = .StateBrowsing ∧
    fullFailCounter.Skills = [testSkill] ∧ testSkill.Path = "/tmp/s1" ∧
    fullFailCounter.FailCount = 9223372036854775807 ∧
    (Update64 plainLib fullFailCounter (.ConversionErrorMsg "/tmp/s1" "fail")).map
        (fun r => r.1.FailCount) = some (-9223372036854775808) ∧
    (Update64 plainLib fullFailCounter (.ConversionErrorMsg "/tmp/s1" "fail")).map
        (fun r => r.1.FailCount) ≠ some (fullFailCounter.FailCount + 1) := by
  decide

/-- C18, amended: in a browsing state whose failure counter is an `int` below
the largest one, let `i` be the first position whose entity has path `p` (the
only one when exactly one entity has path `p`). Then `ConversionFailed(p, e)`
sets that entity's status to `Failed` and its error text to `e`, adds exactly
one to the failure counter, and changes nothing else: every other entity (also
a later one with the same path), the output path of the matched entity, the
cursor and the success counter are as before. When the counter holds the
largest `int` the same holds except that the counter becomes the smallest
`int`. -/
theorem C18_conversion_failed (lib : Lib) (m : Model) (p e : String) (i : Nat)
    (hB : m.State = .StateBrowsing) (hi : i < m.Skills.length)
    (hp : m.Skills[i].Path = p)
    (hfirst : ∀ j (hj : j < m.Skills.length), j < i → m.Skills[j].Path ≠ p)
    (hlo : MinInt64 ≤ m.FailCount) :
    (m.FailCount < MaxInt64 →
      Update64 lib m (.ConversionErrorMsg p e) =
        some ({ m with
                Skills := m.Skills.set i { m.Skills[i] with Status := StatusFailed, ErrorLog := e }
                FailCount := m.FailCount + 1 }, .nil)) ∧
    (m.FailCount = MaxInt64 →
      Update64 lib m (.ConversionErrorMsg p e) =
        some ({ m with
                Skills := m.Skills.set i { m.Skills[i] with Status := StatusFailed, ErrorLog := e }
                FailCount := MinInt64 }, .nil)) := by
  rw [Update64_browsing_failed lib m p e hB]
  constructor
  · intro hlt
    simp [updateBrowsing64, markFailed_of_first p e m.Skills i hi hp hfirst,
      incInt64_of_lt _ hlo hlt]
  · intro hmax
    simp [updateBrowsing64, markFailed_of_first p e m.Skills i hi hp hfirst, hmax,
      incInt64_max]

/-- C18, amended, on a list in which two entities share the path `/tmp/s1`:
only the first one is updated and the failure counter goes from 0 to 1. -/
theorem C18_conversion_failed_witness :
    ((browsingList [testSkill, { testSkill with Name := "Copy" }]).State = .StateBrowsing ∧
      MinInt64 ≤ (browsingList [testSkill, { testSkill with Name := "Copy" }]).FailCount ∧
      (browsingList [testSkill, { testSkill with Name := "Copy" }]).FailCount < MaxInt64) ∧
    Update64 plainLib (browsingList [testSkill, { testSkill with Name := "Copy" }])
        (.ConversionErrorMsg "/tmp/s1" "fail") =
      some ({ browsingList [testSkill, { testSkill with Name := "Copy" }] with
              Skills := [{ testSkill with Status := StatusFailed, ErrorLog := "fail" },
                         { testSkill with Name := "Copy" }]
              FailCount := 1 }, .nil) :=
  ⟨⟨rfl, by decide, by decide⟩,
   (C18_conversion_failed plainLib (browsingList [testSkill, { testSkill with Name := "Copy" }])
    "/tmp/s1" "fail" 0 rfl (by decide) rfl (by
      intro j _ hj
      omega) (by decide)).1 (by decide)⟩

/-- C19: in a browsing state `DiscoveryCompleted(L)` makes the entity list
exactly `L`, sets the cursor to 0 and both counters to 0, whatever the previous
list, cursor and counters were, and changes nothing else; the discovery closure
delivers a failed discovery as the empty list and a successful one as the list
found. -/
theorem C19_discovery_completed (lib : Lib) (m : Model) (L : List SkillDir)
    (hB : m.State = .StateBrowsing) :
    Update lib m (.SkillsDiscoveredMsg L) =
      some ({ m with Skills := L, Cursor := 0, SuccessCount := 0, FailCount := 0 }, .nil) ∧
    discoverSkillsCmd_run none = .SkillsDiscoveredMsg [] ∧
    discoverSkillsCmd_run (some L) = .SkillsDiscoveredMsg L := by
  rw [Update_browsing_discovered lib m L hB]
  simp [updateBrowsing, discoverSkillsCmd_run]

/-- C19 on a model with one `Failed` entity, cursor and counters non-zero. -/
theorem C19_discovery_completed_witness :
    ({ browsingList [{ testSkill with Status := StatusFailed }, testSkill] with
        Cursor := 1, SuccessCount := 2, FailCount := 3 } : Model).State = .StateBrowsing ∧
    Update plainLib
        { browsingList [{ testSkill with Status := StatusFailed }, testSkill] with
          Cursor := 1, SuccessCount := 2, FailCount := 3 }
        (.SkillsDiscoveredMsg scenarioABC) =
      some (browsingList scenarioABC, .nil) :=
  ⟨rfl, (C19_discovery_completed plainLib
    { browsingList [{ testSkill with Status := StatusFailed }, testSkill] with
      Cursor := 1, SuccessCount := 2, FailCount := 3 } scenarioABC rfl).1⟩

/-- C20: in a browsing state, with the cursor on the entity at position `i`
and whatever the status of that entity is, the force-to-Gemini intent (key `g`)
and the force-to-Claude intent (key `a`) each change the model only in that the
selected entity gets status `Running`, and issue exactly one conversion closure
for it whose override is `Gemini`, respectively `Claude`. The job resolves its
target to that override whatever the entity's own target and the configuration
are, and for a non-empty path its command is `convert <path> --to gemini`,
respectively `--to claude`. On an empty list both intents leave the model
unchanged and issue nothing. -/
theorem C20_force_convert (lib : Lib) (m : Model) (hB : m.State = .StateBrowsing) :
    (∀ i (hi : i < m.Skills.length), m.Cursor = (i : Int) →
      Update lib m (.KeyMsg "g") =
        some ({ m with Skills := m.Skills.set i { m.Skills[i] with Status := StatusRunning } },
          .single (.convertSkillCmd { m.Skills[i] with Status := StatusRunning } TargetGemini)) ∧
      Update lib m (.KeyMsg "a") =
        some ({ m with Skills := m.Skills.set i { m.Skills[i] with Status := StatusRunning } },
          .single (.convertSkillCmd { m.Skills[i] with Status := StatusRunning } TargetClaude)) ∧
      (∀ cfg : AppConfig,
        convertSkillCmd_target { m.Skills[i] with Status := StatusRunning } cfg TargetGemini =
          TargetGemini ∧
        convertSkillCmd_target { m.Skills[i] with Status := StatusRunning } cfg TargetClaude =
          TargetClaude) ∧
      (m.Skills[i].Path ≠ "" → ∀ (cfg : AppConfig) (outDir : String),
        BuildConvertCommand m.Skills[i].Path
            (convertSkillCmd_target { m.Skills[i] with Status := StatusRunning } cfg TargetGemini)
            outDir =
          .ok (["convert", m.Skills[i].Path, "--to", "gemini"] ++
            if outDir = "" then [] else ["--output", outDir]) ∧
        BuildConvertCommand m.Skills[i].Path
            (convertSkillCmd_target { m.Skills[i] with Status := StatusRunning } cfg TargetClaude)
            outDir =
          .ok (["convert", m.Skills[i].Path, "--to", "claude"] ++
            if outDir = "" then [] else ["--output", outDir]))) ∧
    (m.Skills = [] →
      Update lib m (.KeyMsg "g") = some (m, .nil) ∧ Update lib m (.KeyMsg "a") = some (m, .nil)) := by
  have hga : TargetGemini ≠ TargetAuto := by decide
  have hca : TargetClaude ≠ TargetAuto := by decide
  have hcg : TargetClaude ≠ TargetGemini := by decide
  have htg : ∀ (s : SkillDir) (cfg : AppConfig),
      convertSkillCmd_target s cfg TargetGemini = TargetGemini := by
    intro s cfg; simp [convertSkillCmd_target, hga]
  have htc : ∀ (s : SkillDir) (cfg : AppConfig),
      convertSkillCmd_target s cfg TargetClaude = TargetClaude := by
    intro s cfg; simp [convertSkillCmd_target, hca]
  rw [Update_browsing_key lib m "g" hB (by decide), Update_browsing_key lib m "a" hB (by decide)]
  refine ⟨?_, ?_⟩
  · intro i hi hcur
    have hlen : m.Skills.length > 0 := by omega
    have hget : getAt m.Skills m.Cursor = some m.Skills[i] := by
      rw [hcur]; exact getAt_natCast m.Skills i hi
    have hnat : m.Cursor.toNat = i := by rw [hcur]; simp
    refine ⟨?_, ?_, fun cfg => ⟨htg _ cfg, htc _ cfg⟩, ?_⟩
    · simp [updateBrowsing, forceConvert, hlen, hget, hnat]
    · simp [updateBrowsing, forceConvert, hlen, hget, hnat]
    · intro hpath cfg outDir
      rw [htg, htc]
      constructor
      · have := BuildConvertCommand_declared m.Skills[i].Path outDir TargetGemini hpath
          (Or.inl rfl)
        simpa using this
      · have := BuildConvertCommand_declared m.Skills[i].Path outDir TargetClaude hpath
          (Or.inr rfl)
        simpa [hcg] using this
  · intro hnil
    simp [updateBrowsing, forceConvert, hnil]

/-- C20 on the one-entity model with the entity already `Success`: key `g`
sets it back to `Running` and issues one closure with override `Gemini`; on
the empty list key `a` does nothing. -/
theorem C20_force_convert_witness :
    ((browsingOne { testSkill with Status := StatusSuccess }).State = .StateBrowsing ∧
      (browsingList []).State = .StateBrowsing ∧ (browsingList []).Skills = []) ∧
    Update plainLib (browsingOne { testSkill with Status := StatusSuccess }) (.KeyMsg "g") =
      some (browsingOne { testSkill with Status := StatusRunning },
        .single (.convertSkillCmd { testSkill with Status := StatusRunning } TargetGemini)) ∧
    Update plainLib (browsingList []) (.KeyMsg "a") = some (browsingList [], .nil) :=
  ⟨⟨rfl, rfl, rfl⟩,
   ((C20_force_convert plainLib (browsingOne { testSkill with Status := StatusSuccess }) rfl).1
      0 (by decide) rfl).1,
   ((C20_force_convert plainLib (browsingList []) rfl).2 rfl).2⟩

/-! ## Theorems: the failure counter and the exit status -/

theorem updateConfig_frame (lib : Lib) (m m1 : Model) (msg : Msg) (c : Cmd)
    (h : updateConfig lib m msg = some (m1, c)) :
    m1.Skills = m.Skills ∧ m1.FailCount = m.FailCount := by
  unfold updateConfig at h
  cases msg with
  | KeyMsg s =>
    simp only at h
    split_ifs at h
    all_goals first
      | (simp only [Option.some.injEq, Prod.mk.injEq] at h
         rw [← h.1]; exact ⟨rfl, rfl⟩)
      | (split at h
         · simp only [Option.some.injEq, Prod.mk.injEq] at h
           rw [← h.1]; exact ⟨rfl, rfl⟩
         · simp at h)
  | _ =>
    simp only [Option.some.injEq, Prod.mk.injEq] at h
    rw [← h.1]; exact ⟨rfl, rfl⟩

theorem failed_of_mem_set (l : List SkillDir) (i : Nat) (x e : SkillDir)
    (hx : x.Status ≠ StatusFailed) (he : e ∈ l.set i x) (hst : e.Status = StatusFailed) :
    ∃ e0 ∈ l, e0.Status = StatusFailed := by
  rcases List.mem_or_eq_of_mem_set he with h | h
  · exact ⟨e, h, hst⟩
  · rw [h] at hst; exact absurd hst hx

theorem failed_of_mem_markConverted (p o : String) (l : List SkillDir) (e : SkillDir)
    (he : e ∈ (markConverted p o l).1) (hst : e.Status = StatusFailed) :
    ∃ e0 ∈ l, e0.Status = StatusFailed := by
  have hsf : StatusSuccess ≠ StatusFailed := by decide
  induction l with
  | nil => simp [markConverted] at he
  | cons a t ih =>
    by_cases ha : a.Path = p
    · simp only [markConverted, ha, if_true, List.mem_cons] at he
      rcases he with h | h
      · rw [h] at hst
        exact absurd hst hsf
      · exact ⟨e, by simp [h], hst⟩
    · simp only [markConverted, ha, if_false, List.mem_cons] at he
      rcases he with h | h
      · exact ⟨a, by simp, by rw [← h]; exact hst⟩
      · obtain ⟨e0, h0, hs0⟩ := ih h
        exact ⟨e0, by simp [h0], hs0⟩

theorem markFailed_of_unflagged (p x : String) (l : List SkillDir)
    (h : (markFailed p x l).2 = false) : (markFailed p x l).1 = l := by
  induction l with
  | nil => rfl
  | cons a t ih =>
    by_cases ha : a.Path = p
    · simp [markFailed, ha] at h
    · simp only [markFailed, ha, if_false] at h ⊢
      rw [ih h]

theorem failed_of_mem_convertAllPending (l : List SkillDir) (e : SkillDir)
    (he : e ∈ (convertAllPending l).1) (hst : e.Status = StatusFailed) :
    ∃ e0 ∈ l, e0.Status = StatusFailed := by
  have hrf : StatusRunning ≠ StatusFailed := by decide
  rw [convertAllPending_eq] at he
  obtain ⟨e0, h0, hf⟩ := List.mem_map.mp he
  by_cases hp : e0.Status = StatusPending
  · simp only [hp, if_true] at hf
    rw [← hf] at hst
    exact absurd hst hrf
  · simp only [hp, if_false] at hf
    exact ⟨e0, h0, by rw [hf]; exact hst⟩

theorem setRunning_inv (m : Model) (i : Nat) (skill : SkillDir) (hinv : FailInv m) :
    FailInv { m with Skills := m.Skills.set i { skill with Status := StatusRunning } } := by
  have hrf : StatusRunning ≠ StatusFailed := by decide
  refine ⟨hinv.1, ?_⟩
  rintro ⟨e, he, hst⟩
  exact hinv.2 (failed_of_mem_set m.Skills i { skill with Status := StatusRunning } e hrf he hst)

theorem forceConvert_inv (m m1 : Model) (ov : ConversionTarget) (c : Cmd) (hinv : FailInv m)
    (h : forceConvert m ov = some (m1, c)) : FailInv m1 := by
  unfold forceConvert at h
  by_cases hlen : m.Skills.length > 0
  · rw [if_pos hlen] at h
    cases hget : getAt m.Skills m.Cursor with
    | none => rw [hget] at h; simp at h
    | some skill =>
      rw [hget] at h
      simp only [Option.some.injEq, Prod.mk.injEq] at h
      rw [← h.1]
      exact setRunning_inv m _ skill hinv
  · rw [if_neg hlen] at h
    simp only [Option.some.injEq, Prod.mk.injEq] at h
    rw [← h.1]; exact hinv

theorem updateBrowsing_key_inv (m m1 : Model) (key : String) (c : Cmd) (hinv : FailInv m)
    (h : updateBrowsing m (.KeyMsg key) = some (m1, c)) : FailInv m1 := by
  unfold updateBrowsing at h
  simp only at h
  by_cases k1 : key = "q"
  · rw [if_pos k1] at h
    simp only [Option.some.injEq, Prod.mk.injEq] at h
    rw [← h.1]; exact hinv
  rw [if_neg k1] at h
  by_cases k2 : key = "up" ∨ key = "k"
  · rw [if_pos k2] at h
    simp only [Option.some.injEq, Prod.mk.injEq] at h
    rw [← h.1]
    split_ifs <;> exact hinv
  rw [if_neg k2] at h
  by_cases k3 : key = "down" ∨ key = "j"
  · rw [if_pos k3] at h
    simp only [Option.some.injEq, Prod.mk.injEq] at h
    rw [← h.1]
    split_ifs <;> exact hinv
  rw [if_neg k3] at h
  by_cases k4 : key = "c"
  · rw [if_pos k4] at h
    by_cases hlen : m.Skills.length > 0
    · rw [if_pos hlen] at h
      cases hget : getAt m.Skills m.Cursor with
      | none => rw [hget] at h; simp at h
      | some skill =>
        rw [hget] at h
        simp only at h
        by_cases hst : skill.Status = StatusPending ∨ skill.Status = StatusFailed
        · rw [if_pos hst] at h
          simp only [Option.some.injEq, Prod.mk.injEq] at h
          rw [← h.1]
          exact setRunning_inv m _ skill hinv
        · rw [if_neg hst] at h
          simp only [Option.some.injEq, Prod.mk.injEq] at h
          rw [← h.1]; exact hinv
    · rw [if_neg hlen] at h
      simp only [Option.some.injEq, Prod.mk.injEq] at h
      rw [← h.1]; exact hinv
  rw [if_neg k4] at h
  by_cases k5 : key = "g"
  · rw [if_pos k5] at h
    exact forceConvert_inv m m1 _ c hinv h
  rw [if_neg k5] at h
  by_cases k6 : key = "a"
  · rw [if_pos k6] at h
    exact forceConvert_inv m m1 _ c hinv h
  rw [if_neg k6] at h
  by_cases k7 : key = "r"
  · rw [if_pos k7] at h
    simp only [Option.some.injEq, Prod.mk.injEq] at h
    rw [← h.1]
    exact ⟨le_refl 0, by simp⟩
  rw [if_neg k7] at h
  by_cases k8 : key = "A"
  · rw [if_pos k8] at h
    simp only [Option.some.injEq, Prod.mk.injEq] at h
    rw [← h.1]
    refine ⟨hinv.1, ?_⟩
    rintro ⟨e, he, hst⟩
    exact hinv.2 (failed_of_mem_convertAllPending _ e he hst)
  rw [if_neg k8] at h
  by_cases k9 : key = "backspace" ∨ key = "delete"
  · rw [if_pos k9] at h
    simp only [Option.some.injEq, Prod.mk.injEq] at h
    rw [← h.1]; exact hinv
  rw [if_neg k9] at h
  by_cases k10 : key = "esc"
  · rw [if_pos k10] at h
    simp only [Option.some.injEq, Prod.mk.injEq] at h
    rw [← h.1]; exact hinv
  rw [if_neg k10] at h
  simp only [Option.some.injEq, Prod.mk.injEq] at h
  rw [← h.1]; exact hinv

theorem updateBrowsing_inv (m m1 : Model) (msg : Msg) (c : Cmd) (hinv : FailInv m)
    (hd : PendingDiscovery msg) (h : updateBrowsing m msg = some (m1, c)) : FailInv m1 := by
  have hpf : StatusPending ≠ StatusFailed := by decide
  cases msg with
  | KeyMsg key => exact updateBrowsing_key_inv m m1 key c hinv h
  | WindowSizeMsg w hgt =>
    simp only [updateBrowsing, Option.some.injEq, Prod.mk.injEq] at h
    rw [← h.1]; exact hinv
  | SkillsDiscoveredMsg L =>
    simp only [updateBrowsing, Option.some.injEq, Prod.mk.injEq] at h
    rw [← h.1]
    refine ⟨le_refl 0, ?_⟩
    rintro ⟨e, he, hst⟩
    have hp : e.Status = StatusPending := hd L rfl e he
    rw [hp] at hst
    exact absurd hst hpf
  | SkillConvertedMsg p o =>
    simp only [updateBrowsing, Option.some.injEq, Prod.mk.injEq] at h
    rw [← h.1]
    refine ⟨hinv.1, ?_⟩
    rintro ⟨e, he, hst⟩
    exact hinv.2 (failed_of_mem_markConverted p o m.Skills e he hst)
  | ConversionErrorMsg p x =>
    simp only [updateBrowsing, Option.some.injEq, Prod.mk.injEq] at h
    rw [← h.1]
    have h0 := hinv.1
    cases hflag : (markFailed p x m.Skills).2 with
    | true =>
      refine ⟨?_, fun _ => ?_⟩
      · show 0 ≤ (if true = true then m.FailCount + 1 else m.FailCount)
        rw [if_pos rfl]; omega
      · show 0 < (if true = true then m.FailCount + 1 else m.FailCount)
        rw [if_pos rfl]; omega
    | false =>
      have hl := markFailed_of_unflagged p x m.Skills hflag
      refine ⟨?_, ?_⟩
      · show 0 ≤ (if false = true then m.FailCount + 1 else m.FailCount)
        rw [if_neg (by decide)]; exact h0
      · show (∃ e ∈ (markFailed p x m.Skills).1, e.Status = StatusFailed) →
          0 < (if false = true then m.FailCount + 1 else m.FailCount)
        rw [if_neg (by decide), hl]; exact hinv.2
  | other tag =>
    simp only [updateBrowsing, Option.some.injEq, Prod.mk.injEq] at h
    rw [← h.1]; exact hinv

theorem Update_inv (lib : Lib) (m m1 : Model) (msg : Msg) (c : Cmd) (hinv : FailInv m)
    (hd : PendingDiscovery msg) (h : Update lib m msg = some (m1, c)) : FailInv m1 := by
  unfold Update at h
  by_cases hq : msg = .KeyMsg "ctrl+c"
  · rw [if_pos hq] at h
    simp only [Option.some.injEq, Prod.mk.injEq] at h
    rw [← h.1]; exact hinv
  · rw [if_neg hq] at h
    have hframe : ∀ m0 : Model, m0.Skills = m.Skills → m0.FailCount = m.FailCount →
        (match m0.State with
          | .StateConfig => updateConfig lib m0 msg
          | .StateBrowsing => updateBrowsing m0 msg) = some (m1, c) → FailInv m1 := by
      intro m0 hs hf h0
      have hinv0 : FailInv m0 := by
        unfold FailInv
        rw [hs, hf]; exact hinv
      cases hst : m0.State with
      | StateConfig =>
        rw [hst] at h0
        obtain ⟨h1, h2⟩ := updateConfig_frame lib m0 m1 msg c h0
        unfold FailInv
        rw [h1, h2]; exact hinv0
      | StateBrowsing =>
        rw [hst] at h0
        exact updateBrowsing_inv m0 m1 msg c hinv0 hd h0
    cases msg with
    | WindowSizeMsg w hgt =>
      exact hframe { m with width := w, height := hgt } rfl rfl h
    | KeyMsg k => exact hframe _ rfl rfl h
    | SkillsDiscoveredMsg L => exact hframe _ rfl rfl h
    | SkillConvertedMsg p o => exact hframe _ rfl rfl h
    | ConversionErrorMsg p x => exact hframe _ rfl rfl h
    | other tag => exact hframe _ rfl rfl h

theorem runMsgs_inv (lib : Lib) (msgs : List Msg) :
    ∀ m m1 : Model, FailInv m → (∀ msg ∈ msgs, PendingDiscovery msg) →
      runMsgs lib m msgs = some m1 → FailInv m1 := by
  induction msgs with
  | nil =>
    intro m m1 hinv _ h
    simp only [runMsgs, Option.some.injEq] at h
    rw [← h]; exact hinv
  | cons msg rest ih =>
    intro m m1 hinv hd h
    simp only [runMsgs] at h
    cases hu : Update lib m msg with
    | none => rw [hu] at h; simp at h
    | some r =>
      rw [hu] at h
      have hr : Update lib m msg = some (r.1, r.2) := hu
      exact ih r.1 m1 (Update_inv lib m r.1 msg r.2 hinv (hd msg (by simp)) hr)
        (fun x hx => hd x (by simp [hx])) h

/-- C17: start from `NewModel(cfg)` and feed the controller any sequence of
messages (key presses, window sizes, completion events, discovery results) in
which every discovery result holds only `Pending` entities. In every model
reached this way, if some entity has status `Failed` then the failure counter is
greater than 0, and therefore the exit status computed from that model is 1. -/
theorem C17_failed_entity_sets_exit_code (lib : Lib) (cfg : AppConfig) (msgs : List Msg)
    (m : Model) (hdisc : ∀ msg ∈ msgs, PendingDiscovery msg)
    (hrun : runMsgs lib (NewModel cfg) msgs = some m)
    (hfailed : ∃ e ∈ m.Skills, e.Status = StatusFailed) :
    0 < m.FailCount ∧ exitCode m = 1 := by
  have h0 : FailInv (NewModel cfg) := ⟨le_refl 0, by simp [NewModel]⟩
  have hinv := runMsgs_inv lib msgs (NewModel cfg) m h0 hdisc hrun
  have hpos := hinv.2 hfailed
  exact ⟨hpos, by simp [exitCode, hpos]⟩

/-- C17 on `failingSession`: the single entity ends `Failed`, the failure
counter is 1 and the exit status is 1. -/
theorem C17_failed_entity_sets_exit_code_witness :
    ((∀ msg ∈ failingSession, PendingDiscovery msg) ∧
      runMsgs plainLib (NewModel loadedConfig) failingSession = some failingSessionEnd ∧
      ∃ e ∈ failingSessionEnd.Skills, e.Status = StatusFailed) ∧
    0 < failingSessionEnd.FailCount ∧ exitCode failingSessionEnd = 1 :=
  have hd : ∀ msg ∈ failingSession, PendingDiscovery msg := by
    intro msg hmem L hL e he
    subst hL
    simp [failingSession] at hmem
    subst hmem
    simp at he
    subst he
    rfl
  have hr : runMsgs plainLib (NewModel loadedConfig) failingSession = some failingSessionEnd := by
    decide
  have hf : ∃ e ∈ failingSessionEnd.Skills, e.Status = StatusFailed :=
    ⟨_, List.mem_singleton.mpr rfl, rfl⟩
  ⟨⟨hd, hr, hf⟩,
   C17_failed_entity_sets_exit_code plainLib loadedConfig failingSession failingSessionEnd hd hr hf⟩

/-! ## Theorems: discovery -/

theorem fileExists_iff (children : List Entry) (name : String) :
    fileExists children name = true ↔ Entry.file name ∈ children := by
  unfold fileExists
  rw [List.any_eq_true]
  constructor
  · rintro ⟨e, he, h⟩
    cases e with
    | file n =>
      simp only [Entry.isFileNamed, decide_eq_true_eq] at h
      rw [← h]; exact he
    | dir n r c => simp [Entry.isFileNamed] at h
  · intro h
    exact ⟨Entry.file name, h, by simp [Entry.isFileNamed]⟩

theorem detectPlatform_cases (children : List Entry) :
    (detectPlatform children = "Claude" ∧ fileExists children "SKILL.md" = true ∧
      fileExists children "gemini-extension.json" = false) ∨
    (detectPlatform children = "Gemini" ∧ fileExists children "SKILL.md" = false ∧
      fileExists children "gemini-extension.json" = true) ∨
    (detectPlatform children = "Universal" ∧ fileExists children "SKILL.md" = true ∧
      fileExists children "gemini-extension.json" = true) ∨
    (detectPlatform children = "" ∧ fileExists children "SKILL.md" = false ∧
      fileExists children "gemini-extension.json" = false) := by
  unfold detectPlatform
  cases fileExists children "SKILL.md" <;> cases fileExists children "gemini-extension.json" <;>
    simp

theorem detectPlatform_declared (children : List Entry) (h : detectPlatform children ≠ "") :
    detectPlatform children = "Claude" ∨ detectPlatform children = "Gemini" ∨
    detectPlatform children = "Universal" := by
  rcases detectPlatform_cases children with h1 | h1 | h1 | h1
  · exact Or.inl h1.1
  · exact Or.inr (Or.inl h1.1)
  · exact Or.inr (Or.inr h1.1)
  · exact absurd h1.1 h

theorem walkFn_skills (base : String → String) (recursive : Bool) (rel : List String)
    (path : String) (d : Option Entry) (err : Bool) (st : WalkState) :
    (walkFn base recursive rel path d err st).1 = st ∨
    ∃ name readable children, d = some (.dir name readable children) ∧ err = false ∧
      detectPlatform children ≠ "" ∧ path ∉ st.seen ∧
      (recursive = true ∨ ¬(relPath rel ≠ "." ∧ containsSep (relPath rel) = true)) ∧
      (walkFn base recursive rel path d err st) =
        ({ skills := st.skills ++ [newSkill base path (detectPlatform children)],
           seen := path :: st.seen }, .SkipDir) := by
  unfold walkFn
  cases err with
  | true =>
    left
    rcases d with _ | ⟨_ | _⟩ <;> rfl
  | false =>
    rcases d with _ | ⟨n | ⟨n, r, c⟩⟩
    · left; rfl
    · left; rfl
    · simp only [Bool.false_eq_true, if_false]
      by_cases h1 : recursive = false ∧ relPath rel ≠ "." ∧ containsSep (relPath rel) = true
      · left; rw [if_pos h1]
      · rw [if_neg h1]
        by_cases h2 : detectPlatform c ≠ ""
        · rw [if_pos h2]
          by_cases h3 : path ∈ st.seen
          · left; rw [if_pos h3]
          · right
            rw [if_neg h3]
            refine ⟨n, r, c, rfl, trivial, h2, h3, ?_, rfl⟩
            by_cases hr : recursive = true
            · exact Or.inl hr
            · right
              intro hc
              apply h1
              refine ⟨?_, hc⟩
              cases recursive with
              | true => exact absurd rfl hr
              | false => rfl
        · left; rw [if_neg h2]

theorem walkFn_emitted (base : String → String) (recursive : Bool) (rel : List String)
    (path : String) (d : Option Entry) (err : Bool) (st : WalkState)
    (h : ∀ e ∈ st.skills, EmittedSkill base e) :
    ∀ e ∈ (walkFn base recursive rel path d err st).1.skills, EmittedSkill base e := by
  rcases walkFn_skills base recursive rel path d err st with h1 | ⟨n, r, c, _, _, hp, _, _, h1⟩
  · rw [h1]; exact h
  · rw [h1]
    intro e he
    rcases List.mem_append.mp he with h2 | h2
    · exact h e h2
    · rw [List.mem_singleton.mp h2]
      exact ⟨detectPlatform_declared c hp, rfl⟩

mutual
theorem walkDir_emitted (join : String → String → String) (base : String → String)
    (recursive : Bool) (rel : List String) (path : String) :
    ∀ (e : Entry) (st : WalkState), (∀ x ∈ st.skills, EmittedSkill base x) →
      ∀ x ∈ (walkDir join base recursive rel path e st).1.skills, EmittedSkill base x
  | .file name, st, h => by
    rw [walkDir]
    exact walkFn_emitted base recursive rel path _ false st h
  | .dir name readable children, st, h => by
    have h1 := walkFn_emitted base recursive rel path (some (.dir name readable children))
      false st h
    rw [walkDir]
    split_ifs
    · exact h1
    · exact walkList_emitted join base recursive rel path children _ h1
    · exact walkFn_emitted base recursive rel path _ true _ h1
theorem walkList_emitted (join : String → String → String) (base : String → String)
    (recursive : Bool) (rel : List String) (path : String) :
    ∀ (es : List Entry) (st : WalkState), (∀ x ∈ st.skills, EmittedSkill base x) →
      ∀ x ∈ (walkList join base recursive rel path es st).1.skills, EmittedSkill base x
  | [], st, h => by
    rw [walkList]; exact h
  | e :: es, st, h => by
    have h1 := walkDir_emitted join base recursive (rel ++ [e.name]) (join path e.name) e st h
    rw [walkList]
    split_ifs
    · exact h1
    · exact walkList_emitted join base recursive rel path es _ h1
end

/-- C14: for the entries `children` of a directory, a non-directory `SKILL.md`
without a non-directory `gemini-extension.json` gives platform `Claude`, the
converse gives `Gemini`, both give `Universal`, neither gives the empty
platform. When the platform is empty the callback emits nothing; when it is not,
the directory passes the depth filter and its path was not emitted before, the
callback appends exactly one entity whose name is the base name of the
directory's path, whose path is that path, whose platform is the
classification, with status `Pending` and target `Auto`. Every entity
`DiscoverSkills` returns has this form, with platform `Claude`, `Gemini` or
`Universal`. -/
theorem C14_classification (base : String → String) (children : List Entry) :
    ((Entry.file "SKILL.md" ∈ children ∧ Entry.file "gemini-extension.json" ∉ children) →
      detectPlatform children = "Claude") ∧
    ((Entry.file "SKILL.md" ∉ children ∧ Entry.file "gemini-extension.json" ∈ children) →
      detectPlatform children = "Gemini") ∧
    ((Entry.file "SKILL.md" ∈ children ∧ Entry.file "gemini-extension.json" ∈ children) →
      detectPlatform children = "Universal") ∧
    ((Entry.file "SKILL.md" ∉ children ∧ Entry.file "gemini-extension.json" ∉ children) →
      detectPlatform children = "") ∧
    (∀ (recursive : Bool) (rel : List String) (path name : String) (readable : Bool)
        (st : WalkState), detectPlatform children = "" →
      (walkFn base recursive rel path (some (.dir name readable children)) false st).1 = st) ∧
    (∀ (recursive : Bool) (rel : List String) (path name : String) (readable : Bool)
        (st : WalkState), detectPlatform children ≠ "" → path ∉ st.seen →
      (recursive = true ∨ ¬(relPath rel ≠ "." ∧ containsSep (relPath rel) = true)) →
      (walkFn base recursive rel path (some (.dir name readable children)) false st).1.skills =
        st.skills ++ [{ Name := base path, Path := path,
                        CurrentPlatform := detectPlatform children, Status := StatusPending,
                        Target := TargetAuto, OutputPath := "", ErrorLog := "" }]) ∧
    (∀ (join : String → String → String) (root : String) (recursive : Bool)
        (rootEntry : Option Entry),
      ∀ e ∈ (DiscoverSkills join base root recursive rootEntry).1,
        (e.CurrentPlatform = "Claude" ∨ e.CurrentPlatform = "Gemini" ∨
          e.CurrentPlatform = "Universal") ∧
        e.Name = base e.Path ∧ e.Status = StatusPending ∧ e.Target = TargetAuto) := by
  have hA := fileExists_iff children "SKILL.md"
  have hB := fileExists_iff children "gemini-extension.json"
  have hcases := detectPlatform_cases children
  refine ⟨?_, ?_, ?_, ?_, ?_, ?_, ?_⟩
  · rintro ⟨h1, h2⟩
    have k1 := hA.mpr h1
    have k2 : fileExists children "gemini-extension.json" = false := by
      cases hx : fileExists children "gemini-extension.json" with
      | true => exact absurd (hB.mp hx) h2
      | false => rfl
    rcases hcases with h | h | h | h
    · exact h.1
    · rw [h.2.1] at k1; cases k1
    · rw [h.2.2] at k2; cases k2
    · rw [h.2.1] at k1; cases k1
  · rintro ⟨h1, h2⟩
    have k2 := hB.mpr h2
    have k1 : fileExists children "SKILL.md" = false := by
      cases hx : fileExists children "SKILL.md" with
      | true => exact absurd (hA.mp hx) h1
      | false => rfl
    rcases hcases with h | h | h | h
    · rw [h.2.1] at k1; cases k1
    · exact h.1
    · rw [h.2.1] at k1; cases k1
    · rw [h.2.2] at k2; cases k2
  · rintro ⟨h1, h2⟩
    have k1 := hA.mpr h1
    have k2 := hB.mpr h2
    rcases hcases with h | h | h | h
    · rw [h.2.2] at k2; cases k2
    · rw [h.2.1] at k1; cases k1
    · exact h.1
    · rw [h.2.1] at k1; cases k1
  · rintro ⟨h1, h2⟩
    have k1 : fileExists children "SKILL.md" = false := by
      cases hx : fileExists children "SKILL.md" with
      | true => exact absurd (hA.mp hx) h1
      | false => rfl
    have k2 : fileExists children "gemini-extension.json" = false := by
      cases hx : fileExists children "gemini-extension.json" with
      | true => exact absurd (hB.mp hx) h2
      | false => rfl
    rcases hcases with h | h | h | h
    · rw [h.2.1] at k1; cases k1
    · rw [h.2.2] at k2; cases k2
    · rw [h.2.1] at k1; cases k1
    · exact h.1
  · intro recursive rel path name readable st hnone
    rcases walkFn_skills base recursive rel path (some (.dir name readable children)) false st
      with h | ⟨n, r, c, hd, _, hp, _, _, _⟩
    · exact h
    · simp only [Option.some.injEq, Entry.dir.injEq] at hd
      rw [← hd.2.2] at hp
      exact absurd hnone hp
  · intro recursive rel path name readable st hsome hseen hvisit
    have h1 : ¬(recursive = false ∧ relPath rel ≠ "." ∧ containsSep (relPath rel) = true) := by
      rintro ⟨hr, hc⟩
      rcases hvisit with hv | hv
      · rw [hr] at hv; cases hv
      · exact hv hc
    simp only [walkFn, Bool.false_eq_true, if_false]
    rw [if_neg h1, if_pos hsome, if_neg hseen]
    rfl
  · intro join root recursive rootEntry e he
    have hall : ∀ x ∈ (DiscoverSkills join base root recursive rootEntry).1,
        EmittedSkill base x := by
      unfold DiscoverSkills
      cases rootEntry with
      | none =>
        exact walkFn_emitted base recursive [] root none true _ (by simp)
      | some t =>
        exact walkDir_emitted join base recursive [] root t _ (by simp)
    obtain ⟨hplat, hform⟩ := hall e he
    refine ⟨hplat, ?_, ?_, ?_⟩
    · exact congrArg SkillDir.Name hform
    · exact congrArg SkillDir.Status hform
    · exact congrArg SkillDir.Target hform

/-- C14 on the `univ-skill` directory of the repository's test (both markers)
and on its `empty` directory (no marker). -/
theorem C14_classification_witness :
    ((Entry.file "SKILL.md" ∈ [Entry.file "SKILL.md", Entry.file "gemini-extension.json"] ∧
      Entry.file "gemini-extension.json" ∈
        [Entry.file "SKILL.md", Entry.file "gemini-extension.json"]) ∧
     (Entry.file "SKILL.md" ∉ ([] : List Entry) ∧
      Entry.file "gemini-extension.json" ∉ ([] : List Entry))) ∧
    detectPlatform [Entry.file "SKILL.md", Entry.file "gemini-extension.json"] = "Universal" ∧
    detectPlatform [] = "" :=
  ⟨⟨⟨by simp, by simp⟩, ⟨by simp, by simp⟩⟩,
   (C14_classification filepathBase
      [Entry.file "SKILL.md", Entry.file "gemini-extension.json"]).2.2.1 ⟨by simp, by simp⟩,
   (C14_classification filepathBase []).2.2.2.1 ⟨by simp, by simp⟩⟩

theorem relPath_deep (a b : String) (rest : List String) :
    relPath (a :: b :: rest) ≠ "." ∧ containsSep (relPath (a :: b :: rest)) = true := by
  have hc : containsSep (relPath (a :: b :: rest)) = true := by
    simp [relPath, containsSep, String.data_append]
  refine ⟨?_, hc⟩
  intro h
  rw [h] at hc
  revert hc
  decide

theorem walkDir_deep (join : String → String → String) (base : String → String)
    (a b : String) (rest : List String) (path : String) (e : Entry) (st : WalkState) :
    walkDir join base false (a :: b :: rest) path e st = (st, .ok) := by
  have hd := relPath_deep a b rest
  cases e with
  | file name => simp [walkDir, walkFn]
  | dir name readable children =>
    have h1 : walkFn base false (a :: b :: rest) path (some (.dir name readable children))
        false st = (st, .SkipDir) := by
      simp only [walkFn, Bool.false_eq_true, if_false]
      rw [if_pos ⟨trivial, hd.1, hd.2⟩]
    rw [walkDir, h1]
    simp

theorem walkList_deep (join : String → String → String) (base : String → String)
    (a : String) (rest : List String) (path : String) (es : List Entry) (st : WalkState) :
    walkList join base false (a :: rest) path es st = (st, .ok) := by
  induction es with
  | nil => rw [walkList]
  | cons e t ih =>
    have h1 : walkDir join base false (a :: rest ++ [e.name]) (join path e.name) e st =
        (st, .ok) := by
      cases rest with
      | nil => exact walkDir_deep join base a e.name [] _ e st
      | cons b r => exact walkDir_deep join base a b (r ++ [e.name]) _ e st
    rw [walkList, h1]
    simpa using ih

theorem walkDir_child (join : String → String → String) (base : String → String)
    (n : String) (path : String) (e : Entry) (st : WalkState) :
    (walkDir join base false [n] path e st).2 = .ok ∧
    ∀ x ∈ (walkDir join base false [n] path e st).1.skills,
      x ∈ st.skills ∨ (e.IsDir = true ∧ x.Path = path) := by
  cases e with
  | file name =>
    have h : walkDir join base false [n] path (.file name) st = (st, .ok) := by
      simp [walkDir, walkFn]
    rw [h]
    exact ⟨rfl, fun x hx => Or.inl hx⟩
  | dir name readable children =>
    rcases walkFn_skills base false [n] path (some (.dir name readable children)) false st
      with h | ⟨_, _, c, _, _, _, _, _, h⟩
    · -- nothing appended by the callback
      have hres : (walkDir join base false [n] path (.dir name readable children) st).1 = st ∧
          (walkDir join base false [n] path (.dir name readable children) st).2 = .ok := by
        rw [walkDir]
        split_ifs
        · exact ⟨h, rfl⟩
        · rw [h, walkList_deep]
          exact ⟨rfl, rfl⟩
        · rw [h]
          simp [walkFn]
      rw [hres.1]
      exact ⟨hres.2, fun x hx => Or.inl hx⟩
    · have hres : walkDir join base false [n] path (.dir name readable children) st =
          ({ skills := st.skills ++ [newSkill base path (detectPlatform c)],
             seen := path :: st.seen }, .ok) := by
        rw [walkDir, h]
        simp
      rw [hres]
      refine ⟨rfl, fun x hx => ?_⟩
      rcases List.mem_append.mp hx with h2 | h2
      · exact Or.inl h2
      · right
        rw [List.mem_singleton.mp h2]
        exact ⟨rfl, rfl⟩

theorem walkList_children (join : String → String → String) (base : String → String)
    (path : String) (es : List Entry) :
    ∀ st : WalkState, ∀ x ∈ (walkList join base false [] path es st).1.skills,
      x ∈ st.skills ∨ ∃ c ∈ es, c.IsDir = true ∧ x.Path = join path c.name := by
  induction es with
  | nil =>
    intro st x hx
    rw [walkList] at hx
    exact Or.inl hx
  | cons e t ih =>
    intro st x hx
    have h1 := walkDir_child join base e.name (join path e.name) e st
    rw [walkList] at hx
    simp only [List.nil_append, h1.1] at hx
    rw [if_neg (by decide)] at hx
    rcases ih _ x hx with h2 | ⟨c, hc, hdir, hpath⟩
    · rcases h1.2 x h2 with h3 | h3
      · exact Or.inl h3
      · exact Or.inr ⟨e, by simp, h3.1, h3.2⟩
    · exact Or.inr ⟨c, by simp [hc], hdir, hpath⟩

/-- C15: every entity that `DiscoverSkills(root, recursive=false)` returns has
the path of the root itself or the path of a directory that is an immediate
child of the root; no directory further down is returned, whatever markers it
holds. On the tree of the repository's test the non-recursive scan returns the
three immediate skills and not `category/nested-skill`, which the recursive
scan does return. -/
theorem C15_non_recursive_depth (join : String → String → String) (base : String → String)
    (root : String) (rootEntry : Option Entry) :
    (∀ x ∈ (DiscoverSkills join base root false rootEntry).1,
      x.Path = root ∨
      ∃ name readable children, rootEntry = some (.dir name readable children) ∧
        ∃ c ∈ children, c.IsDir = true ∧ x.Path = join root c.name) ∧
    (DiscoverSkills plainLib.filepathJoin filepathBase "/tmp" false (some testTree)).1.map
        SkillDir.Path = ["/tmp/claude-skill", "/tmp/gemini-skill", "/tmp/univ-skill"] ∧
    (DiscoverSkills plainLib.filepathJoin filepathBase "/tmp" true (some testTree)).1.map
        SkillDir.Path =
      ["/tmp/category/nested-skill", "/tmp/claude-skill", "/tmp/gemini-skill",
       "/tmp/univ-skill"] := by
  refine ⟨?_, by decide, by decide⟩
  intro x hx
  unfold DiscoverSkills at hx
  cases rootEntry with
  | none => simp [walkFn] at hx
  | some t =>
    simp only at hx
    cases t with
    | file name => simp [walkDir, walkFn] at hx
    | dir name readable children =>
      rcases walkFn_skills base false [] root (some (.dir name readable children)) false
          { skills := [], seen := [] } with h | ⟨_, _, c, _, _, _, _, _, h⟩
      · rw [walkDir] at hx
        split_ifs at hx
        · rw [h] at hx; simp at hx
        · rw [h] at hx
          rcases walkList_children join base root children _ x hx with h2 | h2
          · simp at h2
          · exact Or.inr ⟨name, readable, children, rfl, h2⟩
        · rw [h] at hx; simp [walkFn] at hx
      · rw [walkDir, h] at hx
        simp only [if_true] at hx
        left
        simp only [List.nil_append, List.mem_singleton] at hx
        rw [hx]; rfl

mutual
theorem dirInfos_nested (join : String → String → String) (base : String → String)
    (path : String) :
    ∀ e : Entry, ((dirInfos join true path e).filter
        (fun i => decide (i.platform ≠ "") && !i.nested)).map
      (fun i => newSkill base i.path i.platform) = []
  | .file _ => by simp [dirInfos]
  | .dir _ _ children => by
    have ih := dirInfosList_nested join base path children
    rw [dirInfos]
    simp only [Bool.true_or, List.filter_cons, Bool.not_true, Bool.and_false]
    exact ih
theorem dirInfosList_nested (join : String → String → String) (base : String → String)
    (path : String) :
    ∀ es : List Entry, ((dirInfosList join true path es).filter
        (fun i => decide (i.platform ≠ "") && !i.nested)).map
      (fun i => newSkill base i.path i.platform) = []
  | [] => by simp [dirInfosList]
  | e :: es => by
    have h1 := dirInfos_nested join base (join path e.name) e
    have h2 := dirInfosList_nested join base path es
    rw [dirInfosList, List.filter_append, List.map_append, h1, h2]
    rfl
end

mutual
theorem dirInfos_tops (join : String → String → String) (base : String → String)
    (path : String) :
    ∀ e : Entry, ((dirInfos join false path e).filter
        (fun i => decide (i.platform ≠ "") && !i.nested)).map
      (fun i => newSkill base i.path i.platform) = tops join base path e
  | .file _ => by simp [dirInfos, tops]
  | .dir _ _ children => by
    rw [dirInfos, tops]
    by_cases hp : detectPlatform children ≠ ""
    · have h1 := dirInfosList_nested join base path children
      have hdec : decide (detectPlatform children ≠ "") = true := decide_eq_true hp
      rw [if_pos hp, hdec, List.filter_cons]
      simp only [hdec, Bool.false_or, Bool.not_false, Bool.and_self, if_true, List.map_cons]
      rw [h1]
    · have h2 := dirInfosList_tops join base path children
      have hdec : decide (detectPlatform children ≠ "") = false := decide_eq_false hp
      rw [if_neg hp, hdec, List.filter_cons]
      simp only [hdec, Bool.false_or, Bool.false_and, Bool.false_eq_true, if_false]
      exact h2
theorem dirInfosList_tops (join : String → String → String) (base : String → String)
    (path : String) :
    ∀ es : List Entry, ((dirInfosList join false path es).filter
        (fun i => decide (i.platform ≠ "") && !i.nested)).map
      (fun i => newSkill base i.path i.platform) = topsList join base path es
  | [] => by simp [dirInfosList, topsList]
  | e :: es => by
    have h1 := dirInfos_tops join base (join path e.name) e
    have h2 := dirInfosList_tops join base path es
    rw [dirInfosList, topsList, List.filter_append, List.map_append, h1, h2]
end

theorem dedupAux_append (seen : List String) (a b : List SkillDir) :
    dedupAux seen (a ++ b) =
      ((dedupAux seen a).1 ++ (dedupAux (dedupAux seen a).2 b).1,
       (dedupAux (dedupAux seen a).2 b).2) := by
  induction a generalizing seen with
  | nil => simp [dedupAux]
  | cons x t ih =>
    by_cases hx : x.Path ∈ seen
    · simp only [List.cons_append, dedupAux, if_pos hx, List.append_eq]
      exact ih seen
    · simp only [List.cons_append, dedupAux, if_neg hx, List.append_eq]
      rw [ih (x.Path :: seen)]

theorem dedupAux_seen (l : List SkillDir) :
    ∀ seen : List String, ∀ p, p ∈ (dedupAux seen l).2 ↔
      (p ∈ seen ∨ p ∈ (dedupAux seen l).1.map SkillDir.Path) := by
  induction l with
  | nil => intro seen p; simp [dedupAux]
  | cons x t ih =>
    intro seen p
    by_cases hx : x.Path ∈ seen
    · simp only [dedupAux, if_pos hx]
      exact ih seen p
    · simp only [dedupAux, if_neg hx, List.map_cons, List.mem_cons]
      rw [ih (x.Path :: seen) p]
      simp only [List.mem_cons]
      tauto

theorem dedupAux_nodup (l : List SkillDir) :
    ∀ seen : List String, ((dedupAux seen l).1.map SkillDir.Path).Nodup ∧
      ∀ x ∈ (dedupAux seen l).1, x.Path ∉ seen := by
  induction l with
  | nil => intro seen; simp [dedupAux]
  | cons x t ih =>
    intro seen
    by_cases hx : x.Path ∈ seen
    · simp only [dedupAux, if_pos hx]
      exact ih seen
    · simp only [dedupAux, if_neg hx, List.map_cons, List.nodup_cons, List.mem_cons]
      obtain ⟨h1, h2⟩ := ih (x.Path :: seen)
      refine ⟨⟨?_, h1⟩, ?_⟩
      · intro hmem
        obtain ⟨y, hy, hyp⟩ := List.mem_map.mp hmem
        exact h2 y hy (by simp [hyp])
      · intro y hy
        rcases hy with rfl | hy
        · exact hx
        · intro hys
          exact h2 y hy (by simp [hys])

theorem dedupAux_of_nodup (l : List SkillDir) :
    ∀ seen : List String, (l.map SkillDir.Path).Nodup → (∀ x ∈ l, x.Path ∉ seen) →
      (dedupAux seen l).1 = l := by
  induction l with
  | nil => intro seen _ _; rfl
  | cons x t ih =>
    intro seen hnd hdis
    have hx : x.Path ∉ seen := hdis x (by simp)
    simp only [List.map_cons, List.nodup_cons] at hnd
    simp only [dedupAux, if_neg hx]
    rw [ih (x.Path :: seen) hnd.2]
    intro y hy
    simp only [List.mem_cons, not_or]
    refine ⟨?_, hdis y (by simp [hy])⟩
    intro hyx
    exact hnd.1 (by rw [← hyx]; exact List.mem_map_of_mem SkillDir.Path hy)

mutual
theorem walkDir_tops (join : String → String → String) (base : String → String)
    (rel : List String) (path : String) :
    ∀ (e : Entry) (st : WalkState), allReadable e = true →
      walkDir join base true rel path e st =
        ({ skills := st.skills ++ (dedupAux st.seen (tops join base path e)).1,
           seen := (dedupAux st.seen (tops join base path e)).2 }, .ok)
  | .file name, st, _ => by
    cases st
    simp [walkDir, walkFn, tops, dedupAux]
  | .dir name readable children, st, h => by
    rw [allReadable, Bool.and_eq_true] at h
    have hrec : ¬((true : Bool) = false ∧ relPath rel ≠ "." ∧ containsSep (relPath rel) = true) := by
      rintro ⟨h0, _⟩; cases h0
    by_cases hp : detectPlatform children ≠ ""
    · by_cases hs : path ∈ st.seen
      · have hfn : walkFn base true rel path (some (.dir name readable children)) false st =
            (st, .SkipDir) := by
          simp only [walkFn, Bool.false_eq_true, if_false]
          rw [if_neg hrec, if_pos hp, if_pos hs]
        have hnew : (newSkill base path (detectPlatform children)).Path ∈ st.seen := hs
        rw [walkDir, hfn, tops, if_pos hp]
        simp only [if_true, dedupAux, if_pos hnew, List.append_nil]
      · have hfn : walkFn base true rel path (some (.dir name readable children)) false st =
            ({ skills := st.skills ++ [newSkill base path (detectPlatform children)],
               seen := path :: st.seen }, .SkipDir) := by
          simp only [walkFn, Bool.false_eq_true, if_false]
          rw [if_neg hrec, if_pos hp, if_neg hs]
        have hnew : (newSkill base path (detectPlatform children)).Path ∉ st.seen := hs
        rw [walkDir, hfn, tops, if_pos hp]
        simp only [if_true, dedupAux, if_neg hnew]
        rfl
    · have hfn : walkFn base true rel path (some (.dir name readable children)) false st =
          (st, .ok) := by
        simp only [walkFn, Bool.false_eq_true, if_false]
        rw [if_neg hrec, if_neg hp]
      have ih := walkList_tops join base rel path children st h.2
      rw [walkDir, hfn, tops, if_neg hp]
      simp only [h.1, if_true]
      rw [if_neg (by decide)]
      exact ih
theorem walkList_tops (join : String → String → String) (base : String → String)
    (rel : List String) (path : String) :
    ∀ (es : List Entry) (st : WalkState), allReadableList es = true →
      walkList join base true rel path es st =
        ({ skills := st.skills ++ (dedupAux st.seen (topsList join base path es)).1,
           seen := (dedupAux st.seen (topsList join base path es)).2 }, .ok)
  | [], st, _ => by
    cases st
    simp [walkList, topsList, dedupAux]
  | e :: es, st, h => by
    rw [allReadableList, Bool.and_eq_true] at h
    have h1 := walkDir_tops join base (rel ++ [e.name]) (join path e.name) e st h.1
    have h2 := walkList_tops join base rel path es
      { skills := st.skills ++ (dedupAux st.seen (tops join base (join path e.name) e)).1,
        seen := (dedupAux st.seen (tops join base (join path e.name) e)).2 } h.2
    rw [walkList, h1]
    simp only
    rw [if_neg (by decide), h2, topsList, dedupAux_append, List.append_assoc]
end

/-- C16: on a tree all of whose directories can be read, the recursive scan
returns, in walk order, the classified directories that have no classified
proper ancestor (`topLevelSkills`), keeping the first entity of every path; the
returned paths are pairwise distinct; when the paths of those directories are
pairwise distinct, as they are on a file system, the result is exactly that
list, each directory once. Nothing inside a classified directory is returned,
and the returned error is nil. -/
theorem C16_recursive_top_level (join : String → String → String) (base : String → String)
    (root : String) (tree : Entry) (hacc : allReadable tree = true) :
    (DiscoverSkills join base root true (some tree)).1 =
      dedupByPath (topLevelSkills join base root tree) ∧
    ((DiscoverSkills join base root true (some tree)).1.map SkillDir.Path).Nodup ∧
    (((topLevelSkills join base root tree).map SkillDir.Path).Nodup →
      (DiscoverSkills join base root true (some tree)).1 = topLevelSkills join base root tree) ∧
    (DiscoverSkills join base root true (some tree)).2 = none := by
  have htop : topLevelSkills join base root tree = tops join base root tree :=
    dirInfos_tops join base root tree
  have hwalk := walkDir_tops join base [] root tree { skills := [], seen := [] } hacc
  have hres : (DiscoverSkills join base root true (some tree)).1 =
      dedupByPath (topLevelSkills join base root tree) := by
    simp only [DiscoverSkills, hwalk, htop, dedupByPath, List.nil_append]
  refine ⟨hres, ?_, ?_, rfl⟩
  · rw [hres]
    exact (dedupAux_nodup _ []).1
  · intro hnd
    rw [hres]
    exact dedupAux_of_nodup _ [] hnd (by simp)

/-- C16 on the tree of the repository's test: the recursive scan returns the
four skills, `category/nested-skill` included, with pairwise distinct paths. -/
theorem C16_recursive_top_level_witness :
    (allReadable testTree = true ∧
      ((topLevelSkills plainLib.filepathJoin filepathBase "/tmp" testTree).map
        SkillDir.Path).Nodup) ∧
    (DiscoverSkills plainLib.filepathJoin filepathBase "/tmp" true (some testTree)).1 =
      topLevelSkills plainLib.filepathJoin filepathBase "/tmp" testTree ∧
    (topLevelSkills plainLib.filepathJoin filepathBase "/tmp" testTree).map SkillDir.Path =
      ["/tmp/category/nested-skill", "/tmp/claude-skill", "/tmp/gemini-skill",
       "/tmp/univ-skill"] ∧
    (topLevelSkills plainLib.filepathJoin filepathBase "/tmp" testTree).length = 4 :=
  ⟨⟨by decide, by decide⟩,
   (C16_recursive_top_level plainLib.filepathJoin filepathBase "/tmp" testTree
      (by decide)).2.2.1 (by decide),
   by decide, by decide⟩

/-! ## Theorems: the executor and the job protocol -/

/-- C22: `ExecuteCommand` returns a non-nil error exactly when running the
process failed; then the error text is `command failed: <cause>`, followed by
`Stderr:` and the captured standard error, and the captured standard output is
returned with it; when the run succeeded it returns the captured standard output
and a nil error. -/
theorem C22_execute_command (r : ProcResult) :
    ((ExecuteCommand r).2 ≠ none ↔ r.err ≠ none) ∧
    (ExecuteCommand r).1 = r.stdout ∧
    (∀ cause, r.err = some cause →
      ExecuteCommand r =
        (r.stdout, some ("command failed: " ++ cause ++ "\nStderr: " ++ r.stderr))) ∧
    (r.err = none → ExecuteCommand r = (r.stdout, none)) := by
  unfold ExecuteCommand
  cases h : r.err with
  | none => simp
  | some e => simp

/-- C22 on a process that exits non-zero and on one that succeeds. -/
theorem C22_execute_command_witness :
    ((procFails []).err = some "exit status 1" ∧ (procSucceeds []).err = none) ∧
    ExecuteCommand (procFails []) =
      ("", some ("command failed: " ++ "exit status 1" ++ "\nStderr: " ++ "boom")) ∧
    ExecuteCommand (procSucceeds []) = ("converted", none) :=
  ⟨⟨rfl, rfl⟩, (C22_execute_command (procFails [])).2.2.1 "exit status 1" rfl,
   (C22_execute_command (procSucceeds [])).2.2.2 rfl⟩

theorem BuildConvertCommandWith_ok_form (lower : String → String) (path outputDir : String)
    (target : ConversionTarget) (args : List String)
    (h : BuildConvertCommandWith lower path target outputDir = .ok args) :
    args = ["convert", path, "--to", lower target] ++
      if outputDir = "" then [] else ["--output", outputDir] := by
  unfold BuildConvertCommandWith at h
  by_cases hp : path = ""
  · rw [if_pos hp] at h; cases h
  · rw [if_neg hp] at h
    simp only at h
    by_cases ht : lower target = "gemini" ∨ lower target = "claude"
    · rw [if_pos ht] at h
      by_cases ho : outputDir = ""
      · rw [if_neg (not_not.mpr ho)] at h
        simp only [Except.ok.injEq] at h
        rw [← h, if_pos ho]; rfl
      · rw [if_pos ho] at h
        simp only [Except.ok.injEq] at h
        rw [← h, if_neg ho]
    · rw [if_neg ht] at h
      split_ifs at h

/-- C26: the job yields one completion event and it carries the path of the
snapshot, whatever `strings.ToLower` (`lower`), `filepath.Join` (`join`) and
the operating system (`run`) do. The output directory handed to the builder is
the output base joined with the entity's name when the base is non-empty and
the empty string otherwise, in which case the built arguments are just
`convert <path> --to <target>`. When the build fails, the event is
`ConversionFailed` with the builder's error whatever the operating system would
do (no process is run). Otherwise the closure runs `skill-porter` with the
built arguments and nothing else: the event is `ConversionSucceeded` with the
captured standard output when that run succeeds and `ConversionFailed` with the
executor's error when it fails. -/
theorem C26_job_protocol (lower : String → String) (join : String → String → String)
    (s : SkillDir) (cfg : AppConfig) (override : ConversionTarget) :
    (cfg.OutBaseDir ≠ "" → convertSkillCmd_outDir join s cfg = join cfg.OutBaseDir s.Name) ∧
    (cfg.OutBaseDir = "" → convertSkillCmd_outDir join s cfg = "") ∧
    (∀ err, BuildConvertCommandWith lower s.Path (convertSkillCmd_target s cfg override)
        (convertSkillCmd_outDir join s cfg) = .error err →
      ∀ run, convertSkillCmd_closureWith lower join s cfg override run =
        .ConversionErrorMsg s.Path err) ∧
    (∀ args, BuildConvertCommandWith lower s.Path (convertSkillCmd_target s cfg override)
        (convertSkillCmd_outDir join s cfg) = .ok args →
      (cfg.OutBaseDir = "" →
        args = ["convert", s.Path, "--to", lower (convertSkillCmd_target s cfg override)]) ∧
      ∀ run,
        ((run "skill-porter" args).err = none →
          convertSkillCmd_closureWith lower join s cfg override run =
            .SkillConvertedMsg s.Path (run "skill-porter" args).stdout) ∧
        (∀ cause, (run "skill-porter" args).err = some cause →
          convertSkillCmd_closureWith lower join s cfg override run =
            .ConversionErrorMsg s.Path
              ("command failed: " ++ cause ++ "\nStderr: " ++ (run "skill-porter" args).stderr))) ∧
    (∀ run, ∃ x,
      convertSkillCmd_closureWith lower join s cfg override run = .ConversionErrorMsg s.Path x ∨
      convertSkillCmd_closureWith lower join s cfg override run = .SkillConvertedMsg s.Path x) := by
  have hout1 : cfg.OutBaseDir ≠ "" →
      convertSkillCmd_outDir join s cfg = join cfg.OutBaseDir s.Name := by
    intro h; simp [convertSkillCmd_outDir, h]
  have hout2 : cfg.OutBaseDir = "" → convertSkillCmd_outDir join s cfg = "" := by
    intro h; simp [convertSkillCmd_outDir, h]
  refine ⟨hout1, hout2, ?_, ?_, ?_⟩
  · intro err hb run
    simp only [convertSkillCmd_closureWith, convertSkillCmd_runWith, hb]
  · intro args hb
    refine ⟨?_, ?_⟩
    · intro hbase
      have hf := BuildConvertCommandWith_ok_form lower _ _ _ args hb
      rw [hout2 hbase] at hf
      simpa using hf
    · intro run
      refine ⟨?_, ?_⟩
      · intro hnone
        simp only [convertSkillCmd_closureWith, convertSkillCmd_runWith, hb, ExecuteCommand,
          hnone]
      · intro cause hsome
        simp only [convertSkillCmd_closureWith, convertSkillCmd_runWith, hb, ExecuteCommand,
          hsome]
  · intro run
    simp only [convertSkillCmd_closureWith, convertSkillCmd_runWith]
    cases hb : BuildConvertCommandWith lower s.Path (convertSkillCmd_target s cfg override)
        (convertSkillCmd_outDir join s cfg) with
    | error err => exact ⟨err, Or.inl rfl⟩
    | ok args =>
      simp only [ExecuteCommand]
      cases (run "skill-porter" args).err with
      | none => exact ⟨_, Or.inr rfl⟩
      | some e => exact ⟨_, Or.inl rfl⟩

/-- C26 on a discovered `Claude` skill with no output base: the job runs
`skill-porter convert /skills/s1 --to gemini` and reports its output; and on a
skill whose own target is `GEMINI` spelled with U+0130 for both letters `I`,
with a lower-casing that maps U+0130 to `i`: the job runs
`skill-porter convert /skills/s1 --to gemini` as well. -/
theorem C26_job_protocol_witness :
    (loadedConfig.OutBaseDir = "" ∧
      BuildConvertCommandWith toLower (pendingSkill "s1" "/skills/s1" "Claude").Path
        (convertSkillCmd_target (pendingSkill "s1" "/skills/s1" "Claude") loadedConfig TargetAuto)
        (convertSkillCmd_outDir plainLib.filepathJoin (pendingSkill "s1" "/skills/s1" "Claude")
          loadedConfig) = .ok ["convert", "/skills/s1", "--to", "gemini"] ∧
      BuildConvertCommandWith toLowerDotted
        ({ pendingSkill "s1" "/skills/s1" "Claude" with Target := dottedGemini }).Path
        (convertSkillCmd_target { pendingSkill "s1" "/skills/s1" "Claude" with Target := dottedGemini }
          loadedConfig TargetAuto)
        (convertSkillCmd_outDir plainLib.filepathJoin
          { pendingSkill "s1" "/skills/s1" "Claude" with Target := dottedGemini } loadedConfig) =
        .ok ["convert", "/skills/s1", "--to", "gemini"] ∧
      (echoTarget "skill-porter" ["convert", "/skills/s1", "--to", "gemini"]).err = none) ∧
    convertSkillCmd_closureWith toLower plainLib.filepathJoin
        (pendingSkill "s1" "/skills/s1" "Claude") loadedConfig TargetAuto echoTarget =
      .SkillConvertedMsg "/skills/s1" "converted to gemini" ∧
    convertSkillCmd_closureWith toLowerDotted plainLib.filepathJoin
        { pendingSkill "s1" "/skills/s1" "Claude" with Target := dottedGemini }
        loadedConfig TargetAuto echoTarget =
      .SkillConvertedMsg "/skills/s1" "converted to gemini" :=
  ⟨⟨rfl, rfl, rfl, rfl⟩,
   (((C26_job_protocol toLower plainLib.filepathJoin (pendingSkill "s1" "/skills/s1" "Claude")
      loadedConfig TargetAuto).2.2.2.1 ["convert", "/skills/s1", "--to", "gemini"]
      rfl).2 echoTarget).1 rfl,
   (((C26_job_protocol toLowerDotted plainLib.filepathJoin
      { pendingSkill "s1" "/skills/s1" "Claude" with Target := dottedGemini }
      loadedConfig TargetAuto).2.2.2.1 ["convert", "/skills/s1", "--to", "gemini"]
      rfl).2 echoTarget).1 rfl⟩

/-! ## Theorems: the configuration screen -/

/-- C27 fails on the code. From program start, two `tab` presses put the focus
on the Recursive toggle (three on the Target field). Pressing Space there leaves
the configuration as it was, whatever the text inputs do with the key: the
recursive flag stays `true` and the default target stays `Auto`. Pressing Enter
at the same places flips the flag to `false` and advances the target to
`Gemini`. -/
theorem C27_space_does_not_toggle (lib : Lib) :
    (runMsgs lib (NewModel loadedConfig) [.KeyMsg "tab", .KeyMsg "tab"]).map
        (fun m => (m.State, m.FocusIndex, m.Config)) =
      some (.StateConfig, toggleRecursive, loadedConfig) ∧
    (runMsgs lib (NewModel loadedConfig) [.KeyMsg "tab", .KeyMsg "tab", .KeyMsg " "]).map
        (fun m => (m.State, m.FocusIndex, m.Config)) =
      some (.StateConfig, toggleRecursive, loadedConfig) ∧
    (runMsgs lib (NewModel loadedConfig) [.KeyMsg "tab", .KeyMsg "tab", .KeyMsg "enter"]).map
        (fun m => (m.State, m.FocusIndex, m.Config)) =
      some (.StateConfig, toggleRecursive, { loadedConfig with RecursiveMode := false }) ∧
    (runMsgs lib (NewModel loadedConfig)
        [.KeyMsg "tab", .KeyMsg "tab", .KeyMsg "tab", .KeyMsg " "]).map
        (fun m => (m.State, m.FocusIndex, m.Config)) =
      some (.StateConfig, toggleTarget, loadedConfig) ∧
    (runMsgs lib (NewModel loadedConfig)
        [.KeyMsg "tab", .KeyMsg "tab", .KeyMsg "tab", .KeyMsg "enter"]).map
        (fun m => (m.State, m.FocusIndex, m.Config)) =
      some (.StateConfig, toggleTarget, { loadedConfig with DefaultTarget := TargetGemini }) :=
  ⟨rfl, rfl, rfl, rfl, rfl⟩

theorem Update_config_event (lib : Lib) (m : Model) (msg : Msg)
    (hC : m.State = .StateConfig)
    (hmsg : (∃ L, msg = .SkillsDiscoveredMsg L) ∨ (∃ p o, msg = .SkillConvertedMsg p o) ∨
      (∃ p e, msg = .ConversionErrorMsg p e)) :
    Update lib m msg =
      some ({ m with Inputs := (m.Inputs.map (fun t => lib.inputUpdate t msg)).map Prod.fst },
        .Batch ((m.Inputs.map (fun t => lib.inputUpdate t msg)).map Prod.snd)) := by
  rcases hmsg with ⟨L, rfl⟩ | ⟨p, o, rfl⟩ | ⟨p, e, rfl⟩ <;>
    simp [Update, hC, updateConfig]

/-- C28: while the controller is in the configuration state, a
`DiscoveryCompleted`, `ConversionSucceeded` or `ConversionFailed` event only
reaches the two text inputs: the entity list, the cursor, both counters, the
session state and the configuration are unchanged. -/
theorem C28_events_ignored_while_configuring (lib : Lib) (m : Model) (msg : Msg)
    (hC : m.State = .StateConfig)
    (hmsg : (∃ L, msg = .SkillsDiscoveredMsg L) ∨ (∃ p o, msg = .SkillConvertedMsg p o) ∨
      (∃ p e, msg = .ConversionErrorMsg p e)) :
    ∃ m1 c, Update lib m msg = some (m1, c) ∧
      m1.Skills = m.Skills ∧ m1.Cursor = m.Cursor ∧ m1.SuccessCount = m.SuccessCount ∧
      m1.FailCount = m.FailCount ∧ m1.State = .StateConfig ∧ m1.Config = m.Config :=
  ⟨_, _, Update_config_event lib m msg hC hmsg, rfl, rfl, rfl, rfl, hC, rfl⟩

/-- C28 on a job that completes after the user went back to the configuration
screen: the entity was set to `Running` by the dispatch, `esc` leads back to the
configuration state, and the success event of the job then leaves the entity
`Running` and the success counter at 0. -/
theorem C28_events_ignored_while_configuring_witness :
    (runMsgs plainLib (browsingOne testSkill) [.KeyMsg "c", .KeyMsg "esc"] =
        some { browsingOne { testSkill with Status := StatusRunning } with
               State := .StateConfig } ∧
      ({ browsingOne { testSkill with Status := StatusRunning } with
         State := .StateConfig } : Model).State = .StateConfig) ∧
    ∃ m1 c,
      Update plainLib
          { browsingOne { testSkill with Status := StatusRunning } with State := .StateConfig }
          (.SkillConvertedMsg "/tmp/s1" "done") = some (m1, c) ∧
      m1.Skills = [{ testSkill with Status := StatusRunning }] ∧ m1.Cursor = 0 ∧
      m1.SuccessCount = 0 ∧ m1.FailCount = 0 ∧ m1.State = .StateConfig ∧
      m1.Config = testConfig :=
  ⟨⟨by decide, rfl⟩,
   C28_events_ignored_while_configuring plainLib
     { browsingOne { testSkill with Status := StatusRunning } with State := .StateConfig }
     (.SkillConvertedMsg "/tmp/s1" "done") rfl (Or.inr (Or.inl ⟨_, _, rfl⟩))⟩

/-! ## Theorems: what a job reads when it runs -/

/-- C25 fails on the code for the configuration. In `dispatchTrace` a job for
the `Gemini` skill `/skills/s1` is dispatched while the default target is
`Auto`; with the values of that moment it would run `--to claude`. The user
then changes the default target to `Gemini` (`retargetKeys`); the same job, with
the same snapshot, is still in flight, and because the closure reads the shared
configuration when it runs, it now runs `--to gemini` and emits a different
event. The difference reaches the entity list: resubmitting without the change
and letting the job complete stores the output of `--to claude`, with the
change the output of `--to gemini`. -/
theorem C25_job_reads_shared_config :
    (Sys.run plainLib (Sys.init loadedConfig) dispatchTrace).map
        (fun s => (s.inflight, s.model.Config.DefaultTarget)) =
      some ([.convertSkillCmd
              { pendingSkill "s1" "/skills/s1" "Gemini" with Status := StatusRunning } TargetAuto],
            TargetAuto) ∧
    (Sys.run plainLib (Sys.init loadedConfig) (dispatchTrace ++ retargetKeys)).map
        (fun s => (s.inflight, s.model.Config.DefaultTarget)) =
      some ([.convertSkillCmd
              { pendingSkill "s1" "/skills/s1" "Gemini" with Status := StatusRunning } TargetAuto],
            TargetGemini) ∧
    convertSkillCmd_closure plainLib.filepathJoin
        { pendingSkill "s1" "/skills/s1" "Gemini" with Status := StatusRunning }
        loadedConfig TargetAuto echoTarget =
      .SkillConvertedMsg "/skills/s1" "converted to claude" ∧
    convertSkillCmd_closure plainLib.filepathJoin
        { pendingSkill "s1" "/skills/s1" "Gemini" with Status := StatusRunning }
        { loadedConfig with DefaultTarget := TargetGemini } TargetAuto echoTarget =
      .SkillConvertedMsg "/skills/s1" "converted to gemini" ∧
    (Sys.run plainLib (Sys.init loadedConfig)
        (dispatchTrace ++ [.key "esc", .key "enter",
          .converted 0 (echoTarget "skill-porter")])).map Sys.observe =
      some ([{ pendingSkill "s1" "/skills/s1" "Gemini" with
                Status := StatusSuccess, OutputPath := "converted to claude" }], 1, 0) ∧
    (Sys.run plainLib (Sys.init loadedConfig)
        (dispatchTrace ++ retargetKeys ++ [.key "tab", .key "enter",
          .converted 0 (echoTarget "skill-porter")])).map Sys.observe =
      some ([{ pendingSkill "s1" "/skills/s1" "Gemini" with
                Status := StatusSuccess, OutputPath := "converted to gemini" }], 1, 0) := by
  decide

/-! ## Theorems: loading the configuration -/

theorem LoadWith_ok_inv (lower : String → String) (env : LoadEnv) (args : List String)
    (cl : CmdLine) (cfg : AppConfig)
    (hparse : env.parse args = .ok cl) (h : LoadWith lower env args = .ok cfg) :
    (lower (cl.target.getD TargetAuto) = "gemini" ∨
      lower (cl.target.getD TargetAuto) = "claude" ∨
      lower (cl.target.getD TargetAuto) = "auto") ∧
    env.stat (Load_chosenRoot env cl) = some true ∧
    (∃ out, Load_outDir env (Load_chosenOut env cl) = .ok out ∧ cfg.OutBaseDir = out) ∧
    cfg.ScanRoot = (env.abs (Load_chosenRoot env cl)).getD (Load_chosenRoot env cl) ∧
    cfg.DefaultTarget =
      (if lower (cl.target.getD TargetAuto) = "gemini" then TargetGemini
       else if lower (cl.target.getD TargetAuto) = "claude" then TargetClaude
       else TargetAuto) := by
  unfold LoadWith at h
  rw [hparse] at h
  simp only at h
  by_cases ht : lower (cl.target.getD TargetAuto) = "gemini" ∨
      lower (cl.target.getD TargetAuto) = "claude" ∨
      lower (cl.target.getD TargetAuto) = "auto"
  · rw [if_pos ht] at h
    by_cases hs : env.stat (Load_chosenRoot env cl) = some true
    · rw [if_pos hs] at h
      cases ho : Load_outDir env (Load_chosenOut env cl) with
      | error e => rw [ho] at h; cases h
      | ok out =>
        rw [ho] at h
        simp only [Except.ok.injEq] at h
        rw [← h]
        exact ⟨ht, hs, ⟨out, rfl, rfl⟩, rfl, rfl⟩
    · rw [if_neg hs] at h; cases h
  · rw [if_neg ht] at h; cases h

theorem LoadWith_ok_of (lower : String → String) (env : LoadEnv) (args : List String)
    (cl : CmdLine) (out : String)
    (hparse : env.parse args = .ok cl)
    (ht : lower (cl.target.getD TargetAuto) = "gemini" ∨
      lower (cl.target.getD TargetAuto) = "claude" ∨
      lower (cl.target.getD TargetAuto) = "auto")
    (hs : env.stat (Load_chosenRoot env cl) = some true)
    (ho : Load_outDir env (Load_chosenOut env cl) = .ok out) :
    LoadWith lower env args =
      .ok { ScanRoot := (env.abs (Load_chosenRoot env cl)).getD (Load_chosenRoot env cl)
            RecursiveMode := cl.recursive.getD true
            DefaultTarget :=
              (if lower (cl.target.getD TargetAuto) = "gemini" then TargetGemini
               else if lower (cl.target.getD TargetAuto) = "claude" then TargetClaude
               else TargetAuto)
            OutBaseDir := out
            AutoConvertMode := cl.auto.getD false
            Debug := cl.debug.getD false } := by
  unfold LoadWith
  rw [hparse]
  simp only
  rw [if_pos ht, if_pos hs, ho]

theorem Load_ok_inv (env : LoadEnv) (args : List String) (cl : CmdLine) (cfg : AppConfig)
    (hparse : env.parse args = .ok cl) (h : Load env args = .ok cfg) :
    (toLower (cl.target.getD TargetAuto) = "gemini" ∨
      toLower (cl.target.getD TargetAuto) = "claude" ∨
      toLower (cl.target.getD TargetAuto) = "auto") ∧
    env.stat (Load_chosenRoot env cl) = some true ∧
    (∃ out, Load_outDir env (Load_chosenOut env cl) = .ok out ∧ cfg.OutBaseDir = out) ∧
    cfg.ScanRoot = (env.abs (Load_chosenRoot env cl)).getD (Load_chosenRoot env cl) ∧
    cfg.DefaultTarget =
      (if toLower (cl.target.getD TargetAuto) = "gemini" then TargetGemini
       else if toLower (cl.target.getD TargetAuto) = "claude" then TargetClaude
       else TargetAuto) :=
  LoadWith_ok_inv toLower env args cl cfg hparse h

theorem Load_ok_of (env : LoadEnv) (args : List String) (cl : CmdLine) (out : String)
    (hparse : env.parse args = .ok cl)
    (ht : toLower (cl.target.getD TargetAuto) = "gemini" ∨
      toLower (cl.target.getD TargetAuto) = "claude" ∨
      toLower (cl.target.getD TargetAuto) = "auto")
    (hs : env.stat (Load_chosenRoot env cl) = some true)
    (ho : Load_outDir env (Load_chosenOut env cl) = .ok out) :
    Load env args =
      .ok { ScanRoot := (env.abs (Load_chosenRoot env cl)).getD (Load_chosenRoot env cl)
            RecursiveMode := cl.recursive.getD true
            DefaultTarget :=
              (if toLower (cl.target.getD TargetAuto) = "gemini" then TargetGemini
               else if toLower (cl.target.getD TargetAuto) = "claude" then TargetClaude
               else TargetAuto)
            OutBaseDir := out
            AutoConvertMode := cl.auto.getD false
            Debug := cl.debug.getD false } :=
  LoadWith_ok_of toLower env args cl out hparse ht hs ho

/-- C23 as stated fails when another flag does not parse: on the command line
`-target bogus -nosuchflag` the lower-cased `-target` value `bogus` is none of
`gemini`, `claude`, `auto`, yet `Load` fails with the error of the flag package,
not with `invalid target`. -/
theorem C23_counterexample :
    (toLower "bogus" ≠ "gemini" ∧ toLower "bogus" ≠ "claude" ∧ toLower "bogus" ≠ "auto") ∧
    undefinedFlagEnv.parse ["-target", "bogus", "-nosuchflag"] =
      .error "flag provided but not defined: -nosuchflag" ∧
    Load undefinedFlagEnv ["-target", "bogus", "-nosuchflag"] =
      .error "flag provided but not defined: -nosuchflag" ∧
    Load undefinedFlagEnv ["-target", "bogus", "-nosuchflag"] ≠
      .error ("invalid target: " ++ "bogus") := by
  refine ⟨by decide, rfl, rfl, ?_⟩
  intro h
  have h2 : (Except.error "flag provided but not defined: -nosuchflag" :
      Except String AppConfig) = .error ("invalid target: " ++ "bogus") := h
  simp only [Except.error.injEq] at h2
  exact absurd h2 (by decide)

/-- C23, amended: when the command line parses, a `-target` value whose
lower-cased form (as `strings.ToLower`, here `lower`, returns it) is none of
`gemini`, `claude`, `auto` makes `Load` fail with `invalid target`, whatever the
other flags, the environment and the file system are. Whenever `Load` returns a
configuration, its `DefaultTarget` is `Gemini`, `Claude` or `Auto` according to
the lower-cased `-target` value, so irrespective of letter case, and it is
`Auto` when no `-target` flag is given (the lower case of `Auto` being `auto`).
With an accepted value, a scan root that is a directory and an output base that
passes its checks, `Load` does return a configuration. -/
theorem C23_target_validation (lower : String → String) (env : LoadEnv) (args : List String)
    (cl : CmdLine) (hparse : env.parse args = .ok cl) :
    (∀ v, cl.target = some v → lower v ≠ "gemini" → lower v ≠ "claude" →
      lower v ≠ "auto" → LoadWith lower env args = .error ("invalid target: " ++ v)) ∧
    (∀ cfg, LoadWith lower env args = .ok cfg →
      (lower (cl.target.getD TargetAuto) = "gemini" ∧ cfg.DefaultTarget = TargetGemini) ∨
      (lower (cl.target.getD TargetAuto) = "claude" ∧ cfg.DefaultTarget = TargetClaude) ∨
      (lower (cl.target.getD TargetAuto) = "auto" ∧ cfg.DefaultTarget = TargetAuto)) ∧
    (cl.target = none → lower TargetAuto = "auto" →
      ∀ cfg, LoadWith lower env args = .ok cfg → cfg.DefaultTarget = TargetAuto) ∧
    ((lower (cl.target.getD TargetAuto) = "gemini" ∨
        lower (cl.target.getD TargetAuto) = "claude" ∨
        lower (cl.target.getD TargetAuto) = "auto") →
      env.stat (Load_chosenRoot env cl) = some true →
      ∀ out, Load_outDir env (Load_chosenOut env cl) = .ok out →
        ∃ cfg, LoadWith lower env args = .ok cfg) := by
  have hgc : ("gemini" : String) ≠ "claude" := by decide
  have hga : ("gemini" : String) ≠ "auto" := by decide
  have hca : ("claude" : String) ≠ "auto" := by decide
  refine ⟨?_, ?_, ?_, ?_⟩
  · intro v hv h1 h2 h3
    unfold LoadWith
    rw [hparse]
    simp only [hv, Option.getD_some]
    rw [if_neg (by simp [h1, h2, h3])]
  · intro cfg h
    obtain ⟨ht, _, _, _, hd⟩ := LoadWith_ok_inv lower env args cl cfg hparse h
    rcases ht with h1 | h1 | h1
    · left; exact ⟨h1, by rw [hd, if_pos h1]⟩
    · right; left
      refine ⟨h1, ?_⟩
      rw [hd, if_neg (by rw [h1]; exact hgc.symm), if_pos h1]
    · right; right
      refine ⟨h1, ?_⟩
      rw [hd, if_neg (by rw [h1]; exact hga.symm), if_neg (by rw [h1]; exact hca.symm)]
  · intro hnone hauto cfg h
    obtain ⟨_, _, _, _, hd⟩ := LoadWith_ok_inv lower env args cl cfg hparse h
    have hl : lower (cl.target.getD TargetAuto) = "auto" := by
      rw [hnone]; exact hauto
    rw [hd, if_neg (by rw [hl]; exact hga.symm), if_neg (by rw [hl]; exact hca.symm)]
  · intro ht hs out ho
    exact ⟨_, LoadWith_ok_of lower env args cl out hparse ht hs ho⟩

/-- C23, amended, on the demo machine: `-target invalidTarget` (the value of
the repository's test) is rejected, `-target GEMINI` gives `Gemini`, and so
does, with a lower-casing that maps U+0130 to `i` as `strings.ToLower` does,
`GEMINI` spelled with U+0130 for both letters `I`. -/
theorem C23_target_validation_witness :
    ((demoEnv { noFlags with target := some "invalidTarget" } "").parse [] =
        .ok { noFlags with target := some "invalidTarget" } ∧
      toLower "invalidTarget" ≠ "gemini" ∧ toLower "invalidTarget" ≠ "claude" ∧
      toLower "invalidTarget" ≠ "auto") ∧
    LoadWith toLower (demoEnv { noFlags with target := some "invalidTarget" } "") [] =
      .error ("invalid target: " ++ "invalidTarget") ∧
    LoadWith toLower (demoEnv { noFlags with target := some "GEMINI" } "") [] =
      .ok { ScanRoot := "/work", RecursiveMode := true, DefaultTarget := TargetGemini,
            OutBaseDir := "", AutoConvertMode := false, Debug := false } ∧
    LoadWith toLowerDotted (demoEnv { noFlags with target := some dottedGemini } "") [] =
      .ok { ScanRoot := "/work", RecursiveMode := true, DefaultTarget := TargetGemini,
            OutBaseDir := "", AutoConvertMode := false, Debug := false } :=
  ⟨⟨rfl, by decide, by decide, by decide⟩,
   (C23_target_validation toLower (demoEnv { noFlags with target := some "invalidTarget" } "") []
      { noFlags with target := some "invalidTarget" } rfl).1 "invalidTarget" rfl
      (by decide) (by decide) (by decide),
   rfl, rfl⟩

/-- C24 as stated fails: with `-root /non/existent -target bogus` the chosen
root `/non/existent` is not an existing directory, yet `Load` fails with
`invalid target`, not with `invalid scan root`. -/
theorem C24_counterexample :
    Load_chosenRoot (demoEnv { noFlags with root := some "/non/existent", target := some "bogus" } "")
        { noFlags with root := some "/non/existent", target := some "bogus" } = "/non/existent" ∧
    (demoEnv { noFlags with root := some "/non/existent", target := some "bogus" } "").stat
        "/non/existent" = none ∧
    Load (demoEnv { noFlags with root := some "/non/existent", target := some "bogus" } "") [] =
      .error "invalid target: bogus" ∧
    Load (demoEnv { noFlags with root := some "/non/existent", target := some "bogus" } "") [] ≠
      .error "invalid scan root: /non/existent" := by
  refine ⟨rfl, rfl, rfl, ?_⟩
  intro h
  have h2 : (Except.error "invalid target: bogus" : Except String AppConfig) =
      .error "invalid scan root: /non/existent" := h
  simp only [Except.error.injEq] at h2
  revert h2
  decide

/-- C24, amended: when the command line parses, the scan root `Load` chooses is
the `-root` flag when it is non-empty, otherwise `SKILL_PORTER_ROOT` when it is
non-empty, otherwise the working directory. When moreover the `-target` value
is accepted, `Load` fails with `invalid scan root` if the chosen root is not an
existing directory; and if it is one and the output base passes its checks,
`Load` returns the chosen root as `filepath.Abs` gives it (the chosen root
itself when `filepath.Abs` fails). Every configuration `Load` returns has such a
scan root. -/
theorem C24_scan_root (env : LoadEnv) (args : List String) (cl : CmdLine)
    (hparse : env.parse args = .ok cl) :
    (∀ r, cl.root = some r → r ≠ "" → Load_chosenRoot env cl = r) ∧
    ((cl.root = none ∨ cl.root = some "") → env.envRoot ≠ "" →
      Load_chosenRoot env cl = env.envRoot) ∧
    ((cl.root = none ∨ cl.root = some "") → env.envRoot = "" →
      Load_chosenRoot env cl = env.cwd) ∧
    ((toLower (cl.target.getD TargetAuto) = "gemini" ∨
        toLower (cl.target.getD TargetAuto) = "claude" ∨
        toLower (cl.target.getD TargetAuto) = "auto") →
      (env.stat (Load_chosenRoot env cl) ≠ some true →
        Load env args = .error ("invalid scan root: " ++ Load_chosenRoot env cl)) ∧
      (env.stat (Load_chosenRoot env cl) = some true →
        ∀ out, Load_outDir env (Load_chosenOut env cl) = .ok out →
          ∃ cfg, Load env args = .ok cfg ∧
            cfg.ScanRoot = (env.abs (Load_chosenRoot env cl)).getD (Load_chosenRoot env cl))) ∧
    (∀ cfg, Load env args = .ok cfg →
      env.stat (Load_chosenRoot env cl) = some true ∧
      cfg.ScanRoot = (env.abs (Load_chosenRoot env cl)).getD (Load_chosenRoot env cl)) := by
  refine ⟨?_, ?_, ?_, ?_, ?_⟩
  · intro r hr hne
    simp [Load_chosenRoot, hr, hne]
  · intro hr he
    rcases hr with hr | hr <;> simp [Load_chosenRoot, hr, he]
  · intro hr he
    rcases hr with hr | hr <;> simp [Load_chosenRoot, hr, he]
  · intro ht
    refine ⟨?_, ?_⟩
    · intro hs
      unfold Load LoadWith
      rw [hparse]
      simp only
      rw [if_pos ht, if_neg hs]
    · intro hs out ho
      exact ⟨_, Load_ok_of env args cl out hparse ht hs ho, rfl⟩
  · intro cfg h
    obtain ⟨_, hs, _, hroot, _⟩ := Load_ok_inv env args cl cfg hparse h
    exact ⟨hs, hroot⟩

/-- C24, amended, on the demo machine: the flag wins over the environment
variable, which wins over the working directory; a missing root is reported. -/
theorem C24_scan_root_witness :
    ((demoEnv { noFlags with root := some "." } "/tmp").parse [] =
        .ok { noFlags with root := some "." } ∧
      ("." : String) ≠ "" ∧
      (demoEnv { noFlags with root := some "/non/existent" } "").parse [] =
        .ok { noFlags with root := some "/non/existent" } ∧
      toLower (({ noFlags with root := some "/non/existent" } : CmdLine).target.getD TargetAuto) =
        "auto" ∧
      (demoEnv { noFlags with root := some "/non/existent" } "").stat
        (Load_chosenRoot (demoEnv { noFlags with root := some "/non/existent" } "")
          { noFlags with root := some "/non/existent" }) ≠ some true) ∧
    Load_chosenRoot (demoEnv { noFlags with root := some "." } "/tmp")
      { noFlags with root := some "." } = "." ∧
    Load (demoEnv { noFlags with root := some "/non/existent" } "") [] =
      .error ("invalid scan root: " ++
        Load_chosenRoot (demoEnv { noFlags with root := some "/non/existent" } "")
          { noFlags with root := some "/non/existent" }) ∧
    Load (demoEnv { noFlags with root := some "." } "/tmp") [] =
      .ok { ScanRoot := "/work", RecursiveMode := true, DefaultTarget := TargetAuto,
            OutBaseDir := "", AutoConvertMode := false, Debug := false } ∧
    Load (demoEnv noFlags "/tmp") [] =
      .ok { ScanRoot := "/tmp", RecursiveMode := true, DefaultTarget := TargetAuto,
            OutBaseDir := "", AutoConvertMode := false, Debug := false } ∧
    Load (demoEnv noFlags "") [] =
      .ok { ScanRoot := "/work", RecursiveMode := true, DefaultTarget := TargetAuto,
            OutBaseDir := "", AutoConvertMode := false, Debug := false } :=
  ⟨⟨rfl, by decide, rfl, by decide, by decide⟩,
   (C24_scan_root (demoEnv { noFlags with root := some "." } "/tmp") []
      { noFlags with root := some "." } rfl).1 "." rfl (by decide),
   ((C24_scan_root (demoEnv { noFlags with root := some "/non/existent" } "") []
      { noFlags with root := some "/non/existent" } rfl).2.2.2.1 (Or.inr (Or.inr (by decide)))).1
      (by decide),
   rfl, rfl, rfl⟩

/-! ## Theorems: the cursor -/

theorem updateConfig_total (lib : Lib) (m : Model) (msg : Msg) (h2 : 2 ≤ m.Inputs.length) :
    ∃ r, updateConfig lib m msg = some r := by
  obtain ⟨t0, t1, rest, hI⟩ : ∃ t0 t1 rest, m.Inputs = t0 :: t1 :: rest := by
    match hm : m.Inputs with
    | [] => simp [hm] at h2
    | [_] => simp [hm] at h2
    | t0 :: t1 :: rest => exact ⟨t0, t1, rest, rfl⟩
  unfold updateConfig
  cases msg with
  | KeyMsg s =>
    simp only [hI]
    split_ifs <;> simp [getAt, inputRoot, inputOutput]
  | _ => simp

theorem updateConfig_frame_all (lib : Lib) (m m1 : Model) (msg : Msg) (c : Cmd)
    (h : updateConfig lib m msg = some (m1, c)) :
    m1.Skills = m.Skills ∧ m1.Cursor = m.Cursor ∧ m1.Inputs.length = m.Inputs.length := by
  unfold updateConfig at h
  cases msg with
  | KeyMsg s =>
    simp only at h
    split_ifs at h
    all_goals first
      | (simp only [Option.some.injEq, Prod.mk.injEq] at h
         rw [← h.1]; exact ⟨rfl, rfl, by simp⟩)
      | (split at h
         · rename_i heq
           simp only [Option.some.injEq, Prod.mk.injEq] at h
           rw [← h.1]; exact ⟨rfl, rfl, by simp [heq]⟩
         · simp at h)
  | _ =>
    simp only [Option.some.injEq, Prod.mk.injEq] at h
    rw [← h.1]; exact ⟨rfl, rfl, by simp⟩

theorem markConverted_length (p o : String) (l : List SkillDir) :
    (markConverted p o l).1.length = l.length := by
  induction l with
  | nil => rfl
  | cons a t ih =>
    by_cases ha : a.Path = p
    · simp [markConverted, ha]
    · simp [markConverted, ha, ih]

theorem markFailed_length (p e : String) (l : List SkillDir) :
    (markFailed p e l).1.length = l.length := by
  induction l with
  | nil => rfl
  | cons a t ih =>
    by_cases ha : a.Path = p
    · simp [markFailed, ha]
    · simp [markFailed, ha, ih]

theorem convertAllPending_length (l : List SkillDir) :
    (convertAllPending l).1.length = l.length := by
  rw [convertAllPending_eq]
  simp

theorem CursorInv_of_eq (m m1 : Model) (hc : m1.Cursor = m.Cursor)
    (hl : m1.Skills.length = m.Skills.length) (h : CursorInv m) : CursorInv m1 := by
  unfold CursorInv at h ⊢
  rw [hc, hl]; exact h

theorem getAt_of_inv (m : Model) (h : CursorInv m) (hlen : m.Skills.length > 0) :
    ∃ skill, getAt m.Skills m.Cursor = some skill := by
  obtain ⟨h0, h1⟩ := h
  have hlt : m.Cursor < (m.Skills.length : Int) := by
    rcases h1 with h1 | h1
    · rw [h1]; exact_mod_cast hlen
    · exact h1
  have hn : m.Cursor.toNat < m.Skills.length := by omega
  refine ⟨m.Skills[m.Cursor.toNat], ?_⟩
  simp [getAt, h0, hn]

theorem forceConvert_step (m : Model) (ov : ConversionTarget) (h : CursorInv m) :
    ∃ m1 c, forceConvert m ov = some (m1, c) ∧ CursorInv m1 ∧ m1.Inputs = m.Inputs := by
  unfold forceConvert
  by_cases hlen : m.Skills.length > 0
  · obtain ⟨skill, hget⟩ := getAt_of_inv m h hlen
    rw [if_pos hlen, hget]
    exact ⟨_, _, rfl, CursorInv_of_eq m _ rfl (by simp) h, rfl⟩
  · rw [if_neg hlen]
    exact ⟨_, _, rfl, h, rfl⟩

theorem updateBrowsing_key_step (m : Model) (key : String) (h : CursorInv m) :
    ∃ m1 c, updateBrowsing m (.KeyMsg key) = some (m1, c) ∧ CursorInv m1 ∧
      m1.Inputs = m.Inputs := by
  unfold updateBrowsing
  simp only
  by_cases k1 : key = "q"
  · rw [if_pos k1]; exact ⟨_, _, rfl, h, rfl⟩
  rw [if_neg k1]
  by_cases k2 : key = "up" ∨ key = "k"
  · rw [if_pos k2]
    refine ⟨_, _, rfl, ?_, ?_⟩
    · by_cases hc : m.Cursor > 0
      · rw [if_pos hc]
        obtain ⟨h0, h1⟩ := h
        refine ⟨?_, ?_⟩
        · show 0 ≤ m.Cursor - 1
          omega
        · show m.Cursor - 1 = 0 ∨ m.Cursor - 1 < (m.Skills.length : Int)
          omega
      · rw [if_neg hc]; exact h
    · split_ifs <;> rfl
  rw [if_neg k2]
  by_cases k3 : key = "down" ∨ key = "j"
  · rw [if_pos k3]
    refine ⟨_, _, rfl, ?_, ?_⟩
    · by_cases hc : m.Cursor < (m.Skills.length : Int) - 1
      · rw [if_pos hc]
        obtain ⟨h0, h1⟩ := h
        refine ⟨?_, ?_⟩
        · show 0 ≤ m.Cursor + 1
          omega
        · show m.Cursor + 1 = 0 ∨ m.Cursor + 1 < (m.Skills.length : Int)
          omega
      · rw [if_neg hc]; exact h
    · split_ifs <;> rfl
  rw [if_neg k3]
  by_cases k4 : key = "c"
  · rw [if_pos k4]
    by_cases hlen : m.Skills.length > 0
    · obtain ⟨skill, hget⟩ := getAt_of_inv m h hlen
      rw [if_pos hlen, hget]
      simp only
      by_cases hst : skill.Status = StatusPending ∨ skill.Status = StatusFailed
      · rw [if_pos hst]
        exact ⟨_, _, rfl, CursorInv_of_eq m _ rfl (by simp) h, rfl⟩
      · rw [if_neg hst]
        exact ⟨_, _, rfl, h, rfl⟩
    · rw [if_neg hlen]
      exact ⟨_, _, rfl, h, rfl⟩
  rw [if_neg k4]
  by_cases k5 : key = "g"
  · rw [if_pos k5]; exact forceConvert_step m _ h
  rw [if_neg k5]
  by_cases k6 : key = "a"
  · rw [if_pos k6]; exact forceConvert_step m _ h
  rw [if_neg k6]
  by_cases k7 : key = "r"
  · rw [if_pos k7]
    exact ⟨_, _, rfl, ⟨le_refl 0, Or.inl rfl⟩, rfl⟩
  rw [if_neg k7]
  by_cases k8 : key = "A"
  · rw [if_pos k8]
    exact ⟨_, _, rfl, CursorInv_of_eq m _ rfl (convertAllPending_length m.Skills) h, rfl⟩
  rw [if_neg k8]
  by_cases k9 : key = "backspace" ∨ key = "delete"
  · rw [if_pos k9]; exact ⟨_, _, rfl, h, rfl⟩
  rw [if_neg k9]
  by_cases k10 : key = "esc"
  · rw [if_pos k10]; exact ⟨_, _, rfl, h, rfl⟩
  rw [if_neg k10]
  exact ⟨_, _, rfl, h, rfl⟩

theorem updateBrowsing_step (m : Model) (msg : Msg) (h : CursorInv m) :
    ∃ m1 c, updateBrowsing m msg = some (m1, c) ∧ CursorInv m1 ∧ m1.Inputs = m.Inputs := by
  cases msg with
  | KeyMsg key => exact updateBrowsing_key_step m key h
  | WindowSizeMsg w hgt => exact ⟨_, _, rfl, h, rfl⟩
  | SkillsDiscoveredMsg L => exact ⟨_, _, rfl, ⟨le_refl 0, Or.inl rfl⟩, rfl⟩
  | SkillConvertedMsg p o =>
    exact ⟨_, _, rfl, CursorInv_of_eq m _ rfl (markConverted_length p o m.Skills) h, rfl⟩
  | ConversionErrorMsg p x =>
    exact ⟨_, _, rfl, CursorInv_of_eq m _ rfl (markFailed_length p x m.Skills) h, rfl⟩
  | other tag => exact ⟨_, _, rfl, h, rfl⟩

theorem Update_step (lib : Lib) (m : Model) (msg : Msg) (h : Reachable m) :
    ∃ m1 c, Update lib m msg = some (m1, c) ∧ Reachable m1 := by
  unfold Update
  by_cases hq : msg = .KeyMsg "ctrl+c"
  · rw [if_pos hq]; exact ⟨_, _, rfl, h⟩
  · rw [if_neg hq]
    have hframe : ∀ m0 : Model, m0.Cursor = m.Cursor → m0.Skills = m.Skills →
        m0.Inputs = m.Inputs →
        ∃ m1 c, (match m0.State with
          | .StateConfig => updateConfig lib m0 msg
          | .StateBrowsing => updateBrowsing m0 msg) = some (m1, c) ∧ Reachable m1 := by
      intro m0 hc hs hi
      have hinv0 : CursorInv m0 := CursorInv_of_eq m m0 hc (by rw [hs]) h.1
      have hin0 : 2 ≤ m0.Inputs.length := by rw [hi]; exact h.2
      cases hst : m0.State with
      | StateConfig =>
        obtain ⟨r, hr⟩ := updateConfig_total lib m0 msg hin0
        have hr2 : updateConfig lib m0 msg = some (r.1, r.2) := hr
        obtain ⟨f1, f2, f3⟩ := updateConfig_frame_all lib m0 r.1 msg r.2 hr2
        exact ⟨r.1, r.2, hr2, CursorInv_of_eq m0 r.1 f2 (by rw [f1]) hinv0, by rw [f3]; exact hin0⟩
      | StateBrowsing =>
        obtain ⟨m1, c, h1, h2, h3⟩ := updateBrowsing_step m0 msg hinv0
        exact ⟨m1, c, h1, h2, by rw [h3]; exact hin0⟩
    cases msg with
    | WindowSizeMsg w hgt => exact hframe { m with width := w, height := hgt } rfl rfl rfl
    | KeyMsg k => exact hframe _ rfl rfl rfl
    | SkillsDiscoveredMsg L => exact hframe _ rfl rfl rfl
    | SkillConvertedMsg p o => exact hframe _ rfl rfl rfl
    | ConversionErrorMsg p x => exact hframe _ rfl rfl rfl
    | other tag => exact hframe _ rfl rfl rfl

theorem runMsgs_reachable (lib : Lib) (msgs : List Msg) :
    ∀ m : Model, Reachable m → ∃ m1, runMsgs lib m msgs = some m1 ∧ Reachable m1 := by
  induction msgs with
  | nil => intro m h; exact ⟨m, rfl, h⟩
  | cons msg rest ih =>
    intro m h
    obtain ⟨m1, c, h1, h2⟩ := Update_step lib m msg h
    obtain ⟨m2, h3, h4⟩ := ih m1 h2
    refine ⟨m2, ?_, h4⟩
    simp only [runMsgs, h1]
    exact h3

theorem cursor_up_raw (lib : Lib) (m : Model) (hB : m.State = .StateBrowsing) (key : String)
    (hk : key = "up" ∨ key = "k") :
    Update lib m (.KeyMsg key) =
      some (if m.Cursor > 0 then { m with Cursor := m.Cursor - 1 } else m, .nil) := by
  rcases hk with hk | hk <;> subst hk
  · rw [Update_browsing_key lib m "up" hB (by decide)]
    simp [updateBrowsing]
  · rw [Update_browsing_key lib m "k" hB (by decide)]
    simp [updateBrowsing]

theorem cursor_down_raw (lib : Lib) (m : Model) (hB : m.State = .StateBrowsing) (key : String)
    (hk : key = "down" ∨ key = "j") :
    Update lib m (.KeyMsg key) =
      some (if m.Cursor < (m.Skills.length : Int) - 1 then
        { m with Cursor := m.Cursor + 1 } else m, .nil) := by
  rcases hk with hk | hk <;> subst hk
  · rw [Update_browsing_key lib m "down" hB (by decide)]
    simp [updateBrowsing]
  · rw [Update_browsing_key lib m "j" hB (by decide)]
    simp [updateBrowsing]

theorem cursor_keys (lib : Lib) (m : Model) (hB : m.State = .StateBrowsing)
    (h : CursorInv m) :
    (∀ key, key = "up" ∨ key = "k" →
      Update lib m (.KeyMsg key) = some ({ m with Cursor := max (m.Cursor - 1) 0 }, .nil)) ∧
    (m.Skills ≠ [] → ∀ key, key = "down" ∨ key = "j" →
      Update lib m (.KeyMsg key) =
        some ({ m with Cursor := min (m.Cursor + 1) ((m.Skills.length : Int) - 1) }, .nil)) ∧
    (m.Skills = [] → ∀ key, key = "up" ∨ key = "k" ∨ key = "down" ∨ key = "j" →
      Update lib m (.KeyMsg key) = some (m, .nil)) := by
  obtain ⟨h0, h1⟩ := h
  refine ⟨?_, ?_, ?_⟩
  · intro key hk
    rw [cursor_up_raw lib m hB key hk]
    by_cases hc : m.Cursor > 0
    · rw [if_pos hc, max_eq_left (by omega)]
    · have hz : m.Cursor = 0 := by omega
      rw [if_neg hc, hz, max_eq_right (by omega)]
      cases m
      simp only at hz
      simp [hz]
  · intro hne key hk
    have hlen : 0 < m.Skills.length := List.length_pos.mpr hne
    have hlt : m.Cursor < (m.Skills.length : Int) := by
      rcases h1 with h1 | h1
      · rw [h1]; exact_mod_cast hlen
      · exact h1
    rw [cursor_down_raw lib m hB key hk]
    by_cases hc : m.Cursor < (m.Skills.length : Int) - 1
    · rw [if_pos hc, min_eq_left (by omega)]
    · have hz : m.Cursor = (m.Skills.length : Int) - 1 := by omega
      rw [if_neg hc, min_eq_right (by omega)]
      cases m
      simp only at hz
      simp [hz]
  · intro hnil key hk
    have hlen : (m.Skills.length : Int) = 0 := by rw [hnil]; rfl
    have hz : m.Cursor = 0 := by
      rcases h1 with h1 | h1
      · exact h1
      · omega
    rcases hk with hk | hk | hk | hk
    · rw [cursor_up_raw lib m hB key (Or.inl hk), if_neg (by omega)]
    · rw [cursor_up_raw lib m hB key (Or.inr hk), if_neg (by omega)]
    · rw [cursor_down_raw lib m hB key (Or.inl hk), if_neg (by omega)]
    · rw [cursor_down_raw lib m hB key (Or.inr hk), if_neg (by omega)]

/-- C21: take a browsing model whose cursor is 0 on an empty list and a position
of the list otherwise. Move-up (`up` or `k`) yields the same model with the
cursor `max(cursor - 1, 0)`, move-down (`down` or `j`) yields it with the cursor
`min(cursor + 1, len - 1)` on a non-empty list, and all four keys leave the
model unchanged on an empty list; the model after either move has the cursor 0
on an empty list and a position of the list otherwise. Consequently, feed the
controller any sequence of messages from `NewModel(cfg)`: it never panics, and
in the model it reaches the cursor is 0 when the list is empty and otherwise
lies between 0 and the length minus one, so the entity the convert intents
index by the cursor exists and every further message is handled. -/
theorem C21_cursor_in_bounds (lib : Lib) (m : Model) (hB : m.State = .StateBrowsing)
    (h0 : 0 ≤ m.Cursor) (h1 : m.Cursor = 0 ∨ m.Cursor < (m.Skills.length : Int)) :
    (∀ key, key = "up" ∨ key = "k" →
      Update lib m (.KeyMsg key) = some ({ m with Cursor := max (m.Cursor - 1) 0 }, .nil)) ∧
    (m.Skills ≠ [] → ∀ key, key = "down" ∨ key = "j" →
      Update lib m (.KeyMsg key) =
        some ({ m with Cursor := min (m.Cursor + 1) ((m.Skills.length : Int) - 1) }, .nil)) ∧
    (m.Skills = [] → ∀ key, key = "up" ∨ key = "k" ∨ key = "down" ∨ key = "j" →
      Update lib m (.KeyMsg key) = some (m, .nil)) ∧
    (∀ key, key = "up" ∨ key = "k" ∨ key = "down" ∨ key = "j" →
      ∃ m1, Update lib m (.KeyMsg key) = some (m1, .nil) ∧ m1.Skills = m.Skills ∧
        0 ≤ m1.Cursor ∧ (m1.Cursor = 0 ∨ m1.Cursor < (m1.Skills.length : Int))) ∧
    (∀ (cfg : AppConfig) (msgs : List Msg), ∃ r, runMsgs lib (NewModel cfg) msgs = some r ∧
      (r.Skills = [] → r.Cursor = 0) ∧
      (r.Skills ≠ [] → 0 ≤ r.Cursor ∧ r.Cursor ≤ (r.Skills.length : Int) - 1) ∧
      (r.Skills ≠ [] → ∃ skill, getAt r.Skills r.Cursor = some skill) ∧
      (∀ msg, ∃ x, Update lib r msg = some x)) := by
  have hk := cursor_keys lib m hB ⟨h0, h1⟩
  refine ⟨hk.1, hk.2.1, hk.2.2, ?_, ?_⟩
  · intro key hkey
    have hup : ∀ key, key = "up" ∨ key = "k" →
        ∃ m1, Update lib m (.KeyMsg key) = some (m1, .nil) ∧ m1.Skills = m.Skills ∧
          0 ≤ m1.Cursor ∧ (m1.Cursor = 0 ∨ m1.Cursor < (m1.Skills.length : Int)) := by
      intro key hkey
      rw [cursor_up_raw lib m hB key hkey]
      by_cases hc : m.Cursor > 0
      · rw [if_pos hc]
        refine ⟨_, rfl, rfl, ?_, ?_⟩
        · show 0 ≤ m.Cursor - 1
          omega
        · right
          show m.Cursor - 1 < (m.Skills.length : Int)
          omega
      · rw [if_neg hc]
        exact ⟨_, rfl, rfl, h0, h1⟩
    have hdown : ∀ key, key = "down" ∨ key = "j" →
        ∃ m1, Update lib m (.KeyMsg key) = some (m1, .nil) ∧ m1.Skills = m.Skills ∧
          0 ≤ m1.Cursor ∧ (m1.Cursor = 0 ∨ m1.Cursor < (m1.Skills.length : Int)) := by
      intro key hkey
      rw [cursor_down_raw lib m hB key hkey]
      by_cases hc : m.Cursor < (m.Skills.length : Int) - 1
      · rw [if_pos hc]
        refine ⟨_, rfl, rfl, ?_, ?_⟩
        · show 0 ≤ m.Cursor + 1
          omega
        · right
          show m.Cursor + 1 < (m.Skills.length : Int)
          omega
      · rw [if_neg hc]
        exact ⟨_, rfl, rfl, h0, h1⟩
    rcases hkey with hkey | hkey | hkey | hkey
    · exact hup key (Or.inl hkey)
    · exact hup key (Or.inr hkey)
    · exact hdown key (Or.inl hkey)
    · exact hdown key (Or.inr hkey)
  · intro cfg msgs
    have hinit : Reachable (NewModel cfg) := by
      refine ⟨⟨le_refl 0, Or.inl rfl⟩, ?_⟩
      simp [NewModel]
    obtain ⟨r, hrun, hreach⟩ := runMsgs_reachable lib msgs (NewModel cfg) hinit
    obtain ⟨hc0, hc1⟩ := hreach.1
    refine ⟨r, hrun, ?_, ?_, ?_, ?_⟩
    · intro hnil
      have hlen : (r.Skills.length : Int) = 0 := by rw [hnil]; rfl
      rcases hc1 with h | h
      · exact h
      · omega
    · intro hne
      have hlen : 0 < r.Skills.length := List.length_pos.mpr hne
      refine ⟨hc0, ?_⟩
      rcases hc1 with h | h
      · rw [h]; omega
      · omega
    · intro hne
      exact getAt_of_inv r hreach.1 (List.length_pos.mpr hne)
    · intro msg
      obtain ⟨m1, c, hm1, _⟩ := Update_step lib r msg hreach
      exact ⟨(m1, c), hm1⟩

/-- C21 on the browsing model showing `A`, `B`, `C` with the cursor on `B`:
`up` and `k` move the cursor to 0, `down` and `j` move it to 2; with the cursor
on `A` move-up leaves it at 0, with the cursor on `C` move-down leaves it at 2;
on the empty list nothing moves. -/
theorem C21_cursor_in_bounds_witness :
    (cursorOnB.State = .StateBrowsing ∧ 0 ≤ cursorOnB.Cursor ∧
      (cursorOnB.Cursor = 0 ∨ cursorOnB.Cursor < (cursorOnB.Skills.length : Int)) ∧
      cursorOnB.Skills ≠ [] ∧ cursorOnB.Cursor = 1 ∧ cursorOnB.Skills.length = 3) ∧
    Update plainLib cursorOnB (.KeyMsg "up") = some ({ cursorOnB with Cursor := 0 }, .nil) ∧
    Update plainLib cursorOnB (.KeyMsg "k") = some ({ cursorOnB with Cursor := 0 }, .nil) ∧
    Update plainLib cursorOnB (.KeyMsg "down") = some ({ cursorOnB with Cursor := 2 }, .nil) ∧
    Update plainLib cursorOnB (.KeyMsg "j") = some ({ cursorOnB with Cursor := 2 }, .nil) ∧
    Update plainLib (browsingList scenarioABC) (.KeyMsg "k") =
      some ({ browsingList scenarioABC with Cursor := 0 }, .nil) ∧
    Update plainLib { cursorOnB with Cursor := 2 } (.KeyMsg "j") =
      some ({ cursorOnB with Cursor := 2 }, .nil) ∧
    Update plainLib (browsingList []) (.KeyMsg "j") = some (browsingList [], .nil) :=
  ⟨⟨rfl, by decide, by decide, by decide, rfl, rfl⟩,
   (C21_cursor_in_bounds plainLib cursorOnB rfl (by decide) (by decide)).1 "up" (Or.inl rfl),
   (C21_cursor_in_bounds plainLib cursorOnB rfl (by decide) (by decide)).1 "k" (Or.inr rfl),
   (C21_cursor_in_bounds plainLib cursorOnB rfl (by decide) (by decide)).2.1 (by decide)
     "down" (Or.inl rfl),
   (C21_cursor_in_bounds plainLib cursorOnB rfl (by decide) (by decide)).2.1 (by decide)
     "j" (Or.inr rfl),
   (C21_cursor_in_bounds plainLib (browsingList scenarioABC) rfl (by decide) (by decide)).1
     "k" (Or.inr rfl),
   (C21_cursor_in_bounds plainLib { cursorOnB with Cursor := 2 } rfl (by decide)
     (by decide)).2.1 (by decide) "j" (Or.inr rfl),
   (C21_cursor_in_bounds plainLib (browsingList []) rfl (by decide) (by decide)).2.2.1 rfl
     "j" (Or.inr (Or.inr (Or.inr rfl)))⟩

end SkillPorter



























